import Mathlib

/-!
# React-Learnings: the `useMemo` demo utilities and the router loader

A shallow embedding of `hooks/useMemo/src/utils/performanceUtils.js`, of the filter
pipeline and the statistics of `hooks/useMemo/src/components/RealWorldExample.jsx`, and
of `react-router-dom-learning/src/loaders/githubLoader.js`, followed by the properties
proved about them.

Modelling conventions
* JavaScript numbers that hold integers are modelled as `Int` (exact arithmetic;
  this agrees with double arithmetic for magnitudes below `2^53`); numbers that need
  fractions, `NaN` or the infinities are modelled by `JSNum`, finite values being
  rationals. In the averages of the statistics every parsed value, sum and quotient is
  rounded to the nearest double (`roundDouble`), as the code computes them.
* A `Map` keyed by strings is an insertion-ordered list of entries with at most
  one entry per key.
* Arrays are objects on a heap, so that a method that rearranges its receiver can be told
  from one that builds a new array.
* Code with side effects is modelled by explicit state passing; a thrown fault
  is the `Except.error` alternative of the returned outcome.
-/

namespace PerformanceUtils

/-! ## Definitions -/

/-- The function `fibonacci` of `performanceUtils.js`:
`if (n <= 1) return n; return fibonacci(n - 1) + fibonacci(n - 2);` -/
def fibonacci (n : Int) : Int :=
  if n ≤ 1 then n else fibonacci (n - 1) + fibonacci (n - 2)
termination_by n.toNat
decreasing_by
  all_goals simp_wf
  all_goals omega

/-! ### The `Map` held by `RenderCounter` -/

/-- A JavaScript `Map` from string labels to numbers: its entries in insertion
order. -/
structure JSMap where
  entries : List (String × Int)
deriving DecidableEq, Repr

/-- Lookup in an entry list: the value of the first entry with the given key,
`none` standing for `undefined`. -/
def lookupEntry : List (String × Int) → String → Option Int
  | [], _ => none
  | (k, v) :: rest, key => if k = key then some v else lookupEntry rest key

/-- Store in an entry list: an existing entry keeps its position and takes the
new value, a new key is appended at the end. -/
def storeEntry : List (String × Int) → String → Int → List (String × Int)
  | [], key, v => [(key, v)]
  | (k, w) :: rest, key, v =>
    if k = key then (k, v) :: rest else (k, w) :: storeEntry rest key v

/-- The expression `new Map()`. -/
def JSMap.empty : JSMap := ⟨[]⟩

/-- The method `Map.prototype.get`. -/
def JSMap.get (m : JSMap) (key : String) : Option Int := lookupEntry m.entries key

/-- The method `Map.prototype.has`. -/
def JSMap.has (m : JSMap) (key : String) : Bool := (lookupEntry m.entries key).isSome

/-- The method `Map.prototype.set`. -/
def JSMap.set (m : JSMap) (key : String) (v : Int) : JSMap := ⟨storeEntry m.entries key v⟩

/-- The method `Map.prototype.clear`. -/
def JSMap.clear (_m : JSMap) : JSMap := ⟨[]⟩

/-- The expression `v || 0` for `v` a number or `undefined`: `undefined` and `0`
are falsy and give the right operand, any other number is returned as is. -/
def orZero : Option Int → Int
  | none => 0
  | some v => if v = 0 then 0 else v

/-! ### `RenderCounter` -/

/-- The class `RenderCounter`: its only field is the map `counts`. -/
structure RenderCounter where
  counts : JSMap
deriving DecidableEq, Repr

/-- The constructor: `this.counts = new Map()`. -/
def RenderCounter.new : RenderCounter := ⟨JSMap.empty⟩

/-- The method `increment(componentName)`: returns the updated object and the
returned number. -/
def RenderCounter.increment (self : RenderCounter) (componentName : String) :
    RenderCounter × Int :=
  let current := orZero (self.counts.get componentName)
  (⟨self.counts.set componentName (current + 1)⟩, current + 1)

/-- The method `get(componentName)`: returns the object after the call and the
returned number. -/
def RenderCounter.get (self : RenderCounter) (componentName : String) :
    RenderCounter × Int :=
  (self, orZero (self.counts.get componentName))

/-- The method `reset(componentName)`: `this.counts.set(componentName, 0)`. -/
def RenderCounter.reset (self : RenderCounter) (componentName : String) : RenderCounter :=
  ⟨self.counts.set componentName 0⟩

/-- The method `resetAll()`: `this.counts.clear()`. -/
def RenderCounter.resetAll (self : RenderCounter) : RenderCounter :=
  ⟨self.counts.clear⟩

/-- Every stored count is non-negative. -/
def CountsNonneg (s : RenderCounter) : Prop := ∀ e ∈ s.counts.entries, 0 ≤ e.2

/-- A method call on a `RenderCounter`. -/
inductive Call where
  | increment (componentName : String)
  | get (componentName : String)
  | reset (componentName : String)
  | resetAll
deriving DecidableEq, Repr

/-- What a method call returns: a number, or `undefined` for the two methods
without a `return`. -/
inductive Returned where
  | number (n : Int)
  | undefined
deriving DecidableEq, Repr

/-- One method call: the object afterwards and the returned value. -/
def RenderCounter.call (self : RenderCounter) : Call → RenderCounter × Returned
  | Call.increment l => ((self.increment l).1, Returned.number (self.increment l).2)
  | Call.get l => ((self.get l).1, Returned.number (self.get l).2)
  | Call.reset l => (self.reset l, Returned.undefined)
  | Call.resetAll => (self.resetAll, Returned.undefined)

/-- A sequence of method calls made one after the other: the object afterwards
and the returned values in call order. -/
def RenderCounter.run (self : RenderCounter) : List Call → RenderCounter × List Returned
  | [] => (self, [])
  | c :: cs =>
    let step := self.call c
    let later := step.1.run cs
    (later.1, step.2 :: later.2)

/-- Whether a call is `reset` or `resetAll`. -/
def Call.isReset : Call → Bool
  | Call.reset _ => true
  | Call.resetAll => true
  | _ => false

/-- The calls made after the last `resetAll` of a sequence (the whole sequence
when it contains none). -/
def sinceLastResetAll : List Call → List Call
  | [] => []
  | c :: cs =>
    if Call.resetAll ∈ cs then sinceLastResetAll cs
    else if c = Call.resetAll then cs
    else c :: cs

/-! ### `measureExecutionTime` -/

/-- What `measureExecutionTime` and the computation it wraps can observe and change:
the state of the program, the number of readings taken from the clock so far, and the
lines written by `console.log`. -/
structure Runtime (σ : Type) where
  program : σ
  clockReads : Nat
  console : List String
deriving DecidableEq, Repr

/-- The call `performance.now()`: the next reading of the clock, `clock i` being the
reading returned by the `i`-th call. -/
def performanceNow {σ T : Type} (clock : Nat → T) (rt : Runtime σ) : T × Runtime σ :=
  (clock rt.clockReads, { rt with clockReads := rt.clockReads + 1 })

/-- The call `console.log(line)`. -/
def consoleLog {σ : Type} (line : String) (rt : Runtime σ) : Runtime σ :=
  { rt with console := rt.console ++ [line] }

/-- The record `{ result, time }` returned by `measureExecutionTime`; `time` is the
string produced by `toFixed(3)`. -/
structure TimedResult (α : Type) where
  result : α
  time : String
deriving DecidableEq, Repr

/-- The outcome of running code that may throw: the value or the thrown fault, and the
runtime state it leaves behind. -/
abbrev Outcome (ε α σ : Type) := Except ε α × Runtime σ

/-- The function `measureExecutionTime(fn, label = 'Operation')`. The clock readings
and `Number.prototype.toFixed` belong to the JavaScript runtime and are parameters;
`label = none` is the omitted argument. A fault thrown by `fn` leaves the function at
the line `const result = fn();`. -/
def measureExecutionTime {σ α ε T : Type} [Sub T] (clock : Nat → T)
    (toFixed : T → Nat → String) (fn : Runtime σ → Outcome ε α σ)
    (label : Option String) (rt : Runtime σ) : Outcome ε (TimedResult α) σ :=
  let start := performanceNow clock rt
  match fn start.2 with
  | (Except.error e, rt2) => (Except.error e, rt2)
  | (Except.ok result, rt2) =>
    let stop := performanceNow clock rt2
    let time := toFixed (stop.1 - start.1) 3
    let rt4 := consoleLog (label.getD "Operation" ++ ": " ++ time ++ "ms") stop.2
    (Except.ok { result := result, time := time }, rt4)

/-- A runtime whose program state carries an invocation counter next to it. -/
def withCount {σ : Type} (rt : Runtime σ) (n : Nat) : Runtime (σ × Nat) :=
  { program := (rt.program, n), clockReads := rt.clockReads, console := rt.console }

/-- Instrumentation for counting invocations: `counted fn` behaves as `fn` on the
program state and adds one to the invocation counter each time it is invoked. -/
def counted {σ α ε : Type} (fn : Runtime σ → Outcome ε α σ) (rt : Runtime (σ × Nat)) :
    Outcome ε α (σ × Nat) :=
  let out := fn { program := rt.program.1, clockReads := rt.clockReads, console := rt.console }
  (out.1, withCount out.2 (rt.program.2 + 1))

/-! ### JavaScript numbers and the strings `toFixed` writes

A finite number is a rational, and `NaN`, `Infinity`, `-Infinity` are separate values.
The operators `add`, `sub` and `divLength` compute the exact rational result and
`JSNum.toDouble` rounds a result to the nearest double. The averages of the statistics
apply the rounding after every operation; the comparisons of the sort and the differences
of two clock readings use the exact result. -/

/-- A JavaScript number. -/
inductive JSNum where
  | fin (q : ℚ)
  | nan
  | posInf
  | negInf
deriving DecidableEq, Repr

/-- Unary minus. -/
def JSNum.neg : JSNum → JSNum
  | JSNum.fin q => JSNum.fin (-q)
  | JSNum.nan => JSNum.nan
  | JSNum.posInf => JSNum.negInf
  | JSNum.negInf => JSNum.posInf

/-- The operator `+` on numbers. -/
def JSNum.add : JSNum → JSNum → JSNum
  | JSNum.fin a, JSNum.fin b => JSNum.fin (a + b)
  | JSNum.fin _, y => y
  | JSNum.nan, _ => JSNum.nan
  | JSNum.posInf, JSNum.nan => JSNum.nan
  | JSNum.posInf, JSNum.negInf => JSNum.nan
  | JSNum.posInf, _ => JSNum.posInf
  | JSNum.negInf, JSNum.nan => JSNum.nan
  | JSNum.negInf, JSNum.posInf => JSNum.nan
  | JSNum.negInf, _ => JSNum.negInf

/-- The operator `-` on numbers. -/
def JSNum.sub (x y : JSNum) : JSNum := JSNum.add x (JSNum.neg y)

/-- The operator `/` with an array length as right operand. -/
def JSNum.divLength : JSNum → Nat → JSNum
  | JSNum.nan, _ => JSNum.nan
  | JSNum.posInf, _ => JSNum.posInf
  | JSNum.negInf, _ => JSNum.negInf
  | JSNum.fin q, 0 =>
    if q = 0 then JSNum.nan else if 0 < q then JSNum.posInf else JSNum.negInf
  | JSNum.fin q, n + 1 => JSNum.fin (q / ((n : ℚ) + 1))

/-- The operator `>=` on numbers (false as soon as an operand is `NaN`). -/
def JSNum.ge : JSNum → JSNum → Bool
  | JSNum.nan, _ => false
  | _, JSNum.nan => false
  | JSNum.posInf, _ => true
  | _, JSNum.negInf => true
  | JSNum.fin a, JSNum.fin b => decide (b ≤ a)
  | JSNum.fin _, JSNum.posInf => false
  | JSNum.negInf, _ => false

/-- Whether a number is greater than zero. -/
def JSNum.isPositive : JSNum → Bool
  | JSNum.fin q => decide (0 < q)
  | JSNum.posInf => true
  | _ => false

/-- The rational a finite number stands for (0 for the three others). -/
def JSNum.toRat : JSNum → ℚ
  | JSNum.fin q => q
  | _ => 0

/-- A string that writes a number the way `Number.prototype.toFixed` does. The numeral
`numeral negative units digits` is the text made of the decimal digits of `units`,
padded with leading zeros to `digits + 1` characters, with a point before the last
`digits` of them and a leading minus sign when `negative`; `"3.7"` is
`numeral false 37 1` and `"20.00"` is `numeral false 2000 2`. -/
inductive NumStr where
  | numeral (negative : Bool) (units : Nat) (digits : Nat)
  | nan
  | posInf
  | negInf
deriving DecidableEq, Repr

/-- The characters of such a string. -/
def NumStr.render : NumStr → String
  | NumStr.numeral negative units digits =>
    let written := Nat.toDigits 10 units
    let padded := List.replicate (digits + 1 - written.length) '0' ++ written
    let whole := String.mk (padded.take (padded.length - digits))
    let fraction := String.mk (padded.drop (padded.length - digits))
    (if negative then "-" else "") ++ whole ++ (if digits = 0 then "" else "." ++ fraction)
  | NumStr.nan => "NaN"
  | NumStr.posInf => "Infinity"
  | NumStr.negInf => "-Infinity"

/-- The number such a string converts to, both under `parseFloat` and under the implicit
conversion of the operator `-`. -/
def NumStr.toNumber : NumStr → JSNum
  | NumStr.numeral negative units digits =>
    JSNum.fin ((if negative then -1 else 1) * ((units : ℚ) / 10 ^ digits))
  | NumStr.nan => JSNum.nan
  | NumStr.posInf => JSNum.posInf
  | NumStr.negInf => JSNum.negInf

/-- The function `parseFloat` on such a string. -/
def parseFloat (s : NumStr) : JSNum := s.toNumber

/-- The method `x.toFixed(fractionDigits)`, following ECMAScript: the sign is split off
and `units` is the integer `n` for which `n / 10^fractionDigits` is closest to the
magnitude, the larger one on a tie. (From `10^21` on the built-in switches to exponent
notation; such magnitudes are beyond the exact-arithmetic convention and are not
modelled.) -/
def toFixed (x : JSNum) (fractionDigits : Nat) : NumStr :=
  match x with
  | JSNum.nan => NumStr.nan
  | JSNum.posInf => NumStr.posInf
  | JSNum.negInf => NumStr.negInf
  | JSNum.fin q =>
    NumStr.numeral (decide (q < 0)) (⌊|q| * 10 ^ fractionDigits + 1 / 2⌋).toNat fractionDigits

/-- The integer nearest to `x`, the even one of the two on a tie. -/
def roundHalfEven (x : ℚ) : Int :=
  if x - ⌊x⌋ < 1 / 2 then ⌊x⌋
  else if 1 / 2 < x - ⌊x⌋ then ⌊x⌋ + 1
  else if ⌊x⌋ % 2 = 0 then ⌊x⌋ else ⌊x⌋ + 1

/-- The double nearest to the rational `q`, as IEEE 754 round-to-nearest, ties-to-even,
gives it: for `2^e ≤ |q| < 2^(e+1)` the multiple of `2^(e-52)` nearest to `q`, so that
53 significant bits are kept. (The exponent is not bounded: overflow to an infinity
beyond `2^1024` and the subnormal numbers below `2^-1022` are not modelled.) -/
def roundDouble (q : ℚ) : ℚ :=
  if q = 0 then 0
  else (roundHalfEven (q / 2 ^ (Int.log 2 |q| - 52)) : ℚ) * 2 ^ (Int.log 2 |q| - 52)

/-- The number a result is stored as: a finite value is rounded to the nearest double. -/
def JSNum.toDouble : JSNum → JSNum
  | JSNum.fin q => JSNum.fin (roundDouble q)
  | x => x

/-- A bound on the relative error of the mean of `n` non-negative numbers computed in
double arithmetic (each number rounded once, then `n` rounded additions and one rounded
division): `(1 + 2^-53)^(n+2) - 1`, about `(n + 2) * 1.1e-16`. -/
def doubleError (n : Nat) : ℚ := (1 + 1 / 2 ^ 53) ^ (n + 2) - 1

/-! ### Catalog items and the host string functions -/

/-- An item of the catalog, with the fields `generateLargeDataset` gives it. -/
structure Product where
  id : Nat
  name : String
  category : String
  brand : String
  price : Int
  rating : NumStr
  inStock : Bool
  description : String
deriving DecidableEq, Repr

/-- String built-ins whose result depends on the Unicode tables and the locale of the
host; they are parameters of the functions that use them. -/
structure Host where
  toLowerCase : String → String
  localeCompare : String → String → Int

/-- The method `s.includes(search)`: `search` occurs in `s` as a contiguous run. -/
def includes (s search : String) : Bool := decide (search.data <:+: s.data)

/-- The values the sort selector offers for `sortBy`. -/
inductive SortKey where
  | name
  | price
  | rating
  | brand
deriving DecidableEq, Repr

/-! ### Arrays of catalog items

Arrays are objects: a variable holds a reference, `filter` allocates a new array and
`sort` rearranges the array it is called on. -/

/-- The array objects that exist, by address. -/
structure Heap where
  arrays : List (List Product)
deriving DecidableEq, Repr

/-- The items of the array at a reference. -/
def Heap.read (heap : Heap) (ref : Nat) : List Product := heap.arrays.getD ref []

/-- A new array with the given items: its reference and the heap holding it. -/
def Heap.alloc (heap : Heap) (items : List Product) : Nat × Heap :=
  (heap.arrays.length, ⟨heap.arrays ++ [items]⟩)

/-- Replace the items of the array at a reference. -/
def Heap.write (heap : Heap) (ref : Nat) (items : List Product) : Heap :=
  ⟨heap.arrays.set ref items⟩

/-- The method `array.filter(callback)`: a new array with the items the callback
accepts, in their order; the receiver is left alone. -/
def arrayFilter (callback : Product → Bool) (ref : Nat) (heap : Heap) : Nat × Heap :=
  heap.alloc ((heap.read ref).filter callback)

/-- Modelled from the spec: `Array.prototype.sort` is a built-in of the host, absent
from the source; the specification assumes it stable, as ECMAScript requires. Item `x`
may stay before item `y` unless `comparefn(x, y)` is greater than zero (a `NaN` result
counts as zero). -/
def sortOrder (comparefn : Product → Product → JSNum) (x y : Product) : Prop :=
  (comparefn x y).isPositive = false

instance sortOrderDecidable (comparefn : Product → Product → JSNum) :
    DecidableRel (sortOrder comparefn) :=
  fun x y => inferInstanceAs (Decidable ((comparefn x y).isPositive = false))

/-- Modelled from the spec: `Array.prototype.sort` is a built-in of the host, absent
from the source; the specification assumes a stable sort (input order kept for equal
keys), as ECMAScript requires, so for a consistent comparator its result is the one of
insertion sort. -/
def sortedItems (comparefn : Product → Product → JSNum) (items : List Product) :
    List Product :=
  items.insertionSort (sortOrder comparefn)

/-- The method `array.sort(comparefn)`: sorts the receiver in place and returns it. -/
def arraySort (comparefn : Product → Product → JSNum) (ref : Nat) (heap : Heap) :
    Nat × Heap :=
  (ref, heap.write ref (sortedItems comparefn (heap.read ref)))

/-- The heap `h2` still holds every array of `h`, with the items it had in `h`. -/
def Keeps (h h2 : Heap) : Prop :=
  h.arrays.length ≤ h2.arrays.length ∧ ∀ r, r < h.arrays.length → h2.read r = h.read r

/-- The comparator of `filterAndSortData`: `a.price - b.price` for `'price'`, otherwise
`a[sortBy].localeCompare(b[sortBy])`. -/
def filterAndSortData.compare (host : Host) : SortKey → Product → Product → JSNum
  | SortKey.price, a, b => JSNum.fin ((a.price - b.price : Int) : ℚ)
  | SortKey.name, a, b => JSNum.fin (host.localeCompare a.name b.name)
  | SortKey.rating, a, b => JSNum.fin (host.localeCompare a.rating.render b.rating.render)
  | SortKey.brand, a, b => JSNum.fin (host.localeCompare a.brand b.brand)

/-- The function `filterAndSortData(data, searchTerm, sortBy = 'name')`; `sortBy = none`
is the omitted argument. The trace line it logs does not bear on the result. -/
def filterAndSortData (host : Host) (data : Nat) (searchTerm : String)
    (sortBy : Option SortKey) (heap : Heap) : Nat × Heap :=
  let filtered := arrayFilter
    (fun item =>
      includes (host.toLowerCase item.name) (host.toLowerCase searchTerm)
        || includes (host.toLowerCase item.category) (host.toLowerCase searchTerm))
    data heap
  arraySort (filterAndSortData.compare host (sortBy.getD SortKey.name)) filtered.1 filtered.2

/-! ### `generateLargeDataset` -/

/-- The constant `categories` of `generateLargeDataset`. -/
def generateLargeDataset.categories : List String :=
  ["Electronics", "Clothing", "Books", "Home", "Sports", "Food", "Beauty"]

/-- The constant `brands` of `generateLargeDataset`. -/
def generateLargeDataset.brands : List String :=
  ["Apple", "Samsung", "Nike", "Adidas", "Amazon", "Sony", "HP"]

/-- Element access `xs[i]` with an integer index, `none` standing for `undefined`. -/
def elementAt (xs : List String) (i : Int) : Option String :=
  if 0 ≤ i then xs[i.toNat]? else none

/-- The item built for one index. `random k` is the value returned by the `k`-th call of
`Math.random()`; the five calls of an item are made in the order of the fields. A
string field read from outside its list would be `undefined`, written `"undefined"`
here. -/
def generateLargeDataset.item (random : Nat → ℚ) (index : Nat) : Product where
  id := index + 1
  name := "Product " ++ toString (index + 1)
  category :=
    (elementAt generateLargeDataset.categories
      ⌊random (5 * index) * generateLargeDataset.categories.length⌋).getD "undefined"
  brand :=
    (elementAt generateLargeDataset.brands
      ⌊random (5 * index + 1) * generateLargeDataset.brands.length⌋).getD "undefined"
  price := ⌊random (5 * index + 2) * 1000⌋ + 10
  rating := toFixed (JSNum.fin (random (5 * index + 3) * 4 + 1)) 1
  inStock := decide (random (5 * index + 4) > 2 / 10)
  description := "This is a description for product " ++ toString (index + 1)

/-- The function `generateLargeDataset(size = 1000)`; `size = none` is the omitted
argument. -/
def generateLargeDataset (random : Nat → ℚ) (size : Option Nat) : List Product :=
  (List.range (size.getD 1000)).map (generateLargeDataset.item random)

/-- A thrown error object. -/
structure JSError where
  name : String
  message : String
deriving DecidableEq, Repr

end PerformanceUtils

/-! ### `components/RealWorldExample.jsx` -/

namespace RealWorldExample

open PerformanceUtils

/-- The comparator passed to `sort`: `a.price - b.price` for `'price'`,
`b.rating - a.rating` for `'rating'`, otherwise `a[sortBy].localeCompare(b[sortBy])`. -/
def compare (host : Host) : SortKey → Product → Product → JSNum
  | SortKey.price, a, b => JSNum.fin ((a.price - b.price : Int) : ℚ)
  | SortKey.rating, a, b => JSNum.sub b.rating.toNumber a.rating.toNumber
  | SortKey.name, a, b => JSNum.fin (host.localeCompare a.name b.name)
  | SortKey.brand, a, b => JSNum.fin (host.localeCompare a.brand b.brand)

/-- The callback of the search filter. -/
def matchesSearch (host : Host) (searchTerm : String) (product : Product) : Bool :=
  includes (host.toLowerCase product.name) (host.toLowerCase searchTerm)
    || includes (host.toLowerCase product.category) (host.toLowerCase searchTerm)
    || includes (host.toLowerCase product.brand) (host.toLowerCase searchTerm)

/-- The body of the `useMemo` callback `filteredProductsWithMemo` (the same statements
make up `filteredProductsWithoutMemo`): the reference it returns and the heap it leaves.
The trace lines and the clock readings do not bear on the result. -/
def filteredProductsWithMemo (host : Host) (products : Nat) (searchTerm : String)
    (selectedCategory : String) (priceRange : Int × Int) (sortBy : SortKey) (heap : Heap) :
    Nat × Heap :=
  let filtered : Nat × Heap := (products, heap)
  let filtered : Nat × Heap :=
    if searchTerm ≠ "" then arrayFilter (matchesSearch host searchTerm) filtered.1 filtered.2
    else filtered
  let filtered : Nat × Heap :=
    if selectedCategory ≠ "all" then
      arrayFilter (fun product => decide (product.category = selectedCategory))
        filtered.1 filtered.2
    else filtered
  let filtered : Nat × Heap :=
    arrayFilter
      (fun product =>
        decide (product.price ≥ priceRange.1) && decide (product.price ≤ priceRange.2))
      filtered.1 filtered.2
  arraySort (compare host sortBy) filtered.1 filtered.2

/-- The items the three filters keep, in their order. -/
def keptItems (host : Host) (searchTerm selectedCategory : String) (priceRange : Int × Int)
    (items : List Product) : List Product :=
  let afterSearch :=
    if searchTerm ≠ "" then items.filter (matchesSearch host searchTerm) else items
  let afterCategory :=
    if selectedCategory ≠ "all" then
      afterSearch.filter (fun product => decide (product.category = selectedCategory))
    else afterSearch
  afterCategory.filter
    (fun product =>
      decide (product.price ≥ priceRange.1) && decide (product.price ≤ priceRange.2))

/-- The conditions of the filter in the words of the specification: the search term is
empty or occurs, lower-cased, in the lower-cased name, category or brand; the category
is `'all'` or the item's category; the price lies between the bounds, both included. -/
def Qualifies (host : Host) (searchTerm category : String) (lo hi : Int) (p : Product) :
    Prop :=
  (searchTerm = ""
      ∨ (host.toLowerCase searchTerm).data <:+: (host.toLowerCase p.name).data
      ∨ (host.toLowerCase searchTerm).data <:+: (host.toLowerCase p.category).data
      ∨ (host.toLowerCase searchTerm).data <:+: (host.toLowerCase p.brand).data)
    ∧ (category = "all" ∨ p.category = category)
    ∧ (lo ≤ p.price ∧ p.price ≤ hi)

instance qualifiesDecidable (host : Host) (searchTerm category : String) (lo hi : Int) :
    DecidablePred (Qualifies host searchTerm category lo hi) :=
  fun _ => by
    unfold Qualifies
    infer_instance

/-- The object computed by the `useMemo` callback `statistics`. -/
structure Statistics where
  total : Nat
  avgPrice : NumStr
  avgRating : NumStr
  maxPrice : JSNum
  minPrice : JSNum
  inStockCount : Nat
deriving DecidableEq, Repr

/-- The call `Math.max(...prices)`: `-Infinity` without arguments. -/
def mathMax : List Int → JSNum
  | [] => JSNum.negInf
  | x :: xs => JSNum.fin ((xs.foldl max x : Int) : ℚ)

/-- The call `Math.min(...prices)`: `Infinity` without arguments. -/
def mathMin : List Int → JSNum
  | [] => JSNum.posInf
  | x :: xs => JSNum.fin ((xs.foldl min x : Int) : ℚ)

/-- The body of the `useMemo` callback `statistics`; `activeProducts = none` is `null`,
on which `activeProducts.map` throws a `TypeError`. The two averages are computed in
double arithmetic: `parseFloat` returns the double nearest to the numeral, and every `+`
of the two `reduce` calls and the `/` by the length round their result to the nearest
double before `toFixed` writes it. -/
def statistics (activeProducts : Option (List Product)) : Except JSError Statistics :=
  match activeProducts with
  | none => Except.error ⟨"TypeError", "Cannot read properties of null (reading 'map')"⟩
  | some items =>
    let prices : List Int := items.map (fun p => p.price)
    let ratings : List JSNum := items.map (fun p => (parseFloat p.rating).toDouble)
    Except.ok
      { total := items.length
        avgPrice :=
          toFixed
            (JSNum.divLength
              (prices.foldl
                (fun (sum : JSNum) (price : Int) =>
                  (JSNum.add sum (JSNum.fin (price : ℚ))).toDouble)
                (JSNum.fin 0))
              prices.length).toDouble 2
        avgRating :=
          toFixed
            (JSNum.divLength
              (ratings.foldl (fun (sum rating : JSNum) => (JSNum.add sum rating).toDouble)
                (JSNum.fin 0))
              ratings.length).toDouble 1
        maxPrice := mathMax prices
        minPrice := mathMin prices
        inStockCount := (items.filter (fun p => p.inStock)).length }

/-- The arithmetic mean of the prices of a sequence of products, as an exact rational. -/
def meanPrice (items : List Product) : ℚ :=
  (items.map (fun p => (p.price : ℚ))).sum / (items.length : ℚ)

/-- The arithmetic mean of the ratings of a sequence of products, as an exact rational,
each rating being the number its numeral writes. -/
def meanRating (items : List Product) : ℚ :=
  (items.map (fun p => (parseFloat p.rating).toRat)).sum / (items.length : ℚ)

end RealWorldExample

/-! ### Worked-example data -/

namespace RealWorldExample

open PerformanceUtils

/-- A host for worked examples: ASCII lower-casing and comparison by code points. -/
def asciiHost : Host where
  toLowerCase := String.toLower
  localeCompare := fun a b => if a < b then -1 else if a = b then 0 else 1

/-- Three catalog items for worked examples, with prices 10, 20, 30 and ratings `"2.0"`,
`"3.0"`, `"4.0"`. -/
def sampleItems : List Product :=
  [⟨1, "Product 1", "Books", "Sony", 10, NumStr.numeral false 20 1, true, "first"⟩,
   ⟨2, "Product 2", "Home", "Apple", 20, NumStr.numeral false 30 1, false, "second"⟩,
   ⟨3, "Product 3", "Books", "Nike", 30, NumStr.numeral false 40 1, true, "third"⟩]

/-- Two catalog items rated `"1.1"` and `"1.2"`. -/
def closeRatedItems : List Product :=
  [⟨1, "Product 1", "Books", "Sony", 10, NumStr.numeral false 11 1, true, "first"⟩,
   ⟨2, "Product 2", "Home", "Apple", 20, NumStr.numeral false 12 1, false, "second"⟩]

/-- A heap whose only array, at reference 0, holds the sample items. -/
def sampleHeap : Heap := ⟨[sampleItems]⟩

end RealWorldExample

/-! ### `loaders/githubLoader.js` -/

namespace GithubLoader

open PerformanceUtils

/-- A response as the loader sees it: the flag `ok`, and what `response.json()` settles
to (the parsed body, or the fault raised when the body does not parse). -/
structure Response (J : Type) where
  ok : Bool
  json : Except JSError J

/-- What the loader does to the network: the URLs requested so far and the number of
times a response body has been read. -/
structure Network where
  requests : List String
  bodyReads : Nat
deriving DecidableEq, Repr

/-- The call `fetch(url)`, a GET request. The parameter `respond` is the behaviour of
the network: the response a request settles to, or the fault when none arrives. -/
def fetch {J : Type} (respond : String → Except JSError (Response J)) (url : String)
    (net : Network) : Except JSError (Response J) × Network :=
  (respond url, { net with requests := net.requests ++ [url] })

/-- The call `response.json()`. -/
def Response.readJson {J : Type} (response : Response J) (net : Network) :
    Except JSError J × Network :=
  (response.json, { net with bodyReads := net.bodyReads + 1 })

/-- The function `githubInfoLoader`; what the promise it returns settles to. -/
def githubInfoLoader {J : Type} (respond : String → Except JSError (Response J))
    (net : Network) : Except JSError J × Network :=
  match fetch respond "https://api.github.com/users/hiteshchoudhary" net with
  | (Except.error e, net1) => (Except.error e, net1)
  | (Except.ok response, net1) =>
    if !response.ok then
      (Except.error ⟨"Error", "Failed to fetch GitHub profile"⟩, net1)
    else response.readJson net1

end GithubLoader

/-! ### More on `fibonacci` -/

namespace PerformanceUtils

/-- The function `fibonacci` run with a bound on the depth of nested invocations: `none`
when the bound is used up before the outermost invocation returns. -/
def fibonacciFuel : Nat → Int → Option Int
  | 0, _ => none
  | fuel + 1, n =>
    if n ≤ 1 then some n
    else
      match fibonacciFuel fuel (n - 1), fibonacciFuel fuel (n - 2) with
      | some a, some b => some (a + b)
      | _, _ => none

/-- The invocation `fibonacci(n)` makes the recursive invocation `fibonacci(m)`: the
guard `n <= 1` is false and `m` is `n - 1` or `n - 2`. -/
def FibCalls (m n : Int) : Prop := ¬ n ≤ 1 ∧ (m = n - 1 ∨ m = n - 2)

end PerformanceUtils

/-! ### The hook `useMemo` -/

namespace React

/-- What a `useMemo` call keeps between renders: the dependency list it last computed
for, and the value computed. -/
structure MemoCell (δ α : Type) where
  deps : δ
  value : α

/-- Modelled from the spec: the hook `useMemo(calculate, deps)` belongs to the UI
framework and is absent from the source; it caches a computation's result keyed by its
inputs and recomputes exactly when a listed dependency changes between renders. On the
first render (no cell yet) and when the list differs from the stored one, `calculate`
runs in the current world and its value is stored with the list; otherwise the stored
value is returned and `calculate` does not run. -/
def useMemo {δ α σ : Type} [DecidableEq δ] (calculate : σ → α × σ) (deps : δ)
    (cell : Option (MemoCell δ α)) (world : σ) : α × Option (MemoCell δ α) × σ :=
  match cell with
  | some stored =>
    if stored.deps = deps then (stored.value, some stored, world)
    else
      let computed := calculate world
      (computed.1, some ⟨deps, computed.1⟩, computed.2)
  | none =>
    let computed := calculate world
    (computed.1, some ⟨deps, computed.1⟩, computed.2)

/-- Modelled from the spec: the same hook for a `calculate` that may throw; a fault
leaves the cell as it was and is raised to the render. -/
def useMemoThrowing {δ α ε : Type} [DecidableEq δ] (calculate : Unit → Except ε α) (deps : δ)
    (cell : Option (MemoCell δ α)) : Except ε α × Option (MemoCell δ α) :=
  match cell with
  | some stored =>
    if stored.deps = deps then (Except.ok stored.value, some stored)
    else
      match calculate () with
      | Except.ok v => (Except.ok v, some ⟨deps, v⟩)
      | Except.error e => (Except.error e, cell)
  | none =>
    match calculate () with
    | Except.ok v => (Except.ok v, some ⟨deps, v⟩)
    | Except.error e => (Except.error e, cell)

end React

/-! ### `components/CommonMistakes.jsx` -/

namespace CommonMistakes

open React

/-- The property `s.length`: the number of UTF-16 code units of the string. -/
def jsLength (s : String) : Nat :=
  (s.data.map (fun c => if c.val < 65536 then 1 else 2)).sum

/-- The state `count` and `input` of the component. -/
structure State where
  count : Int
  input : String
deriving DecidableEq, Repr

/-- The initial state: `useState(0)` and `useState('')`. -/
def State.initial : State := ⟨0, ""⟩

/-- The cells of `brokenMemo` (dependencies `[count]`) and `fixedMemo` (dependencies
`[count, input]`). -/
structure Hooks where
  brokenMemo : Option (MemoCell Int Int)
  fixedMemo : Option (MemoCell (Int × String) Int)

/-- The cells before the first render. -/
def Hooks.mount : Hooks := ⟨none, none⟩

/-- The two memoized values of one render. -/
structure Rendered where
  brokenMemo : Int
  fixedMemo : Int
deriving DecidableEq, Repr

/-- One render of the component, as far as `brokenMemo` and `fixedMemo` go: both
callbacks return `count * 2 + input.length`. -/
def render (s : State) (hooks : Hooks) : Rendered × Hooks :=
  let broken :=
    useMemo (fun (w : Unit) => (s.count * 2 + (jsLength s.input : Int), w)) s.count
      hooks.brokenMemo ()
  let fixed :=
    useMemo (fun (w : Unit) => (s.count * 2 + (jsLength s.input : Int), w))
      (s.count, s.input) hooks.fixedMemo ()
  (⟨broken.1, fixed.1⟩, ⟨broken.2.1, fixed.2.1⟩)

/-- The cell of `fixedMemo` holds the value of its callback for the stored list. -/
def FixedCellOk (hooks : Hooks) : Prop :=
  ∀ c, hooks.fixedMemo = some c → c.value = c.deps.1 * 2 + (jsLength c.deps.2 : Int)

/-- The renders made for a sequence of states, one after the other. -/
def renders (hooks : Hooks) : List State → List Rendered
  | [] => []
  | s :: rest => (render s hooks).1 :: renders (render s hooks).2 rest

end CommonMistakes

/-! ### `components/ExpensiveCalculation.jsx` -/

namespace ExpensiveCalculation

open PerformanceUtils React

/-- The state of the component. -/
structure State where
  fibNumber : Int
  calcNumber : Int
  useMemoPref : Bool
  rerenderTrigger : Int
deriving DecidableEq, Repr

/-- The call `measureExecutionTime(() => fibonacci(fibNumber), label)`; the callback
never throws, so a record is always returned. -/
def measuredFibonacci {T : Type} [Sub T] (clock : Nat → T) (toFixed : T → Nat → String)
    (fibNumber : Int) (label : String) (rt : Runtime RenderCounter) :
    TimedResult Int × Runtime RenderCounter :=
  match measureExecutionTime clock toFixed
      (fun rt0 => ((Except.ok (fibonacci fibNumber) : Except Empty Int), rt0))
      (some label) rt with
  | (Except.ok timed, rt1) => (timed, rt1)
  | (Except.error e, _) => nomatch e

/-- What one render computes for the Fibonacci panel. -/
structure Rendered where
  renderCount : Int
  memoizedFibResult : TimedResult Int
  nonMemoizedFibResult : Option (TimedResult Int)
  activeFib : Option (TimedResult Int)
deriving DecidableEq, Repr

/-- One render of the component, as far as the render count and the Fibonacci results
go (the two `expensiveCalculation` results are left out). The runtime carries the shared
`renderCounter`; `cell` is the cell of `memoizedFibResult`, keyed by `[fibNumber]`. -/
def render {T : Type} [Sub T] (clock : Nat → T) (toFixed : T → Nat → String) (s : State)
    (cell : Option (MemoCell Int (TimedResult Int))) (rt : Runtime RenderCounter) :
    Rendered × Option (MemoCell Int (TimedResult Int)) × Runtime RenderCounter :=
  let counted := rt.program.increment "ExpensiveCalculation"
  let rt1 : Runtime RenderCounter := { rt with program := counted.1 }
  let memoized :=
    useMemo
      (fun rt0 =>
        measuredFibonacci clock toFixed s.fibNumber
          ("Fibonacci(" ++ toString s.fibNumber ++ ") with useMemo")
          (consoleLog "🧮 Calculating Fibonacci with useMemo..." rt0))
      s.fibNumber cell rt1
  let nonMemoized : Option (TimedResult Int) × Runtime RenderCounter :=
    if !s.useMemoPref then
      let measured :=
        measuredFibonacci clock toFixed s.fibNumber
          ("Fibonacci(" ++ toString s.fibNumber ++ ") without useMemo")
          (consoleLog "🧮 Calculating Fibonacci WITHOUT useMemo..." memoized.2.2)
      (some measured.1, measured.2)
    else (none, memoized.2.2)
  let activeFib := if s.useMemoPref then some memoized.1 else nonMemoized.1
  ({ renderCount := counted.2, memoizedFibResult := memoized.1,
     nonMemoizedFibResult := nonMemoized.1, activeFib := activeFib },
   memoized.2.1, nonMemoized.2)

/-- The renders made for a sequence of states, one after the other. -/
def renders {T : Type} [Sub T] (clock : Nat → T) (toFixed : T → Nat → String)
    (cell : Option (MemoCell Int (TimedResult Int))) (rt : Runtime RenderCounter) :
    List State → List Rendered
  | [] => []
  | s :: rest =>
    (render clock toFixed s cell rt).1
      :: renders clock toFixed (render clock toFixed s cell rt).2.1
          (render clock toFixed s cell rt).2.2 rest

end ExpensiveCalculation

/-! ### `components/PerformanceComparison.jsx` -/

namespace PerformanceComparison

open PerformanceUtils React

/-- The object `{ result, time }` returned by the `useMemo` callback. -/
structure MemoResult where
  result : Int
  time : NumStr
deriving DecidableEq, Repr

/-- An entry pushed onto `measurementHistory.current`. -/
structure Measurement where
  fibNumber : Int
  withMemo : NumStr
  timestamp : Int
deriving DecidableEq, Repr

/-- The state of the component. -/
structure State where
  fibNumber : Int
  renderCount : Int
  measurements : List Measurement
deriving DecidableEq, Repr

/-- The initial state: `useState(35)`, `useState(0)`, `useState([])`. -/
def State.initial : State := ⟨35, 0, []⟩

/-- The state changes the component can make: the slider calls `setFibNumber`, the button
calls `forceRerender`; `setMeasurements` is called nowhere. -/
inductive Event where
  | setFibNumber (value : Int)
  | forceRerender
deriving DecidableEq, Repr

/-- The state after a state change. -/
def State.after (s : State) : Event → State
  | Event.setFibNumber value => { s with fibNumber := value }
  | Event.forceRerender => { s with renderCount := s.renderCount + 1 }

/-- The expression assigned to `performanceSavings`. -/
def performanceSavings (measurements : List Measurement) (timeWithoutMemo memoTime : NumStr) :
    NumStr :=
  if measurements.length > 0 then
    toFixed (JSNum.sub (parseFloat timeWithoutMemo) (parseFloat memoTime)) 3
  else NumStr.numeral false 0 3

/-- What one render computes. -/
structure Rendered where
  resultWithoutMemo : Int
  timeWithoutMemo : NumStr
  resultWithMemo : MemoResult
  performanceSavings : NumStr
deriving DecidableEq, Repr

/-- The callback of `resultWithMemo`. The runtime carries `measurementHistory.current`;
`dateNow k` is the value of `Date.now()` at the `k`-th push. -/
def calculateWithMemo (clock : Nat → JSNum) (dateNow : Nat → Int) (fibNumber : Int)
    (rt : Runtime (List Measurement)) : MemoResult × Runtime (List Measurement) :=
  let start := performanceNow clock rt
  let result := fibonacci fibNumber
  let stop := performanceNow clock start.2
  let time := toFixed (JSNum.sub stop.1 start.1) 3
  let pushed : Runtime (List Measurement) :=
    { stop.2 with
      program := stop.2.program ++ [⟨fibNumber, time, dateNow stop.2.program.length⟩] }
  (⟨result, time⟩, consoleLog ("🧮 useMemo calculation: " ++ time.render ++ "ms") pushed)

/-- One render of the component; `cell` is the cell of `resultWithMemo`, keyed by
`[fibNumber]`. -/
def render (clock : Nat → JSNum) (dateNow : Nat → Int) (s : State)
    (cell : Option (MemoCell Int MemoResult)) (rt : Runtime (List Measurement)) :
    Rendered × Option (MemoCell Int MemoResult) × Runtime (List Measurement) :=
  let withoutMemoStart := performanceNow clock rt
  let resultWithoutMemo := fibonacci s.fibNumber
  let withoutMemoEnd := performanceNow clock withoutMemoStart.2
  let timeWithoutMemo := toFixed (JSNum.sub withoutMemoEnd.1 withoutMemoStart.1) 3
  let memo := useMemo (calculateWithMemo clock dateNow s.fibNumber) s.fibNumber cell
    withoutMemoEnd.2
  let logged :=
    consoleLog
      ("📊 Performance comparison:\n    - Without useMemo: " ++ timeWithoutMemo.render
        ++ "ms (runs every render)\n    - With useMemo: " ++ memo.1.time.render
        ++ "ms (cached result)")
      memo.2.2
  ({ resultWithoutMemo := resultWithoutMemo, timeWithoutMemo := timeWithoutMemo,
     resultWithMemo := memo.1,
     performanceSavings := performanceSavings s.measurements timeWithoutMemo memo.1.time },
   memo.2.1, logged)

/-- The renders made for a sequence of states, one after the other. -/
def renders (clock : Nat → JSNum) (dateNow : Nat → Int)
    (cell : Option (MemoCell Int MemoResult)) (rt : Runtime (List Measurement)) :
    List State → List Rendered
  | [] => []
  | s :: rest =>
    (render clock dateNow s cell rt).1
      :: renders clock dateNow (render clock dateNow s cell rt).2.1
          (render clock dateNow s cell rt).2.2 rest

/-- A clock for worked examples, in milliseconds: readings 0, 1/2, 1, 11/10, then 2. -/
def sampleClock : Nat → JSNum
  | 0 => JSNum.fin 0
  | 1 => JSNum.fin (1 / 2)
  | 2 => JSNum.fin 1
  | 3 => JSNum.fin (11 / 10)
  | _ => JSNum.fin 2

end PerformanceComparison

/-! ### The render of `RealWorldExample` -/

namespace RealWorldExample

open PerformanceUtils React

/-- The filter state of the component. The array held by `priceRange` is replaced by a
new one at every change, so `priceRangeId` stands for its identity. -/
structure State where
  searchTerm : String
  sortBy : SortKey
  selectedCategory : String
  priceRange : Int × Int
  priceRangeId : Nat
  useMemoEnabled : Bool
deriving DecidableEq, Repr

/-- The initial state: empty search term, sort by name, category `'all'`, price range
`[0, 1000]`, `useMemo` enabled. -/
def State.initial : State := ⟨"", SortKey.name, "all", (0, 1000), 0, true⟩

/-- The cells of `filteredProductsWithMemo` (keyed by `[products, searchTerm,
selectedCategory, priceRange, sortBy]`) and of `statistics` (keyed by
`[activeProducts]`). -/
structure Hooks where
  filtered : Option (MemoCell (Nat × String × String × Nat × SortKey) Nat)
  statistics : Option (MemoCell (Option Nat) Statistics)

/-- What one render computes; `none` is `null`, and a `TypeError` is what a method call
on `null` raises. -/
structure Rendered where
  filteredProductsWithMemo : Nat
  filteredProductsWithoutMemo : Option Nat
  activeProducts : Option Nat
  statistics : Except JSError Statistics
  found : Except JSError Nat
  listed : Except JSError (List Product)

/-- One render of the component: `products` is the reference of the catalog array. -/
def render (host : Host) (products : Nat) (s : State) (hooks : Hooks) (heap : Heap) :
    Rendered × Hooks × Heap :=
  let withMemo :=
    useMemo
      (fun h =>
        filteredProductsWithMemo host products s.searchTerm s.selectedCategory s.priceRange
          s.sortBy h)
      (products, s.searchTerm, s.selectedCategory, s.priceRangeId, s.sortBy)
      hooks.filtered heap
  let withoutMemo : Option Nat × Heap :=
    if s.useMemoEnabled then (none, withMemo.2.2)
    else
      let filtered :=
        filteredProductsWithMemo host products s.searchTerm s.selectedCategory s.priceRange
          s.sortBy withMemo.2.2
      (some filtered.1, filtered.2)
  let activeProducts : Option Nat := if s.useMemoEnabled then some withMemo.1 else withoutMemo.1
  let stats :=
    useMemoThrowing (fun _ => statistics (activeProducts.map withoutMemo.2.read))
      activeProducts hooks.statistics
  let found : Except JSError Nat :=
    match activeProducts with
    | none => Except.error ⟨"TypeError", "Cannot read properties of null (reading 'length')"⟩
    | some ref => Except.ok (withoutMemo.2.read ref).length
  let listed : Except JSError (List Product) :=
    match activeProducts with
    | none => Except.error ⟨"TypeError", "Cannot read properties of null (reading 'slice')"⟩
    | some ref => Except.ok ((withoutMemo.2.read ref).take 20)
  ({ filteredProductsWithMemo := withMemo.1, filteredProductsWithoutMemo := withoutMemo.1,
     activeProducts := activeProducts, statistics := stats.1, found := found,
     listed := listed },
   ⟨withMemo.2.1, stats.2⟩, withoutMemo.2)

/-- The sort keys of two items are equal, in the words of the specification: equal
price, equal numeric rating, or equal string field. -/
def SameKey : SortKey → Product → Product → Prop
  | SortKey.price, a, b => a.price = b.price
  | SortKey.rating, a, b =>
    ∃ q : ℚ, a.rating.toNumber = JSNum.fin q ∧ b.rating.toNumber = JSNum.fin q
  | SortKey.name, a, b => a.name = b.name
  | SortKey.brand, a, b => a.brand = b.brand

/-- A host for worked examples that can be evaluated by unfolding: lower-casing of the
ASCII letters character by character, comparison by code points. -/
def plainHost : Host where
  toLowerCase := fun s => ⟨s.data.map Char.toLower⟩
  localeCompare := fun a b => if a.data < b.data then -1 else if a = b then 0 else 1

/-- Three catalog items for worked examples on ties: the first and the third have the
same price, rating and brand. -/
def tiedItems : List Product :=
  [⟨1, "Lamp", "Home", "Sony", 20, NumStr.numeral false 35 1, true, "first"⟩,
   ⟨2, "Desk", "Home", "Apple", 10, NumStr.numeral false 48 1, true, "second"⟩,
   ⟨3, "Sofa", "Home", "Sony", 20, NumStr.numeral false 35 1, false, "third"⟩]

end RealWorldExample

/-! ## Theorems -/

namespace PerformanceUtils

/-! ### Facts about the map model -/

theorem lookupEntry_storeEntry_same (es : List (String × Int)) (k : String) (v : Int) :
    lookupEntry (storeEntry es k v) k = some v := by
  induction es with
  | nil => simp [storeEntry, lookupEntry]
  | cons e rest ih =>
    obtain ⟨k0, w⟩ := e
    by_cases hk : k0 = k
    · simp [storeEntry, lookupEntry, hk]
    · simp [storeEntry, lookupEntry, hk, ih]

theorem lookupEntry_storeEntry_other (es : List (String × Int)) (k k2 : String) (v : Int)
    (hne : k ≠ k2) : lookupEntry (storeEntry es k v) k2 = lookupEntry es k2 := by
  induction es with
  | nil => simp [storeEntry, lookupEntry, hne]
  | cons e rest ih =>
    obtain ⟨k0, w⟩ := e
    by_cases hk : k0 = k
    · subst hk
      simp [storeEntry, lookupEntry, hne]
    · by_cases hk2 : k0 = k2
      · subst hk2
        simp [storeEntry, lookupEntry, hk]
      · simp [storeEntry, lookupEntry, hk, hk2, ih]

theorem mem_storeEntry (es : List (String × Int)) (k : String) (v : Int)
    (e : String × Int) (he : e ∈ storeEntry es k v) : e ∈ es ∨ e = (k, v) := by
  induction es with
  | nil =>
    simp [storeEntry] at he
    exact Or.inr he
  | cons e0 rest ih =>
    obtain ⟨k0, w⟩ := e0
    by_cases hk : k0 = k
    · subst hk
      simp [storeEntry] at he
      rcases he with he | he
      · exact Or.inr he
      · exact Or.inl (List.mem_cons_of_mem _ he)
    · simp [storeEntry, hk] at he
      rcases he with he | he
      · exact Or.inl (by simp [he])
      · rcases ih he with h | h
        · exact Or.inl (List.mem_cons_of_mem _ h)
        · exact Or.inr h

theorem lookupEntry_mem (es : List (String × Int)) (k : String) (v : Int)
    (h : lookupEntry es k = some v) : (k, v) ∈ es := by
  induction es with
  | nil => simp [lookupEntry] at h
  | cons e rest ih =>
    obtain ⟨k0, w⟩ := e
    by_cases hk : k0 = k
    · simp [lookupEntry, hk] at h
      simp [hk, h]
    · simp [lookupEntry, hk] at h
      exact List.mem_cons_of_mem _ (ih h)

theorem orZero_some (v : Int) : orZero (some v) = v := by
  by_cases h : v = 0
  · simp [orZero, h]
  · simp [orZero, h]

/-! ### Facts about single `RenderCounter` calls -/

theorem get_snd_increment_same (s : RenderCounter) (x : String) :
    ((s.increment x).1.get x).2 = (s.get x).2 + 1 := by
  simp [RenderCounter.increment, RenderCounter.get, JSMap.get, JSMap.set,
    lookupEntry_storeEntry_same, orZero_some]

theorem get_snd_increment_other (s : RenderCounter) (x y : String) (hne : x ≠ y) :
    ((s.increment x).1.get y).2 = (s.get y).2 := by
  simp [RenderCounter.increment, RenderCounter.get, JSMap.get, JSMap.set,
    lookupEntry_storeEntry_other _ _ _ _ hne]

theorem get_snd_reset_same (s : RenderCounter) (x : String) :
    ((s.reset x).get x).2 = 0 := by
  simp [RenderCounter.reset, RenderCounter.get, JSMap.get, JSMap.set,
    lookupEntry_storeEntry_same, orZero_some]

theorem get_snd_reset_other (s : RenderCounter) (x y : String) (hne : x ≠ y) :
    ((s.reset x).get y).2 = (s.get y).2 := by
  simp [RenderCounter.reset, RenderCounter.get, JSMap.get, JSMap.set,
    lookupEntry_storeEntry_other _ _ _ _ hne]

theorem get_snd_new (x : String) : (RenderCounter.new.get x).2 = 0 := by
  simp [RenderCounter.new, RenderCounter.get, JSMap.get, JSMap.empty, lookupEntry, orZero]

theorem run_cons (s : RenderCounter) (c : Call) (cs : List Call) :
    s.run (c :: cs) = (((s.call c).1.run cs).1, (s.call c).2 :: ((s.call c).1.run cs).2) := rfl

theorem run_replicate_increment (k : Nat) (s : RenderCounter) (x : String) :
    (s.run (List.replicate k (Call.increment x))).2
        = (List.range k).map (fun (i : Nat) => Returned.number ((s.get x).2 + ((i : Int) + 1)))
      ∧ ((s.run (List.replicate k (Call.increment x))).1.get x).2 = (s.get x).2 + (k : Int) := by
  induction k generalizing s with
  | zero => simp [RenderCounter.run]
  | succ k ih =>
    obtain ⟨ih1, ih2⟩ := ih (s.increment x).1
    rw [get_snd_increment_same] at ih1 ih2
    rw [List.replicate_succ, run_cons]
    refine ⟨?_, ?_⟩
    · simp only [RenderCounter.call]
      rw [ih1, List.range_succ_eq_map, List.map_cons, List.map_map]
      congr 1
      · simp [RenderCounter.increment, RenderCounter.get]
        intro a _
        ring
    · simp only [RenderCounter.call]
      rw [ih2]
      push_cast
      ring

theorem get_snd_call_of_ne_increment (s : RenderCounter) (c : Call) (x : String)
    (hc : c ≠ Call.increment x) (h0 : (s.get x).2 = 0) : ((s.call c).1.get x).2 = 0 := by
  cases c with
  | increment l =>
    have hne : l ≠ x := fun h => hc (by rw [h])
    simp only [RenderCounter.call]
    rw [get_snd_increment_other s l x hne]
    exact h0
  | get l => simpa [RenderCounter.call, RenderCounter.get] using h0
  | reset l =>
    by_cases hl : l = x
    · subst hl
      simpa [RenderCounter.call] using get_snd_reset_same s l
    · simp only [RenderCounter.call]
      rw [get_snd_reset_other s l x hl]
      exact h0
  | resetAll =>
    simp [RenderCounter.call, RenderCounter.resetAll, RenderCounter.get, JSMap.clear,
      JSMap.get, lookupEntry, orZero]

theorem get_snd_run_of_no_increment (cs : List Call) (s : RenderCounter) (x : String)
    (hcs : Call.increment x ∉ cs) (h0 : (s.get x).2 = 0) : ((s.run cs).1.get x).2 = 0 := by
  induction cs generalizing s with
  | nil => simpa [RenderCounter.run] using h0
  | cons c cs ih =>
    rw [run_cons]
    simp only [List.mem_cons, not_or] at hcs
    exact ih (s.call c).1 hcs.2
      (get_snd_call_of_ne_increment s c x (fun h => hcs.1 h.symm) h0)

theorem get_snd_call_mono (s : RenderCounter) (c : Call) (x : String)
    (hc : c.isReset = false) : (s.get x).2 ≤ ((s.call c).1.get x).2 := by
  cases c with
  | increment l =>
    by_cases hl : l = x
    · subst hl
      simp only [RenderCounter.call]
      rw [get_snd_increment_same]
      omega
    · simp only [RenderCounter.call]
      rw [get_snd_increment_other s l x hl]
  | get l => simp [RenderCounter.call, RenderCounter.get]
  | reset l => simp [Call.isReset] at hc
  | resetAll => simp [Call.isReset] at hc

theorem get_snd_run_mono (cs : List Call) (s : RenderCounter) (x : String)
    (hcs : ∀ c ∈ cs, c.isReset = false) : (s.get x).2 ≤ ((s.run cs).1.get x).2 := by
  induction cs generalizing s with
  | nil => simp [RenderCounter.run]
  | cons c cs ih =>
    rw [run_cons]
    have h1 := get_snd_call_mono s c x (hcs c (List.mem_cons_self _ _))
    have h2 := ih (s.call c).1 (fun d hd => hcs d (List.mem_cons_of_mem _ hd))
    exact le_trans h1 h2

theorem orZero_lookup_nonneg (s : RenderCounter) (hs : CountsNonneg s) (x : String) :
    0 ≤ orZero (s.counts.get x) := by
  cases hget : s.counts.get x with
  | none => simp [orZero]
  | some v =>
    rw [orZero_some]
    exact hs (x, v) (lookupEntry_mem _ _ _ hget)

theorem countsNonneg_call (s : RenderCounter) (c : Call) (hs : CountsNonneg s) :
    CountsNonneg (s.call c).1 := by
  cases c with
  | increment l =>
    intro e he
    simp only [RenderCounter.call, RenderCounter.increment, JSMap.set] at he
    rcases mem_storeEntry _ _ _ _ he with h | h
    · exact hs e h
    · have := orZero_lookup_nonneg s hs l
      rw [h]
      show 0 ≤ orZero (s.counts.get l) + 1
      omega
  | get l => simpa [RenderCounter.call, RenderCounter.get] using hs
  | reset l =>
    intro e he
    simp only [RenderCounter.call, RenderCounter.reset, JSMap.set] at he
    rcases mem_storeEntry _ _ _ _ he with h | h
    · exact hs e h
    · rw [h]
  | resetAll =>
    intro e he
    simp [RenderCounter.call, RenderCounter.resetAll, JSMap.clear] at he

theorem countsNonneg_run (cs : List Call) (s : RenderCounter) (hs : CountsNonneg s) :
    CountsNonneg (s.run cs).1 := by
  induction cs generalizing s with
  | nil => simpa [RenderCounter.run] using hs
  | cons c cs ih =>
    rw [run_cons]
    exact ih (s.call c).1 (countsNonneg_call s c hs)

theorem countsNonneg_new : CountsNonneg RenderCounter.new := by
  intro e he
  simp [RenderCounter.new, JSMap.empty] at he

theorem sinceLastResetAll_of_not_mem (cs : List Call) (h : Call.resetAll ∉ cs) :
    sinceLastResetAll cs = cs := by
  cases cs with
  | nil => rfl
  | cons c cs =>
    simp only [List.mem_cons, not_or] at h
    have h1 : ¬ c = Call.resetAll := fun e => h.1 e.symm
    simp [sinceLastResetAll, h.2, h1]

theorem has_call (s : RenderCounter) (c : Call) (x : String)
    (h : (s.call c).1.counts.has x = true) :
    (s.counts.has x = true ∧ c ≠ Call.resetAll) ∨ c = Call.increment x ∨ c = Call.reset x := by
  cases c with
  | increment l =>
    by_cases hl : l = x
    · exact Or.inr (Or.inl (by rw [hl]))
    · left
      refine ⟨?_, by simp⟩
      simpa [RenderCounter.call, RenderCounter.increment, JSMap.has, JSMap.set,
        lookupEntry_storeEntry_other _ _ _ _ hl] using h
  | get l =>
    left
    exact ⟨by simpa [RenderCounter.call, RenderCounter.get] using h, by simp⟩
  | reset l =>
    by_cases hl : l = x
    · exact Or.inr (Or.inr (by rw [hl]))
    · left
      refine ⟨?_, by simp⟩
      simpa [RenderCounter.call, RenderCounter.reset, JSMap.has, JSMap.set,
        lookupEntry_storeEntry_other _ _ _ _ hl] using h
  | resetAll =>
    simp [RenderCounter.call, RenderCounter.resetAll, JSMap.clear, JSMap.has, lookupEntry] at h

theorem has_run (cs : List Call) (s : RenderCounter) (x : String)
    (h : (s.run cs).1.counts.has x = true) :
    (s.counts.has x = true ∧ Call.resetAll ∉ cs)
      ∨ Call.increment x ∈ sinceLastResetAll cs ∨ Call.reset x ∈ sinceLastResetAll cs := by
  induction cs generalizing s with
  | nil => exact Or.inl ⟨by simpa [RenderCounter.run] using h, by simp⟩
  | cons c cs ih =>
    rw [run_cons] at h
    by_cases hmem : Call.resetAll ∈ cs
    · have hsl : sinceLastResetAll (c :: cs) = sinceLastResetAll cs := by
        simp [sinceLastResetAll, hmem]
      rw [hsl]
      rcases ih (s.call c).1 h with h1 | h1
      · exact absurd hmem h1.2
      · exact Or.inr h1
    · have hcs := sinceLastResetAll_of_not_mem cs hmem
      rcases ih (s.call c).1 h with h1 | h1
      · rcases has_call s c x h1.1 with h2 | h2 | h2
        · left
          refine ⟨h2.1, ?_⟩
          simp only [List.mem_cons, not_or]
          exact ⟨fun e => h2.2 e.symm, hmem⟩
        · right; left
          have hne : ¬ c = Call.resetAll := by rw [h2]; simp
          simp [sinceLastResetAll, hmem, hne, h2]
        · right; right
          have hne : ¬ c = Call.resetAll := by rw [h2]; simp
          simp [sinceLastResetAll, hmem, hne, h2]
      · rw [hcs] at h1
        right
        by_cases hc : c = Call.resetAll
        · simpa [sinceLastResetAll, hmem, hc] using h1
        · rcases h1 with h1 | h1
          · left; simp [sinceLastResetAll, hmem, hc, h1]
          · right; simp [sinceLastResetAll, hmem, hc, h1]

/-- C1: `fibonacci(0) = 0`, `fibonacci(1) = 1` and `fibonacci(10) = 55`. -/
theorem fibonacci_values :
    fibonacci 0 = 0 ∧ fibonacci 1 = 1 ∧ fibonacci 10 = 55 := by
  refine ⟨?_, ?_, ?_⟩
  · rw [fibonacci]; simp
  · rw [fibonacci]; simp
  · simp [fibonacci]

/-- C2: for every integer `n ≥ 2`, `fibonacci(n) = fibonacci(n-1) + fibonacci(n-2)`. -/
theorem fibonacci_recurrence (n : Int) (h : 2 ≤ n) :
    fibonacci n = fibonacci (n - 1) + fibonacci (n - 2) := by
  rw [fibonacci]
  have h1 : ¬ n ≤ 1 := by omega
  simp [h1]

/-- Witness for C2 at `n = 7`. -/
theorem fibonacci_recurrence_witness :
    (2 : Int) ≤ 7 ∧ fibonacci 7 = fibonacci (7 - 1) + fibonacci (7 - 2) :=
  ⟨by decide, fibonacci_recurrence 7 (by decide)⟩

/-- C3: from a fresh `RenderCounter`, `k` successive calls `increment(x)` return
`1, 2, ..., k` in that order and `get(x)` afterwards returns `k`; from any state, with
`c` the value `get(x)` returns there, the `k` calls return `c+1, ..., c+k` and `get(x)`
afterwards returns `c+k`. -/
theorem increment_k_times (s : RenderCounter) (x : String) (k : Nat) :
    ((RenderCounter.new.run (List.replicate k (Call.increment x))).2
        = (List.range k).map (fun (i : Nat) => Returned.number ((i : Int) + 1))
      ∧ ((RenderCounter.new.run (List.replicate k (Call.increment x))).1.get x).2 = (k : Int))
    ∧ ((s.run (List.replicate k (Call.increment x))).2
        = (List.range k).map (fun (i : Nat) => Returned.number ((s.get x).2 + ((i : Int) + 1)))
      ∧ ((s.run (List.replicate k (Call.increment x))).1.get x).2 = (s.get x).2 + (k : Int)) := by
  refine ⟨?_, run_replicate_increment k s x⟩
  have h := run_replicate_increment k RenderCounter.new x
  rw [get_snd_new] at h
  simpa using h

/-- C4: in the state reached from a fresh `RenderCounter` by any calls none of which
is `increment(x)`, `get(x)` returns 0; and `get` leaves the counter as it was, so a
`get` followed by further calls behaves as those calls alone. -/
theorem get_zero_and_pure (cs : List Call) (x : String) (h : Call.increment x ∉ cs) :
    ((RenderCounter.new.run cs).1.get x).2 = 0
      ∧ (∀ (s : RenderCounter) (y : String), (s.get y).1 = s)
      ∧ (∀ (s : RenderCounter) (y : String) (later : List Call),
          (s.run (Call.get y :: later)).1 = (s.run later).1
            ∧ (s.run (Call.get y :: later)).2
                = Returned.number (s.get y).2 :: (s.run later).2) := by
  refine ⟨get_snd_run_of_no_increment cs _ x h (get_snd_new x), fun _ _ => rfl, ?_⟩
  intro s y later
  exact ⟨rfl, rfl⟩

/-- Witness for C4: after `increment("a")`, `reset("b")`, `get("b")` the label `"b"`
was never incremented. -/
theorem get_zero_and_pure_witness :
    ((RenderCounter.new.run [Call.increment "a", Call.reset "b", Call.get "b"]).1.get "b").2 = 0 :=
  (get_zero_and_pure [Call.increment "a", Call.reset "b", Call.get "b"] "b" (by decide)).1

/-- C5: after `reset(x)`, `get(x)` returns 0 and `get(y)` returns what it returned
before for every label `y` other than `x`. -/
theorem reset_one_label (s : RenderCounter) (x : String) :
    ((s.reset x).get x).2 = 0
      ∧ ∀ y : String, y ≠ x → ((s.reset x).get y).2 = (s.get y).2 :=
  ⟨get_snd_reset_same s x, fun y hy => get_snd_reset_other s x y (Ne.symm hy)⟩

/-- Witness for C5: resetting `"a"` in a counter holding `a ↦ 2, b ↦ 1`. -/
theorem reset_one_label_witness :
    (((RenderCounter.mk ⟨[("a", 2), ("b", 1)]⟩).reset "a").get "b").2
      = ((RenderCounter.mk ⟨[("a", 2), ("b", 1)]⟩).get "b").2 :=
  (reset_one_label (RenderCounter.mk ⟨[("a", 2), ("b", 1)]⟩) "a").2 "b" (by decide)

/-- C6: after `resetAll()` the counter is the freshly constructed one: `get(x)`
returns 0 for every label `x` and the next `increment(x)` returns 1. -/
theorem resetAll_fresh (s : RenderCounter) (x : String) :
    s.resetAll = RenderCounter.new
      ∧ (s.resetAll.get x).2 = 0
      ∧ (s.resetAll.increment x).2 = 1 := by
  refine ⟨rfl, ?_, ?_⟩
  · simp [RenderCounter.resetAll, RenderCounter.get, JSMap.clear, JSMap.get, lookupEntry,
      orZero]
  · simp [RenderCounter.resetAll, RenderCounter.increment, JSMap.clear, JSMap.get,
      lookupEntry, orZero]

/-- C7: in every state reached from a fresh `RenderCounter` by any calls, every stored
count and every value `get` returns is a non-negative integer; and over any further
calls none of which is `reset` or `resetAll`, `get(x)` at the end is at least `get(x)`
at the start, for every label `x`. -/
theorem counts_nonneg_and_monotone (pre : List Call) :
    CountsNonneg (RenderCounter.new.run pre).1
      ∧ (∀ x : String, 0 ≤ ((RenderCounter.new.run pre).1.get x).2)
      ∧ ∀ cs : List Call, (∀ c ∈ cs, c.isReset = false) →
          ∀ x : String,
            ((RenderCounter.new.run pre).1.get x).2
              ≤ (((RenderCounter.new.run pre).1.run cs).1.get x).2 := by
  have hinv := countsNonneg_run pre RenderCounter.new countsNonneg_new
  exact ⟨hinv, fun x => orZero_lookup_nonneg _ hinv x,
    fun cs hcs x => get_snd_run_mono cs _ x hcs⟩

/-- Witness for C7: after `increment("a")`, `reset("a")`, the calls `increment("a")`,
`get("b")`, `increment("a")` do not lower the count of `"a"`. -/
theorem counts_nonneg_and_monotone_witness :
    ((RenderCounter.new.run [Call.increment "a", Call.reset "a"]).1.get "a").2
      ≤ (((RenderCounter.new.run [Call.increment "a", Call.reset "a"]).1.run
          [Call.increment "a", Call.get "b", Call.increment "a"]).1.get "a").2 :=
  (counts_nonneg_and_monotone [Call.increment "a", Call.reset "a"]).2.2
    [Call.increment "a", Call.get "b", Call.increment "a"] (by decide) "a"

/-- C8, as stated, fails: on a fresh `RenderCounter` the label `"x"` has no entry and
`increment("x")` is never called, yet after `reset("x")` the map holds an entry for
`"x"`. -/
theorem lazy_entry_counterexample :
    RenderCounter.new.counts.has "x" = false
      ∧ Call.increment "x" ∉ sinceLastResetAll [Call.reset "x"]
      ∧ (RenderCounter.new.run [Call.reset "x"]).1.counts.has "x" = true
      ∧ (RenderCounter.new.reset "x").counts.entries = [("x", 0)] := by
  decide

/-- C8, amended: in every state reached from a fresh `RenderCounter`, the map holds an
entry for a label only if `increment` or `reset` has been called on that label since
construction or the last `resetAll`; and `get` of a label with no entry creates
none. -/
theorem entry_only_after_increment_or_reset (cs : List Call) (x : String)
    (h : (RenderCounter.new.run cs).1.counts.has x = true) :
    (Call.increment x ∈ sinceLastResetAll cs ∨ Call.reset x ∈ sinceLastResetAll cs)
      ∧ ∀ (s : RenderCounter) (y : String),
          s.counts.has y = false → (s.get y).1.counts.has y = false := by
  refine ⟨?_, fun s y hy => hy⟩
  rcases has_run cs RenderCounter.new x h with h1 | h1
  · simp [RenderCounter.new, JSMap.empty, JSMap.has, lookupEntry] at h1
  · exact h1

/-- Witness for C8 amended: after `increment("a")`, `resetAll()`, `reset("b")` the
entry for `"b"` comes from the `reset` made after the last `resetAll`. -/
theorem entry_only_after_increment_or_reset_witness :
    Call.increment "b" ∈ sinceLastResetAll [Call.increment "a", Call.resetAll, Call.reset "b"]
      ∨ Call.reset "b" ∈ sinceLastResetAll [Call.increment "a", Call.resetAll, Call.reset "b"] :=
  (entry_only_after_increment_or_reset
    [Call.increment "a", Call.resetAll, Call.reset "b"] "b" (by decide)).1

/-- C9: when the single invocation of `fn` (made right after the first clock reading)
returns normally with value `v`, `measureExecutionTime(fn, label)` returns a record
whose `result` field is `v`, leaves the state that this one invocation left (plus the
second clock reading and the trace line), and has invoked `fn` exactly once: an
invocation counter attached to `fn` goes up by one. -/
theorem measureExecutionTime_returns {σ α ε T : Type} [Sub T] (clock : Nat → T)
    (toFixed : T → Nat → String) (fn : Runtime σ → Outcome ε α σ) (label : Option String)
    (rt : Runtime σ) (n : Nat) (v : α) (rt2 : Runtime σ)
    (h : fn (performanceNow clock rt).2 = (Except.ok v, rt2)) :
    measureExecutionTime clock toFixed fn label rt
        = (Except.ok
            { result := v,
              time := toFixed (clock rt2.clockReads - clock rt.clockReads) 3 },
           consoleLog
            (label.getD "Operation" ++ ": "
              ++ toFixed (clock rt2.clockReads - clock rt.clockReads) 3 ++ "ms")
            (performanceNow clock rt2).2)
      ∧ (measureExecutionTime clock toFixed (counted fn) label (withCount rt n)).2.program
          = (rt2.program, n + 1) := by
  constructor
  · simp only [measureExecutionTime, h]
    rfl
  · have hc : counted fn (performanceNow clock (withCount rt n)).2
        = (Except.ok v, withCount rt2 (n + 1)) := by
      have h2 : fn ⟨rt.program, rt.clockReads + 1, rt.console⟩ = (Except.ok v, rt2) := h
      simp only [counted, performanceNow, withCount, h2]
    simp only [measureExecutionTime, hc]
    rfl

/-- Witness for C9: a computation that doubles the program state, returns the old
state and never throws, timed with a clock that advances 5 per reading. -/
theorem measureExecutionTime_returns_witness :
    measureExecutionTime (fun i => (5 * i : Int)) (fun t _ => toString t)
        (fun rt => ((Except.ok rt.program : Except String Nat),
          { rt with program := 2 * rt.program }))
        none { program := 21, clockReads := 0, console := [] }
      = (Except.ok { result := 21, time := toString (5 * 1 - 5 * 0 : Int) },
         consoleLog ("Operation" ++ ": " ++ toString (5 * 1 - 5 * 0 : Int) ++ "ms")
          { program := 42, clockReads := 2, console := [] })
      ∧ (measureExecutionTime (fun i => (5 * i : Int)) (fun t _ => toString t)
          (counted (fun rt => ((Except.ok rt.program : Except String Nat),
            { rt with program := 2 * rt.program })))
          none (withCount { program := 21, clockReads := 0, console := [] } 0)).2.program
        = (42, 1) :=
  measureExecutionTime_returns (fun i => (5 * i : Int)) (fun t _ => toString t)
    (fun rt => ((Except.ok rt.program : Except String Nat),
      { rt with program := 2 * rt.program }))
    none { program := 21, clockReads := 0, console := [] } 0 21
    { program := 42, clockReads := 1, console := [] } rfl

/-- C10: when the invocation of `fn` raises the fault `e`, `measureExecutionTime(fn,
label)` raises exactly `e`, returns no record, and leaves the state exactly as `fn`
left it (no second clock reading, no trace line). -/
theorem measureExecutionTime_propagates {σ α ε T : Type} [Sub T] (clock : Nat → T)
    (toFixed : T → Nat → String) (fn : Runtime σ → Outcome ε α σ) (label : Option String)
    (rt : Runtime σ) (e : ε) (rt2 : Runtime σ)
    (h : fn (performanceNow clock rt).2 = (Except.error e, rt2)) :
    measureExecutionTime clock toFixed fn label rt = (Except.error e, rt2) := by
  simp only [measureExecutionTime, h]

/-- Witness for C10: a computation that logs a line and then throws `"boom"`. -/
theorem measureExecutionTime_propagates_witness :
    measureExecutionTime (fun i => (5 * i : Int)) (fun t _ => toString t)
        (fun rt => ((Except.error "boom" : Except String Nat), consoleLog "about to fail" rt))
        (some "Job") { program := 7, clockReads := 0, console := [] }
      = (Except.error "boom",
         { program := 7, clockReads := 1, console := ["about to fail"] }) :=
  measureExecutionTime_propagates (fun i => (5 * i : Int)) (fun t _ => toString t)
    (fun rt => ((Except.error "boom" : Except String Nat), consoleLog "about to fail" rt))
    (some "Job") { program := 7, clockReads := 0, console := [] } "boom"
    { program := 7, clockReads := 1, console := ["about to fail"] } rfl

end PerformanceUtils

/-! ### Facts about arrays on the heap -/

namespace PerformanceUtils

theorem read_alloc_new (h : Heap) (xs : List Product) :
    (h.alloc xs).2.read (h.alloc xs).1 = xs := by
  simp [Heap.alloc, Heap.read, List.getD_eq_getElem?_getD]

theorem read_alloc_old (h : Heap) (xs : List Product) (r : Nat) (hr : r < h.arrays.length) :
    (h.alloc xs).2.read r = h.read r := by
  simp [Heap.alloc, Heap.read, List.getD_eq_getElem?_getD, List.getElem?_append_left hr]

theorem read_write_same (h : Heap) (xs : List Product) (r : Nat) (hr : r < h.arrays.length) :
    (h.write r xs).read r = xs := by
  simp [Heap.write, Heap.read, List.getD_eq_getElem?_getD, hr]

theorem read_write_other (h : Heap) (xs : List Product) (r r2 : Nat) (hne : r ≠ r2) :
    (h.write r xs).read r2 = h.read r2 := by
  simp [Heap.write, Heap.read, List.getD_eq_getElem?_getD, List.getElem?_set_ne hne]

theorem read_of_length_le (h : Heap) (r : Nat) (hr : h.arrays.length ≤ r) : h.read r = [] := by
  simp [Heap.read, List.getD_eq_getElem?_getD, List.getElem?_eq_none hr]

theorem read_arraySort (cmp : Product → Product → JSNum) (r : Nat) (h : Heap) :
    (arraySort cmp r h).2.read (arraySort cmp r h).1 = sortedItems cmp (h.read r) := by
  by_cases hr : r < h.arrays.length
  · simp [arraySort, read_write_same _ _ _ hr]
  · have hr2 : h.arrays.length ≤ r := Nat.le_of_not_lt hr
    have hw : (h.write r (sortedItems cmp (h.read r))).arrays.length ≤ r := by
      simpa [Heap.write] using hr2
    simp only [arraySort]
    rw [read_of_length_le _ _ hw, read_of_length_le _ _ hr2]
    rfl

theorem read_arrayFilter (f : Product → Bool) (r : Nat) (h : Heap) :
    (arrayFilter f r h).2.read (arrayFilter f r h).1 = (h.read r).filter f := by
  simp only [arrayFilter]
  exact read_alloc_new h _

theorem keeps_refl (h : Heap) : Keeps h h := ⟨le_refl _, fun _ _ => rfl⟩

theorem keeps_arrayFilter (h h2 : Heap) (hk : Keeps h h2) (f : Product → Bool) (r : Nat) :
    Keeps h (arrayFilter f r h2).2 ∧ h.arrays.length ≤ (arrayFilter f r h2).1 := by
  refine ⟨⟨?_, ?_⟩, ?_⟩
  · have : (arrayFilter f r h2).2.arrays.length = h2.arrays.length + 1 := by
      simp [arrayFilter, Heap.alloc]
    have := hk.1
    omega
  · intro r2 hr2
    simp only [arrayFilter]
    rw [read_alloc_old _ _ _ (lt_of_lt_of_le hr2 hk.1)]
    exact hk.2 r2 hr2
  · simpa [arrayFilter, Heap.alloc] using hk.1

theorem keeps_arraySort (h h2 : Heap) (hk : Keeps h h2) (cmp : Product → Product → JSNum)
    (r : Nat) (hr : h.arrays.length ≤ r) : Keeps h (arraySort cmp r h2).2 := by
  refine ⟨?_, ?_⟩
  · simpa [arraySort, Heap.write] using hk.1
  · intro r2 hr2
    simp only [arraySort]
    rw [read_write_other _ _ _ _ (by omega)]
    exact hk.2 r2 hr2

end PerformanceUtils

/-! ### Facts about the filter pipeline -/

namespace RealWorldExample

open PerformanceUtils

theorem read_filteredProductsWithMemo (host : Host) (products : Nat) (searchTerm : String)
    (selectedCategory : String) (priceRange : Int × Int) (sortBy : SortKey) (heap : Heap) :
    (filteredProductsWithMemo host products searchTerm selectedCategory priceRange sortBy
        heap).2.read
      (filteredProductsWithMemo host products searchTerm selectedCategory priceRange sortBy
        heap).1
      = sortedItems (RealWorldExample.compare host sortBy)
          (keptItems host searchTerm selectedCategory priceRange (heap.read products)) := by
  simp only [filteredProductsWithMemo]
  rw [read_arraySort, read_arrayFilter]
  simp only [keptItems]
  congr 2
  by_cases hs : searchTerm = "" <;> by_cases hc : selectedCategory = "all" <;>
    simp [hs, hc, read_arrayFilter]

theorem keeps_filteredProductsWithMemo (host : Host) (products : Nat) (searchTerm : String)
    (selectedCategory : String) (priceRange : Int × Int) (sortBy : SortKey) (heap : Heap) :
    Keeps heap (filteredProductsWithMemo host products searchTerm selectedCategory priceRange
        sortBy heap).2
      ∧ heap.arrays.length ≤ (filteredProductsWithMemo host products searchTerm
        selectedCategory priceRange sortBy heap).1 := by
  simp only [filteredProductsWithMemo]
  have key : ∀ st : Nat × Heap, Keeps heap st.2 →
      Keeps heap (arraySort (RealWorldExample.compare host sortBy)
          (arrayFilter (fun product => decide (product.price ≥ priceRange.1)
            && decide (product.price ≤ priceRange.2)) st.1 st.2).1
          (arrayFilter (fun product => decide (product.price ≥ priceRange.1)
            && decide (product.price ≤ priceRange.2)) st.1 st.2).2).2
        ∧ heap.arrays.length ≤ (arraySort (RealWorldExample.compare host sortBy)
          (arrayFilter (fun product => decide (product.price ≥ priceRange.1)
            && decide (product.price ≤ priceRange.2)) st.1 st.2).1
          (arrayFilter (fun product => decide (product.price ≥ priceRange.1)
            && decide (product.price ≤ priceRange.2)) st.1 st.2).2).1 := by
    intro st hst
    obtain ⟨h1, h2⟩ := keeps_arrayFilter heap st.2 hst
      (fun product => decide (product.price ≥ priceRange.1)
        && decide (product.price ≤ priceRange.2)) st.1
    exact ⟨keeps_arraySort heap _ h1 _ _ h2, h2⟩
  apply key
  by_cases hs : searchTerm = "" <;> by_cases hc : selectedCategory = "all"
  · simp [hs, hc, keeps_refl]
  · simp only [hs, hc, ne_eq, not_true_eq_false, not_false_eq_true, if_true, if_false]
    exact (keeps_arrayFilter heap heap (keeps_refl heap) _ _).1
  · simp only [hs, hc, ne_eq, not_true_eq_false, not_false_eq_true, if_true, if_false]
    exact (keeps_arrayFilter heap heap (keeps_refl heap) _ _).1
  · simp only [hs, hc, ne_eq, not_true_eq_false, not_false_eq_true, if_true, if_false]
    exact (keeps_arrayFilter heap _ (keeps_arrayFilter heap heap (keeps_refl heap) _ _).1 _ _).1

theorem includes_iff (s search : String) : includes s search = true ↔ search.data <:+: s.data := by
  simp [includes]

theorem keptItems_eq_filter (host : Host) (searchTerm category : String) (lo hi : Int)
    (items : List Product) :
    keptItems host searchTerm category (lo, hi) items
      = items.filter (fun p => decide (Qualifies host searchTerm category lo hi p)) := by
  simp only [keptItems]
  by_cases hs : searchTerm = "" <;> by_cases hc : category = "all" <;>
    simp only [hs, hc, ne_eq, not_true_eq_false, not_false_eq_true, if_true, if_false,
      List.filter_filter] <;>
    apply List.filter_congr <;> intro p _ <;> rw [Bool.eq_iff_iff] <;>
    simp only [Qualifies, matchesSearch, includes, hs, hc, Bool.and_eq_true, Bool.or_eq_true,
      decide_eq_true_eq, ge_iff_le, true_or, false_or, true_and] <;>
    tauto

theorem mem_keptItems (host : Host) (searchTerm category : String) (priceRange : Int × Int)
    (items : List Product) (p : Product)
    (hp : p ∈ keptItems host searchTerm category priceRange items) : p ∈ items := by
  obtain ⟨lo, hi⟩ := priceRange
  rw [keptItems_eq_filter] at hp
  exact (List.mem_filter.mp hp).1

theorem sortedItems_perm (cmp : Product → Product → JSNum) (items : List Product) :
    List.Perm (sortedItems cmp items) items :=
  List.perm_insertionSort _ items

theorem sortOrder_price_iff (host : Host) (a b : Product) :
    sortOrder (RealWorldExample.compare host SortKey.price) a b ↔ a.price ≤ b.price := by
  simp only [sortOrder, RealWorldExample.compare, JSNum.isPositive, decide_eq_false_iff_not,
    not_lt]
  constructor
  · intro h
    have h2 : ((a.price - b.price : Int) : ℚ) ≤ ((0 : Int) : ℚ) := by simpa using h
    have h3 := Int.cast_le.mp h2
    omega
  · intro h
    have h2 : (a.price - b.price : Int) ≤ 0 := by omega
    have h3 : ((a.price - b.price : Int) : ℚ) ≤ ((0 : Int) : ℚ) := Int.cast_le.mpr h2
    simpa using h3

theorem sortedItems_price_pairwise (host : Host) (items : List Product) :
    List.Pairwise (fun a b => a.price ≤ b.price)
      (sortedItems (RealWorldExample.compare host SortKey.price) items) := by
  have hmap := List.map_insertionSort (sortOrder (RealWorldExample.compare host SortKey.price))
    (fun x y : Int => x ≤ y) (fun p : Product => p.price) items
    (fun a _ b _ => sortOrder_price_iff host a b)
  have hsorted : List.Sorted (fun x y : Int => x ≤ y)
      ((sortedItems (RealWorldExample.compare host SortKey.price) items).map
        (fun p : Product => p.price)) := by
    simp only [sortedItems]
    rw [hmap]
    exact List.sorted_insertionSort _ _
  exact List.pairwise_map.mp hsorted

theorem toNumber_numeral (neg : Bool) (u d : Nat) :
    (NumStr.numeral neg u d).toNumber
      = JSNum.fin ((if neg then -1 else 1) * ((u : ℚ) / 10 ^ d)) := rfl

theorem sortOrder_rating_iff (host : Host) (a b : Product) (x y : ℚ)
    (ha : a.rating.toNumber = JSNum.fin x) (hb : b.rating.toNumber = JSNum.fin y) :
    sortOrder (RealWorldExample.compare host SortKey.rating) a b ↔ y ≤ x := by
  simp only [sortOrder, RealWorldExample.compare, ha, hb, JSNum.sub, JSNum.neg, JSNum.add,
    JSNum.isPositive, decide_eq_false_iff_not, not_lt]
  constructor <;> intro h <;> linarith

theorem sortedItems_rating_pairwise (host : Host) (items : List Product)
    (hnum : ∀ p ∈ items, ∃ q : ℚ, p.rating.toNumber = JSNum.fin q) :
    List.Pairwise (fun a b => JSNum.ge a.rating.toNumber b.rating.toNumber = true)
      (sortedItems (RealWorldExample.compare host SortKey.rating) items) := by
  have hiff : ∀ a ∈ items, ∀ b ∈ items,
      sortOrder (RealWorldExample.compare host SortKey.rating) a b
        ↔ (fun x y : ℚ => y ≤ x) a.rating.toNumber.toRat b.rating.toNumber.toRat := by
    intro a ha b hb
    obtain ⟨x, hx⟩ := hnum a ha
    obtain ⟨y, hy⟩ := hnum b hb
    rw [sortOrder_rating_iff host a b x y hx hy, hx, hy]
    rfl
  have hmap := List.map_insertionSort (sortOrder (RealWorldExample.compare host SortKey.rating))
    (fun x y : ℚ => y ≤ x) (fun p : Product => p.rating.toNumber.toRat) items hiff
  haveI : IsTotal ℚ (fun x y : ℚ => y ≤ x) := ⟨fun a b => le_total b a⟩
  haveI : IsTrans ℚ (fun x y : ℚ => y ≤ x) := ⟨fun _ _ _ h1 h2 => le_trans h2 h1⟩
  have hsorted : List.Sorted (fun x y : ℚ => y ≤ x)
      ((sortedItems (RealWorldExample.compare host SortKey.rating) items).map
        (fun p : Product => p.rating.toNumber.toRat)) := by
    simp only [sortedItems]
    rw [hmap]
    exact List.sorted_insertionSort _ _
  have hpair := List.pairwise_map.mp hsorted
  refine List.Pairwise.imp_of_mem ?_ hpair
  intro a b ha hb hab
  have ha2 : a ∈ items := (sortedItems_perm _ items).mem_iff.mp ha
  have hb2 : b ∈ items := (sortedItems_perm _ items).mem_iff.mp hb
  obtain ⟨x, hx⟩ := hnum a ha2
  obtain ⟨y, hy⟩ := hnum b hb2
  rw [hx, hy] at hab ⊢
  simpa [JSNum.ge, JSNum.toRat] using hab

end RealWorldExample

namespace PerformanceUtils

theorem keeps_filterAndSortData (host : Host) (data : Nat) (searchTerm : String)
    (sortBy : Option SortKey) (heap : Heap) :
    Keeps heap (filterAndSortData host data searchTerm sortBy heap).2
      ∧ heap.arrays.length ≤ (filterAndSortData host data searchTerm sortBy heap).1 := by
  simp only [filterAndSortData]
  obtain ⟨h1, h2⟩ := keeps_arrayFilter heap heap (keeps_refl heap)
    (fun item =>
      includes (host.toLowerCase item.name) (host.toLowerCase searchTerm)
        || includes (host.toLowerCase item.category) (host.toLowerCase searchTerm)) data
  exact ⟨keeps_arraySort heap _ h1 _ _ h2, h2⟩

theorem toFixed_of_units (q : ℚ) (d u : Nat) (hq : 0 ≤ q)
    (h1 : (u : ℚ) ≤ q * 10 ^ d + 1 / 2) (h2 : q * 10 ^ d + 1 / 2 < (u : ℚ) + 1) :
    toFixed (JSNum.fin q) d = NumStr.numeral false u d := by
  have hfloor : ⌊|q| * 10 ^ d + 1 / 2⌋ = (u : Int) := by
    rw [abs_of_nonneg hq, Int.floor_eq_iff]
    constructor
    · simpa using h1
    · simpa using h2
  have hneg : decide (q < 0) = false := by simpa using hq
  simp only [toFixed, hfloor, hneg, Int.toNat_ofNat]

theorem toFixed_near (q : ℚ) (d : Nat) :
    ∃ u : Nat, toFixed (JSNum.fin q) d = NumStr.numeral (decide (q < 0)) u d
      ∧ |(toFixed (JSNum.fin q) d).toNumber.toRat - q| ≤ 1 / (2 * 10 ^ d) := by
  have hpow : (0 : ℚ) < 10 ^ d := by positivity
  have hm : (0 : ℚ) ≤ |q| * 10 ^ d + 1 / 2 := by positivity
  have hfl : 0 ≤ ⌊|q| * 10 ^ d + 1 / 2⌋ := Int.floor_nonneg.mpr hm
  obtain ⟨u, hu⟩ := Int.eq_ofNat_of_zero_le hfl
  have h1 : ((u : Int) : ℚ) ≤ |q| * 10 ^ d + 1 / 2 := by
    rw [← hu]; exact Int.floor_le _
  have h2 : |q| * 10 ^ d + 1 / 2 < ((u : Int) : ℚ) + 1 := by
    rw [← hu]; exact Int.lt_floor_add_one _
  have h1' : (u : ℚ) ≤ |q| * 10 ^ d + 1 / 2 := by simpa using h1
  have h2' : |q| * 10 ^ d + 1 / 2 < (u : ℚ) + 1 := by simpa using h2
  have heq : toFixed (JSNum.fin q) d = NumStr.numeral (decide (q < 0)) u d := by
    simp only [toFixed, hu, Int.toNat_ofNat]
  refine ⟨u, heq, ?_⟩
  rw [heq]
  simp only [NumStr.toNumber, JSNum.toRat]
  have hdist : abs ((u : ℚ) / 10 ^ d - abs q) ≤ 1 / (2 * 10 ^ d) := by
    have e : (u : ℚ) / 10 ^ d - abs q = ((u : ℚ) - abs q * 10 ^ d) / 10 ^ d := by
      field_simp
      ring
    rw [e, abs_div, abs_of_pos hpow, div_le_div_iff₀ hpow (by positivity)]
    have habs : abs ((u : ℚ) - abs q * 10 ^ d) ≤ 1 / 2 := by
      rw [abs_le]; constructor <;> linarith
    calc abs ((u : ℚ) - abs q * 10 ^ d) * (2 * 10 ^ d) ≤ 1 / 2 * (2 * 10 ^ d) := by
          apply mul_le_mul_of_nonneg_right habs (by positivity)
      _ = 1 * 10 ^ d := by ring
  by_cases hq : q < 0
  · have : |q| = -q := abs_of_neg hq
    simp only [hq, decide_True, if_true]
    rw [this] at hdist
    have e2 : -1 * ((u : ℚ) / 10 ^ d) - q = -((u : ℚ) / 10 ^ d - -q) := by ring
    rw [e2, abs_neg]
    exact hdist
  · have hq' : 0 ≤ q := not_lt.mp hq
    have : |q| = q := abs_of_nonneg hq'
    simp only [hq, decide_False, Bool.false_eq_true, if_false, one_mul]
    rw [this] at hdist
    exact hdist

theorem add_fin_fin (a b : ℚ) : JSNum.add (JSNum.fin a) (JSNum.fin b) = JSNum.fin (a + b) :=
  rfl

/-! ### Facts about rounding to the nearest double -/

theorem roundHalfEven_near (x : ℚ) : abs ((roundHalfEven x : ℚ) - x) ≤ 1 / 2 := by
  have h1 : (⌊x⌋ : ℚ) ≤ x := Int.floor_le x
  have h2 : x < (⌊x⌋ : ℚ) + 1 := Int.lt_floor_add_one x
  unfold roundHalfEven
  rw [abs_le]
  split_ifs with ha hb hc
  · constructor <;> linarith
  · push_cast
    constructor <;> linarith
  · constructor <;> linarith
  · push_cast
    constructor <;> linarith

theorem roundHalfEven_intCast (n : Int) : roundHalfEven (n : ℚ) = n := by
  unfold roundHalfEven
  rw [Int.floor_intCast]
  norm_num

theorem roundHalfEven_above (x : ℚ) (f : Int) (h1 : (f : ℚ) + 1 / 2 < x)
    (h2 : x < (f : ℚ) + 1) : roundHalfEven x = f + 1 := by
  have hf : ⌊x⌋ = f := by
    rw [Int.floor_eq_iff]
    constructor <;> linarith
  unfold roundHalfEven
  rw [hf, if_neg (by linarith), if_pos (by linarith)]

theorem roundHalfEven_below (x : ℚ) (f : Int) (h1 : (f : ℚ) ≤ x)
    (h2 : x < (f : ℚ) + 1 / 2) : roundHalfEven x = f := by
  have hf : ⌊x⌋ = f := by
    rw [Int.floor_eq_iff]
    constructor <;> linarith
  unfold roundHalfEven
  rw [hf, if_pos (by linarith)]

theorem roundHalfEven_tie_even (x : ℚ) (f : Int) (h1 : x = (f : ℚ) + 1 / 2)
    (h2 : f % 2 = 0) : roundHalfEven x = f := by
  have hf : ⌊x⌋ = f := by
    rw [Int.floor_eq_iff]
    constructor <;> linarith
  unfold roundHalfEven
  rw [hf, if_neg (by linarith), if_neg (by linarith), if_pos h2]

theorem log_two_eq (r : ℚ) (e : Int) (h1 : (2 : ℚ) ^ e ≤ r) (h2 : r < (2 : ℚ) ^ (e + 1)) :
    Int.log 2 r = e := by
  have hr : 0 < r := lt_of_lt_of_le (zpow_pos (by norm_num) e) h1
  have a : e ≤ Int.log 2 r :=
    (Int.zpow_le_iff_le_log (by norm_num) hr).mp (by exact_mod_cast h1)
  have b : Int.log 2 r < e + 1 :=
    (Int.lt_zpow_iff_log_lt (by norm_num) hr).mp (by exact_mod_cast h2)
  omega

theorem roundDouble_eval (q : ℚ) (e m : Int) (h1 : (2 : ℚ) ^ e ≤ |q|)
    (h2 : |q| < (2 : ℚ) ^ (e + 1)) (hm : roundHalfEven (q / 2 ^ (e - 52)) = m) :
    roundDouble q = (m : ℚ) * 2 ^ (e - 52) := by
  have hq : q ≠ 0 := by
    intro h
    rw [h, abs_zero] at h1
    exact absurd h1 (not_le.mpr (zpow_pos (by norm_num) e))
  unfold roundDouble
  rw [if_neg hq, log_two_eq _ e h1 h2, hm]

theorem roundDouble_near (q : ℚ) : abs (roundDouble q - q) ≤ |q| / 2 ^ 53 := by
  by_cases hq : q = 0
  · simp [roundDouble, hq]
  · have hpos : 0 < |q| := abs_pos.mpr hq
    have hlog : (2 : ℚ) ^ (Int.log 2 |q|) ≤ |q| := by
      have := Int.zpow_log_le_self (b := 2) (r := |q|) (by norm_num) hpos
      exact_mod_cast this
    have hulp : (0 : ℚ) < 2 ^ (Int.log 2 |q| - 52) := zpow_pos (by norm_num) _
    have hnear := roundHalfEven_near (q / 2 ^ (Int.log 2 |q| - 52))
    have e1 : roundDouble q - q
        = ((roundHalfEven (q / 2 ^ (Int.log 2 |q| - 52)) : ℚ) - q / 2 ^ (Int.log 2 |q| - 52))
          * 2 ^ (Int.log 2 |q| - 52) := by
      unfold roundDouble
      rw [if_neg hq]
      field_simp
    have e2 : (2 : ℚ) ^ (Int.log 2 |q| - 52) = 2 ^ (Int.log 2 |q|) / 2 ^ 52 := by
      rw [zpow_sub₀ (by norm_num : (2 : ℚ) ≠ 0)]
      norm_num
    rw [e1, abs_mul, abs_of_pos hulp]
    calc abs ((roundHalfEven (q / 2 ^ (Int.log 2 |q| - 52)) : ℚ)
            - q / 2 ^ (Int.log 2 |q| - 52)) * 2 ^ (Int.log 2 |q| - 52)
        ≤ 1 / 2 * 2 ^ (Int.log 2 |q| - 52) := mul_le_mul_of_nonneg_right hnear hulp.le
      _ = 2 ^ (Int.log 2 |q|) / 2 ^ 53 := by rw [e2]; ring
      _ ≤ |q| / 2 ^ 53 := div_le_div_of_nonneg_right hlog (by norm_num)

theorem roundDouble_natCast (n : Nat) (h : n ≤ 2 ^ 53) : roundDouble (n : ℚ) = n := by
  by_cases hn : n = 0
  · simp [roundDouble, hn]
  · have hq : (n : ℚ) ≠ 0 := by exact_mod_cast hn
    have habs : |(n : ℚ)| = (n : ℚ) := abs_of_nonneg (Nat.cast_nonneg n)
    have hlog : Int.log 2 (n : ℚ) = (Nat.log 2 n : Int) := Int.log_natCast 2 n
    have hle : Nat.log 2 n ≤ 53 := by
      have := Nat.log_mono_right (b := 2) h
      rwa [Nat.log_pow (by norm_num)] at this
    have hpow : 2 ^ Nat.log 2 n ≤ n := Nat.pow_log_le_self 2 hn
    unfold roundDouble
    rw [if_neg hq, habs, hlog]
    by_cases h52 : Nat.log 2 n ≤ 52
    · have e : (2 : ℚ) ^ ((Nat.log 2 n : Int) - 52) = 1 / 2 ^ (52 - Nat.log 2 n) := by
        rw [one_div, ← zpow_natCast, ← zpow_neg]
        congr 1
        omega
      have e2 : (n : ℚ) / (1 / 2 ^ (52 - Nat.log 2 n))
          = ((n * 2 ^ (52 - Nat.log 2 n) : Nat) : Int) := by
        push_cast
        field_simp
      rw [e, e2, roundHalfEven_intCast]
      push_cast
      field_simp
    · have h53 : Nat.log 2 n = 53 := by omega
      have hn53 : n = 2 ^ 53 := by
        rw [h53] at hpow
        omega
      rw [h53, hn53]
      have e2 : ((2 ^ 53 : Nat) : ℚ) / 2 ^ (((53 : Nat) : Int) - 52)
          = ((2 ^ 52 : Nat) : Int) := by
        norm_num
      rw [e2, roundHalfEven_intCast]
      norm_num

theorem roundDouble_bounds (q : ℚ) (hq : 0 ≤ q) :
    (1 - 1 / 2 ^ 53) * q ≤ roundDouble q ∧ roundDouble q ≤ (1 + 1 / 2 ^ 53) * q := by
  have h := roundDouble_near q
  rw [abs_of_nonneg hq, abs_le] at h
  constructor <;> linarith [h.1, h.2]

theorem roundDouble_nonneg (q : ℚ) (hq : 0 ≤ q) : 0 ≤ roundDouble q := by
  have h := (roundDouble_bounds q hq).1
  have : (0 : ℚ) ≤ (1 - 1 / 2 ^ 53) * q := mul_nonneg (by norm_num) hq
  linarith

theorem foldl_roundDouble_bounds (ys : List ℚ) (hys : ∀ y ∈ ys, 0 ≤ y) (a : ℚ)
    (ha : 0 ≤ a) :
    (1 - 1 / 2 ^ 53) ^ ys.length * (a + ys.sum)
        ≤ ys.foldl (fun s y => roundDouble (s + y)) a
      ∧ ys.foldl (fun s y => roundDouble (s + y)) a
        ≤ (1 + 1 / 2 ^ 53) ^ ys.length * (a + ys.sum)
      ∧ 0 ≤ ys.sum := by
  induction ys generalizing a with
  | nil => simp
  | cons y rest ih =>
    have hy : 0 ≤ y := hys y (List.mem_cons_self _ _)
    have hrest : ∀ z ∈ rest, 0 ≤ z := fun z hz => hys z (List.mem_cons_of_mem _ hz)
    have hay : 0 ≤ a + y := add_nonneg ha hy
    obtain ⟨lo, hi⟩ := roundDouble_bounds (a + y) hay
    obtain ⟨l, u, hs⟩ := ih hrest (roundDouble (a + y)) (roundDouble_nonneg _ hay)
    have hL : (0 : ℚ) ≤ (1 - 1 / 2 ^ 53) ^ rest.length := pow_nonneg (by norm_num) _
    have hU : (0 : ℚ) ≤ (1 + 1 / 2 ^ 53) ^ rest.length := pow_nonneg (by norm_num) _
    simp only [List.foldl_cons, List.length_cons, List.sum_cons]
    rw [pow_succ (1 - 1 / 2 ^ 53 : ℚ) rest.length, pow_succ (1 + 1 / 2 ^ 53 : ℚ) rest.length]
    refine ⟨le_trans ?_ l, le_trans u ?_, add_nonneg hy hs⟩
    · have step : (1 - 1 / 2 ^ 53) * (a + (y + rest.sum)) ≤ roundDouble (a + y) + rest.sum := by
        have : (1 - 1 / 2 ^ 53 : ℚ) * rest.sum ≤ rest.sum := by
          have : (0 : ℚ) ≤ 1 / 2 ^ 53 * rest.sum := mul_nonneg (by norm_num) hs
          linarith
        linarith
      calc (1 - 1 / 2 ^ 53) ^ rest.length * (1 - 1 / 2 ^ 53) * (a + (y + rest.sum))
          = (1 - 1 / 2 ^ 53) ^ rest.length * ((1 - 1 / 2 ^ 53) * (a + (y + rest.sum))) := by
            ring
        _ ≤ (1 - 1 / 2 ^ 53) ^ rest.length * (roundDouble (a + y) + rest.sum) :=
            mul_le_mul_of_nonneg_left step hL
    · have step : roundDouble (a + y) + rest.sum ≤ (1 + 1 / 2 ^ 53) * (a + (y + rest.sum)) := by
        have : (0 : ℚ) ≤ 1 / 2 ^ 53 * rest.sum := mul_nonneg (by norm_num) hs
        linarith
      calc (1 + 1 / 2 ^ 53) ^ rest.length * (roundDouble (a + y) + rest.sum)
          ≤ (1 + 1 / 2 ^ 53) ^ rest.length * ((1 + 1 / 2 ^ 53) * (a + (y + rest.sum))) :=
            mul_le_mul_of_nonneg_left step hU
        _ = (1 + 1 / 2 ^ 53) ^ rest.length * (1 + 1 / 2 ^ 53) * (a + (y + rest.sum)) := by
            ring

theorem sum_map_bounds {α : Type} (l : List α) (f g : α → ℚ) (c : ℚ)
    (h : ∀ p ∈ l, g p ≤ c * f p) : (l.map g).sum ≤ c * (l.map f).sum := by
  induction l with
  | nil => simp
  | cons x xs ih =>
    have hx := h x (List.mem_cons_self _ _)
    have hxs := ih (fun p hp => h p (List.mem_cons_of_mem _ hp))
    simp only [List.map_cons, List.sum_cons]
    linarith

theorem sum_map_bounds_below {α : Type} (l : List α) (f g : α → ℚ) (c : ℚ)
    (h : ∀ p ∈ l, c * f p ≤ g p) : c * (l.map f).sum ≤ (l.map g).sum := by
  induction l with
  | nil => simp
  | cons x xs ih =>
    have hx := h x (List.mem_cons_self _ _)
    have hxs := ih (fun p hp => h p (List.mem_cons_of_mem _ hp))
    simp only [List.map_cons, List.sum_cons]
    linarith

theorem pow_gap (m : Nat) :
    1 - (1 - 1 / 2 ^ 53 : ℚ) ^ m ≤ (1 + 1 / 2 ^ 53) ^ m - 1 := by
  have h1 : 1 + (m : ℚ) * (1 / 2 ^ 53) ≤ (1 + 1 / 2 ^ 53) ^ m :=
    one_add_mul_le_pow (by norm_num) m
  have h2 : 1 + (m : ℚ) * (-(1 / 2 ^ 53)) ≤ (1 + -(1 / 2 ^ 53)) ^ m :=
    one_add_mul_le_pow (by norm_num) m
  have e : (1 + -(1 / 2 ^ 53) : ℚ) = 1 - 1 / 2 ^ 53 := by ring
  rw [e] at h2
  linarith

/-- The mean of non-negative numbers computed in double arithmetic: each number `f p`
enters as a double `g p` within one rounding of it, the sum is taken from 0 by rounded
additions and divided by the length with one more rounding. The result is non-negative
and within `doubleError n` of the exact mean, relatively. -/
theorem double_mean_near {α : Type} (l : List α) (f g : α → ℚ) (hne : l ≠ [])
    (hf : ∀ p ∈ l, 0 ≤ f p)
    (hg : ∀ p ∈ l, (1 - 1 / 2 ^ 53) * f p ≤ g p ∧ g p ≤ (1 + 1 / 2 ^ 53) * f p) :
    0 ≤ (l.map f).sum / (l.length : ℚ)
      ∧ 0 ≤ roundDouble ((l.map g).foldl (fun s y => roundDouble (s + y)) 0 / (l.length : ℚ))
      ∧ abs (roundDouble ((l.map g).foldl (fun s y => roundDouble (s + y)) 0
            / (l.length : ℚ)) - (l.map f).sum / (l.length : ℚ))
          ≤ doubleError l.length * ((l.map f).sum / (l.length : ℚ)) := by
  have hlen : (0 : ℚ) < (l.length : ℚ) := by
    exact_mod_cast List.length_pos.mpr hne
  have hgnn : ∀ y ∈ l.map g, 0 ≤ y := by
    intro y hy
    obtain ⟨p, hp, rfl⟩ := List.mem_map.mp hy
    have : (0 : ℚ) ≤ (1 - 1 / 2 ^ 53) * f p := mul_nonneg (by norm_num) (hf p hp)
    linarith [(hg p hp).1]
  have hfsum : 0 ≤ (l.map f).sum := by
    apply List.sum_nonneg
    intro y hy
    obtain ⟨p, hp, rfl⟩ := List.mem_map.mp hy
    exact hf p hp
  obtain ⟨lo, hi, hs⟩ := foldl_roundDouble_bounds (l.map g) hgnn 0 le_rfl
  rw [List.length_map, zero_add] at lo hi
  have glo := sum_map_bounds_below l f g _ (fun p hp => (hg p hp).1)
  have ghi := sum_map_bounds l f g _ (fun p hp => (hg p hp).2)
  set S := (l.map g).foldl (fun s y => roundDouble (s + y)) 0 with hS
  set n := l.length with hn
  set F := (l.map f).sum with hF
  have hL : (0 : ℚ) ≤ (1 - 1 / 2 ^ 53) ^ n := pow_nonneg (by norm_num) _
  have hU : (0 : ℚ) ≤ (1 + 1 / 2 ^ 53) ^ n := pow_nonneg (by norm_num) _
  have hS0 : 0 ≤ S := le_trans (mul_nonneg hL hs) lo
  have hSn : 0 ≤ S / (n : ℚ) := div_nonneg hS0 hlen.le
  have hM : 0 ≤ F / (n : ℚ) := div_nonneg hfsum hlen.le
  obtain ⟨rlo, rhi⟩ := roundDouble_bounds (S / (n : ℚ)) hSn
  have Slo : (1 - 1 / 2 ^ 53) ^ (n + 1) * F ≤ S := by
    calc (1 - 1 / 2 ^ 53) ^ (n + 1) * F
        = (1 - 1 / 2 ^ 53) ^ n * ((1 - 1 / 2 ^ 53) * F) := by ring
      _ ≤ (1 - 1 / 2 ^ 53) ^ n * (l.map g).sum := mul_le_mul_of_nonneg_left glo hL
      _ ≤ S := lo
  have Shi : S ≤ (1 + 1 / 2 ^ 53) ^ (n + 1) * F := by
    calc S ≤ (1 + 1 / 2 ^ 53) ^ n * (l.map g).sum := hi
      _ ≤ (1 + 1 / 2 ^ 53) ^ n * ((1 + 1 / 2 ^ 53) * F) := mul_le_mul_of_nonneg_left ghi hU
      _ = (1 + 1 / 2 ^ 53) ^ (n + 1) * F := by ring
  have Dlo : (1 - 1 / 2 ^ 53) ^ (n + 1) * (F / (n : ℚ)) ≤ S / (n : ℚ) := by
    rw [← mul_div_assoc]
    exact div_le_div_of_nonneg_right Slo hlen.le
  have Dhi : S / (n : ℚ) ≤ (1 + 1 / 2 ^ 53) ^ (n + 1) * (F / (n : ℚ)) := by
    rw [← mul_div_assoc]
    exact div_le_div_of_nonneg_right Shi hlen.le
  have Rlo : (1 - 1 / 2 ^ 53) ^ (n + 2) * (F / (n : ℚ)) ≤ roundDouble (S / (n : ℚ)) := by
    calc (1 - 1 / 2 ^ 53) ^ (n + 2) * (F / (n : ℚ))
        = (1 - 1 / 2 ^ 53) * ((1 - 1 / 2 ^ 53) ^ (n + 1) * (F / (n : ℚ))) := by ring
      _ ≤ (1 - 1 / 2 ^ 53) * (S / (n : ℚ)) :=
          mul_le_mul_of_nonneg_left Dlo (by norm_num)
      _ ≤ roundDouble (S / (n : ℚ)) := rlo
  have Rhi : roundDouble (S / (n : ℚ)) ≤ (1 + 1 / 2 ^ 53) ^ (n + 2) * (F / (n : ℚ)) := by
    calc roundDouble (S / (n : ℚ)) ≤ (1 + 1 / 2 ^ 53) * (S / (n : ℚ)) := rhi
      _ ≤ (1 + 1 / 2 ^ 53) * ((1 + 1 / 2 ^ 53) ^ (n + 1) * (F / (n : ℚ))) :=
          mul_le_mul_of_nonneg_left Dhi (by norm_num)
      _ = (1 + 1 / 2 ^ 53) ^ (n + 2) * (F / (n : ℚ)) := by ring
  refine ⟨hM, roundDouble_nonneg _ hSn, ?_⟩
  have gap := pow_gap (n + 2)
  have gapM : (1 - (1 - 1 / 2 ^ 53 : ℚ) ^ (n + 2)) * (F / (n : ℚ))
      ≤ ((1 + 1 / 2 ^ 53) ^ (n + 2) - 1) * (F / (n : ℚ)) :=
    mul_le_mul_of_nonneg_right gap hM
  unfold doubleError
  rw [abs_le]
  constructor <;> nlinarith [Rlo, Rhi, gapM]

theorem divLength_fin_pos (q : ℚ) (n : Nat) (hn : 0 < n) :
    JSNum.divLength (JSNum.fin q) n = JSNum.fin (q / (n : ℚ)) := by
  cases n with
  | zero => exact absurd hn (lt_irrefl 0)
  | succ k => simp [JSNum.divLength]

theorem foldl_max_spec (xs : List Int) (x : Int) :
    xs.foldl max x ∈ x :: xs ∧ ∀ p ∈ x :: xs, p ≤ xs.foldl max x := by
  induction xs generalizing x with
  | nil => simp
  | cons y ys ih =>
    obtain ⟨hmem, hle⟩ := ih (max x y)
    simp only [List.foldl_cons]
    refine ⟨?_, ?_⟩
    · rcases List.mem_cons.mp hmem with h | h
      · rw [h]
        rcases max_choice x y with hc | hc
        · rw [hc]; simp
        · rw [hc]; simp
      · simp [h]
    · intro p hp
      have hxy := hle (max x y) (List.mem_cons_self _ _)
      rcases List.mem_cons.mp hp with h | h
      · rw [h]; exact le_trans (le_max_left x y) hxy
      · rcases List.mem_cons.mp h with h | h
        · rw [h]; exact le_trans (le_max_right x y) hxy
        · exact hle p (List.mem_cons_of_mem _ h)

theorem foldl_min_spec (xs : List Int) (x : Int) :
    xs.foldl min x ∈ x :: xs ∧ ∀ p ∈ x :: xs, xs.foldl min x ≤ p := by
  induction xs generalizing x with
  | nil => simp
  | cons y ys ih =>
    obtain ⟨hmem, hle⟩ := ih (min x y)
    simp only [List.foldl_cons]
    refine ⟨?_, ?_⟩
    · rcases List.mem_cons.mp hmem with h | h
      · rw [h]
        rcases min_choice x y with hc | hc
        · rw [hc]; simp
        · rw [hc]; simp
      · simp [h]
    · intro p hp
      have hxy := hle (min x y) (List.mem_cons_self _ _)
      rcases List.mem_cons.mp hp with h | h
      · rw [h]; exact le_trans hxy (min_le_left x y)
      · rcases List.mem_cons.mp h with h | h
        · rw [h]; exact le_trans hxy (min_le_right x y)
        · exact hle p (List.mem_cons_of_mem _ h)

theorem roundDouble_scaled (q : ℚ) (k : Nat) (m : Int) (h1 : (2 : ℚ) ^ 52 ≤ |q| * 2 ^ k)
    (h2 : |q| * 2 ^ k < (2 : ℚ) ^ 53) (hm : roundHalfEven (q * 2 ^ k) = m) :
    roundDouble q = (m : ℚ) / 2 ^ k := by
  have hk : (0 : ℚ) < 2 ^ k := by positivity
  have e0 : (2 : ℚ) ^ ((52 : Int) - (k : Int)) = 2 ^ 52 / 2 ^ k := by
    rw [zpow_sub₀ (by norm_num : (2 : ℚ) ≠ 0), zpow_natCast]
    norm_num
  have e1 : (2 : ℚ) ^ ((52 : Int) - (k : Int) + 1) = 2 ^ 53 / 2 ^ k := by
    rw [zpow_add₀ (by norm_num : (2 : ℚ) ≠ 0), e0]
    norm_num
    ring
  have e2 : (2 : ℚ) ^ ((52 : Int) - (k : Int) - 52) = 1 / 2 ^ k := by
    have : (52 : Int) - (k : Int) - 52 = -(k : Int) := by ring
    rw [this, zpow_neg, zpow_natCast, one_div]
  have h := roundDouble_eval q ((52 : Int) - (k : Int)) m
    (by rw [e0, div_le_iff₀ hk]; exact h1)
    (by rw [e1, lt_div_iff₀ hk]; exact h2)
    (by rw [e2, div_div_eq_mul_div, div_one]; exact hm)
  rw [h, e2]
  ring

theorem roundDouble_of_nat (q : ℚ) (n : Nat) (h : q = (n : ℚ)) (hn : n ≤ 2 ^ 53) :
    roundDouble q = (n : ℚ) := by
  rw [h]
  exact roundDouble_natCast n hn

/-- What `toFixed` writes for a non-negative number `avg` known to lie within `ε` of a
non-negative number `M`: a numeral without sign, within half a unit of the last digit
plus `ε` of `M`, and the very numeral written for `M` when no rounding boundary lies
within `ε` of `M`. -/
theorem toFixed_within (avg M ε : ℚ) (d : Nat) (havg : 0 ≤ avg) (hM : 0 ≤ M)
    (h : abs (avg - M) ≤ ε) :
    (∃ units : Nat, toFixed (JSNum.fin avg) d = NumStr.numeral false units d)
      ∧ abs ((toFixed (JSNum.fin avg) d).toNumber.toRat - M) ≤ 1 / (2 * 10 ^ d) + ε
      ∧ (⌊(M - ε) * 10 ^ d + 1 / 2⌋ = ⌊(M + ε) * 10 ^ d + 1 / 2⌋ →
          toFixed (JSNum.fin avg) d = toFixed (JSNum.fin M) d) := by
  obtain ⟨u, hu, hd⟩ := toFixed_near avg d
  have hneg : decide (avg < 0) = false := by simpa using havg
  have hnegM : decide (M < 0) = false := by simpa using hM
  rw [hneg] at hu
  have hpow : (0 : ℚ) < 10 ^ d := by positivity
  obtain ⟨hlo, hhi⟩ := abs_le.mp h
  refine ⟨⟨u, hu⟩, ?_, ?_⟩
  · calc abs ((toFixed (JSNum.fin avg) d).toNumber.toRat - M)
        = abs (((toFixed (JSNum.fin avg) d).toNumber.toRat - avg) + (avg - M)) := by
          congr 1
          ring
      _ ≤ abs ((toFixed (JSNum.fin avg) d).toNumber.toRat - avg) + abs (avg - M) :=
          abs_add _ _
      _ ≤ 1 / (2 * 10 ^ d) + ε := add_le_add hd h
  · intro hfl
    have m1 : ⌊(M - ε) * 10 ^ d + 1 / 2⌋ ≤ ⌊avg * 10 ^ d + 1 / 2⌋ := by
      apply Int.floor_mono
      have : (M - ε) * 10 ^ d ≤ avg * 10 ^ d :=
        mul_le_mul_of_nonneg_right (by linarith) hpow.le
      linarith
    have m2 : ⌊avg * 10 ^ d + 1 / 2⌋ ≤ ⌊(M + ε) * 10 ^ d + 1 / 2⌋ := by
      apply Int.floor_mono
      have : avg * 10 ^ d ≤ (M + ε) * 10 ^ d :=
        mul_le_mul_of_nonneg_right (by linarith) hpow.le
      linarith
    have hε : 0 ≤ ε := le_trans (abs_nonneg _) h
    have m3 : ⌊(M - ε) * 10 ^ d + 1 / 2⌋ ≤ ⌊M * 10 ^ d + 1 / 2⌋ := by
      apply Int.floor_mono
      have : (M - ε) * 10 ^ d ≤ M * 10 ^ d :=
        mul_le_mul_of_nonneg_right (by linarith) hpow.le
      linarith
    have m4 : ⌊M * 10 ^ d + 1 / 2⌋ ≤ ⌊(M + ε) * 10 ^ d + 1 / 2⌋ := by
      apply Int.floor_mono
      have : M * 10 ^ d ≤ (M + ε) * 10 ^ d :=
        mul_le_mul_of_nonneg_right (by linarith) hpow.le
      linarith
    have heq : ⌊avg * 10 ^ d + 1 / 2⌋ = ⌊M * 10 ^ d + 1 / 2⌋ := by omega
    simp only [toFixed, hneg, hnegM, abs_of_nonneg havg, abs_of_nonneg hM, heq]

end PerformanceUtils

namespace RealWorldExample

open PerformanceUtils

theorem mathMax_spec (items : List Product) (hne : items ≠ []) :
    ∃ p ∈ items, mathMax (items.map (fun p => p.price)) = JSNum.fin (p.price : ℚ)
      ∧ ∀ o ∈ items, o.price ≤ p.price := by
  cases items with
  | nil => exact absurd rfl hne
  | cons x xs =>
    obtain ⟨hmem, hle⟩ := foldl_max_spec (xs.map (fun p => p.price)) x.price
    have hmem2 : (xs.map (fun p => p.price)).foldl max x.price
        ∈ (x :: xs).map (fun p => p.price) := by simpa using hmem
    obtain ⟨p, hp, hpe⟩ := List.mem_map.mp hmem2
    refine ⟨p, hp, ?_, ?_⟩
    · simp only [List.map_cons, mathMax]
      rw [← hpe]
    · intro o ho
      rw [hpe]
      apply hle
      have : o.price ∈ (x :: xs).map (fun p => p.price) := List.mem_map.mpr ⟨o, ho, rfl⟩
      simpa using this

theorem mathMin_spec (items : List Product) (hne : items ≠ []) :
    ∃ p ∈ items, mathMin (items.map (fun p => p.price)) = JSNum.fin (p.price : ℚ)
      ∧ ∀ o ∈ items, p.price ≤ o.price := by
  cases items with
  | nil => exact absurd rfl hne
  | cons x xs =>
    obtain ⟨hmem, hle⟩ := foldl_min_spec (xs.map (fun p => p.price)) x.price
    have hmem2 : (xs.map (fun p => p.price)).foldl min x.price
        ∈ (x :: xs).map (fun p => p.price) := by simpa using hmem
    obtain ⟨p, hp, hpe⟩ := List.mem_map.mp hmem2
    refine ⟨p, hp, ?_, ?_⟩
    · simp only [List.map_cons, mathMin]
      rw [← hpe]
    · intro o ho
      rw [hpe]
      apply hle
      have : o.price ∈ (x :: xs).map (fun p => p.price) := List.mem_map.mpr ⟨o, ho, rfl⟩
      simpa using this

theorem toDouble_fin (q : ℚ) : (JSNum.fin q).toDouble = JSNum.fin (roundDouble q) := rfl

theorem foldl_addDouble_prices (prices : List Int) (acc : ℚ) :
    prices.foldl
        (fun (sum : JSNum) (price : Int) => (JSNum.add sum (JSNum.fin (price : ℚ))).toDouble)
        (JSNum.fin acc)
      = JSNum.fin
          ((prices.map (fun x : Int => (x : ℚ))).foldl (fun s y => roundDouble (s + y)) acc) := by
  induction prices generalizing acc with
  | nil => rfl
  | cons x xs ih =>
    simp only [List.foldl_cons, add_fin_fin, toDouble_fin, List.map_cons]
    exact ih _

theorem foldl_addDouble_numbers (ys : List ℚ) (acc : ℚ) :
    (ys.map JSNum.fin).foldl (fun (sum rating : JSNum) => (JSNum.add sum rating).toDouble)
        (JSNum.fin acc)
      = JSNum.fin (ys.foldl (fun s y => roundDouble (s + y)) acc) := by
  induction ys generalizing acc with
  | nil => rfl
  | cons x xs ih =>
    simp only [List.map_cons, List.foldl_cons, add_fin_fin, toDouble_fin]
    exact ih _

theorem ratings_as_doubles (items : List Product)
    (hnum : ∀ p ∈ items, ∃ (units digits : Nat),
      p.rating = NumStr.numeral false units digits) :
    items.map (fun p => (parseFloat p.rating).toDouble)
      = (items.map (fun p => roundDouble (parseFloat p.rating).toRat)).map JSNum.fin := by
  rw [List.map_map]
  apply List.map_congr_left
  intro p hp
  obtain ⟨u, d, hr⟩ := hnum p hp
  simp only [Function.comp, hr, parseFloat, NumStr.toNumber, JSNum.toDouble, JSNum.toRat]

theorem avgPrice_eq (items : List Product) (hne : items ≠ []) :
    toFixed
        (JSNum.divLength
          ((items.map (fun p => p.price)).foldl
            (fun (sum : JSNum) (price : Int) =>
              (JSNum.add sum (JSNum.fin (price : ℚ))).toDouble)
            (JSNum.fin 0))
          (items.map (fun p => p.price)).length).toDouble 2
      = toFixed
          (JSNum.fin (roundDouble
            ((items.map (fun p => (p.price : ℚ))).foldl (fun s y => roundDouble (s + y)) 0
              / (items.length : ℚ)))) 2 := by
  have hlen : 0 < items.length := List.length_pos.mpr hne
  rw [foldl_addDouble_prices, List.length_map, divLength_fin_pos _ _ hlen, List.map_map]
  rfl

theorem avgRating_eq (items : List Product) (hne : items ≠ [])
    (hnum : ∀ p ∈ items, ∃ (units digits : Nat),
      p.rating = NumStr.numeral false units digits) :
    toFixed
        (JSNum.divLength
          ((items.map (fun p => (parseFloat p.rating).toDouble)).foldl
            (fun (sum rating : JSNum) => (JSNum.add sum rating).toDouble) (JSNum.fin 0))
          (items.map (fun p => (parseFloat p.rating).toDouble)).length).toDouble 1
      = toFixed
          (JSNum.fin (roundDouble
            ((items.map (fun p => roundDouble (parseFloat p.rating).toRat)).foldl
                (fun s y => roundDouble (s + y)) 0
              / (items.length : ℚ)))) 1 := by
  have hlen : 0 < items.length := List.length_pos.mpr hne
  rw [List.length_map, ratings_as_doubles items hnum, foldl_addDouble_numbers,
    divLength_fin_pos _ _ hlen]
  rfl

theorem rating_nonneg (p : Product) (units digits : Nat)
    (h : p.rating = NumStr.numeral false units digits) : 0 ≤ (parseFloat p.rating).toRat := by
  rw [h]
  simp only [parseFloat, NumStr.toNumber, JSNum.toRat, Bool.false_eq_true, if_false, one_mul]
  positivity

theorem double_11_10 : roundDouble (11 / 10) = 4953959590107546 / 2 ^ 52 := by
  rw [roundDouble_scaled (11 / 10) 52 4953959590107546 (by norm_num [abs_of_pos])
    (by norm_num [abs_of_pos])
    (roundHalfEven_above _ 4953959590107545 (by norm_num) (by norm_num))]
  norm_num

theorem double_12_10 : roundDouble (12 / 10) = 5404319552844595 / 2 ^ 52 := by
  rw [roundDouble_scaled (12 / 10) 52 5404319552844595 (by norm_num [abs_of_pos])
    (by norm_num [abs_of_pos])
    (roundHalfEven_below _ 5404319552844595 (by norm_num) (by norm_num))]
  norm_num

theorem double_first_sum :
    roundDouble (0 + 4953959590107546 / 2 ^ 52) = 4953959590107546 / 2 ^ 52 := by
  rw [roundDouble_scaled (0 + 4953959590107546 / 2 ^ 52) 52 4953959590107546
    (by norm_num [abs_of_pos]) (by norm_num [abs_of_pos])
    (by
      have e : (0 + 4953959590107546 / 2 ^ 52 : ℚ) * 2 ^ 52
          = ((4953959590107546 : Int) : ℚ) := by norm_num
      rw [e, roundHalfEven_intCast])]
  norm_num

theorem double_second_sum :
    roundDouble (4953959590107546 / 2 ^ 52 + 5404319552844595 / 2 ^ 52)
      = 5179139571476070 / 2 ^ 51 := by
  rw [roundDouble_scaled (4953959590107546 / 2 ^ 52 + 5404319552844595 / 2 ^ 52) 51
    5179139571476070 (by norm_num [abs_of_pos]) (by norm_num [abs_of_pos])
    (roundHalfEven_tie_even _ 5179139571476070 (by norm_num) (by decide))]
  norm_num

theorem double_half :
    roundDouble (5179139571476070 / 2 ^ 51 / ((2 : Nat) : ℚ)) = 5179139571476070 / 2 ^ 52 := by
  rw [roundDouble_scaled (5179139571476070 / 2 ^ 51 / ((2 : Nat) : ℚ)) 52 5179139571476070
    (by norm_num [abs_of_pos]) (by norm_num [abs_of_pos])
    (by
      have e : (5179139571476070 / 2 ^ 51 / ((2 : Nat) : ℚ) : ℚ) * 2 ^ 52
          = ((5179139571476070 : Int) : ℚ) := by norm_num
      rw [e, roundHalfEven_intCast])]
  norm_num

end RealWorldExample

/-! ### Facts about `generateLargeDataset` -/

namespace PerformanceUtils

theorem floor_scaled_bounds (r : ℚ) (n : Nat) (h0 : 0 ≤ r) (h1 : r < 1) (hn : 0 < n) :
    0 ≤ ⌊r * (n : ℚ)⌋ ∧ ⌊r * (n : ℚ)⌋ < (n : Int) := by
  have hnq : (0 : ℚ) < (n : ℚ) := by exact_mod_cast hn
  constructor
  · exact Int.floor_nonneg.mpr (mul_nonneg h0 hnq.le)
  · rw [Int.floor_lt]
    have : r * (n : ℚ) < 1 * (n : ℚ) := mul_lt_mul_of_pos_right h1 hnq
    simpa using this

theorem elementAt_of_bounds (xs : List String) (i : Int) (h0 : 0 ≤ i)
    (h1 : i < (xs.length : Int)) :
    ∃ s, elementAt xs i = some s ∧ s ∈ xs := by
  have hlt : i.toNat < xs.length := by omega
  refine ⟨xs[i.toNat], ?_, List.getElem_mem _⟩
  simp [elementAt, h0, List.getElem?_eq_getElem hlt]

theorem item_id (random : Nat → ℚ) (index : Nat) :
    (generateLargeDataset.item random index).id = index + 1 := rfl

theorem item_price_bounds (random : Nat → ℚ) (index : Nat)
    (hrand : ∀ k, 0 ≤ random k ∧ random k < 1) :
    10 ≤ (generateLargeDataset.item random index).price
      ∧ (generateLargeDataset.item random index).price < 1010 := by
  obtain ⟨h0, h1⟩ := hrand (5 * index + 2)
  have hb := floor_scaled_bounds (random (5 * index + 2)) 1000 h0 h1 (by norm_num)
  have e : (generateLargeDataset.item random index).price
      = ⌊random (5 * index + 2) * ((1000 : Nat) : ℚ)⌋ + 10 := by
    simp [generateLargeDataset.item]
  rw [e]
  constructor
  · omega
  · have := hb.2
    push_cast at this
    omega

theorem item_rating (random : Nat → ℚ) (index : Nat)
    (hrand : ∀ k, 0 ≤ random k ∧ random k < 1) :
    ∃ u : Nat, 10 ≤ u ∧ u ≤ 50
      ∧ (generateLargeDataset.item random index).rating = NumStr.numeral false u 1 := by
  obtain ⟨h0, h1⟩ := hrand (5 * index + 3)
  have hx0 : (0 : ℚ) ≤ random (5 * index + 3) * 4 + 1 := by linarith
  have hlo : (10 : Int) ≤ ⌊(random (5 * index + 3) * 4 + 1) * 10 ^ 1 + 1 / 2⌋ := by
    rw [Int.le_floor]
    push_cast
    linarith
  have hhi : ⌊(random (5 * index + 3) * 4 + 1) * 10 ^ 1 + 1 / 2⌋ < (51 : Int) := by
    rw [Int.floor_lt]
    push_cast
    linarith
  refine ⟨⌊(random (5 * index + 3) * 4 + 1) * 10 ^ 1 + 1 / 2⌋.toNat, by omega, by omega, ?_⟩
  have hneg : decide (random (5 * index + 3) * 4 + 1 < 0) = false := by simpa using hx0
  simp only [generateLargeDataset.item, toFixed, abs_of_nonneg hx0, hneg]

theorem item_category (random : Nat → ℚ) (index : Nat)
    (hrand : ∀ k, 0 ≤ random k ∧ random k < 1) :
    (0 ≤ ⌊random (5 * index) * 7⌋ ∧ ⌊random (5 * index) * 7⌋ ≤ 6)
      ∧ elementAt generateLargeDataset.categories ⌊random (5 * index) * 7⌋
        = some (generateLargeDataset.item random index).category
      ∧ (generateLargeDataset.item random index).category ∈ generateLargeDataset.categories := by
  obtain ⟨h0, h1⟩ := hrand (5 * index)
  have hb := floor_scaled_bounds (random (5 * index)) 7 h0 h1 (by norm_num)
  have hb2 : ⌊random (5 * index) * 7⌋ < 7 := by
    have := hb.2
    push_cast at this
    exact this
  have hb1 : 0 ≤ ⌊random (5 * index) * 7⌋ := by
    have := hb.1
    push_cast at this
    exact this
  obtain ⟨s, hs, hmem⟩ := elementAt_of_bounds generateLargeDataset.categories
    ⌊random (5 * index) * 7⌋ hb1 (by simpa [generateLargeDataset.categories] using hb2)
  have e : (generateLargeDataset.item random index).category = s := by
    simp [generateLargeDataset.item, generateLargeDataset.categories] at hs ⊢
    rw [hs]
    rfl
  refine ⟨⟨hb1, by omega⟩, ?_, ?_⟩
  · rw [e]; exact hs
  · rw [e]; exact hmem

theorem item_brand (random : Nat → ℚ) (index : Nat)
    (hrand : ∀ k, 0 ≤ random k ∧ random k < 1) :
    (0 ≤ ⌊random (5 * index + 1) * 7⌋ ∧ ⌊random (5 * index + 1) * 7⌋ ≤ 6)
      ∧ elementAt generateLargeDataset.brands ⌊random (5 * index + 1) * 7⌋
        = some (generateLargeDataset.item random index).brand
      ∧ (generateLargeDataset.item random index).brand ∈ generateLargeDataset.brands := by
  obtain ⟨h0, h1⟩ := hrand (5 * index + 1)
  have hb := floor_scaled_bounds (random (5 * index + 1)) 7 h0 h1 (by norm_num)
  have hb2 : ⌊random (5 * index + 1) * 7⌋ < 7 := by
    have := hb.2
    push_cast at this
    exact this
  have hb1 : 0 ≤ ⌊random (5 * index + 1) * 7⌋ := by
    have := hb.1
    push_cast at this
    exact this
  obtain ⟨s, hs, hmem⟩ := elementAt_of_bounds generateLargeDataset.brands
    ⌊random (5 * index + 1) * 7⌋ hb1 (by simpa [generateLargeDataset.brands] using hb2)
  have e : (generateLargeDataset.item random index).brand = s := by
    simp [generateLargeDataset.item, generateLargeDataset.brands] at hs ⊢
    rw [hs]
    rfl
  refine ⟨⟨hb1, by omega⟩, ?_, ?_⟩
  · rw [e]; exact hs
  · rw [e]; exact hmem

end PerformanceUtils

/-! ### The filter pipeline and the statistics of `RealWorldExample` -/

namespace RealWorldExample

open PerformanceUtils

/-- C11: the array returned by the filter/sort pipeline is a permutation of exactly the
input items that satisfy the three conditions (search term, category, price range with
both bounds included): nothing else appears, nothing qualifying is dropped or
duplicated. -/
theorem pipeline_perm_qualifying (host : Host) (products : Nat) (searchTerm category : String)
    (lo hi : Int) (sortBy : SortKey) (heap : Heap) :
    List.Perm
      ((filteredProductsWithMemo host products searchTerm category (lo, hi) sortBy heap).2.read
        (filteredProductsWithMemo host products searchTerm category (lo, hi) sortBy heap).1)
      ((heap.read products).filter
        (fun p => decide (Qualifies host searchTerm category lo hi p))) := by
  rw [read_filteredProductsWithMemo, ← keptItems_eq_filter]
  exact sortedItems_perm _ _

/-- C12: with an empty search term, category `'all'` and a price range that contains
every item's price, the pipeline returns, for every sort key, a permutation of the input,
hence a sequence of the same length. -/
theorem pipeline_full_range (host : Host) (products : Nat) (lo hi : Int) (sortBy : SortKey)
    (heap : Heap) (hrange : ∀ p ∈ heap.read products, lo ≤ p.price ∧ p.price ≤ hi) :
    List.Perm
        ((filteredProductsWithMemo host products "" "all" (lo, hi) sortBy heap).2.read
          (filteredProductsWithMemo host products "" "all" (lo, hi) sortBy heap).1)
        (heap.read products)
      ∧ ((filteredProductsWithMemo host products "" "all" (lo, hi) sortBy heap).2.read
          (filteredProductsWithMemo host products "" "all" (lo, hi) sortBy heap).1).length
        = (heap.read products).length := by
  have hkept : keptItems host "" "all" (lo, hi) (heap.read products) = heap.read products := by
    rw [keptItems_eq_filter]
    apply List.filter_eq_self.mpr
    intro p hp
    simp [Qualifies, hrange p hp]
  have hperm : List.Perm
      ((filteredProductsWithMemo host products "" "all" (lo, hi) sortBy heap).2.read
        (filteredProductsWithMemo host products "" "all" (lo, hi) sortBy heap).1)
      (heap.read products) := by
    rw [read_filteredProductsWithMemo, hkept]
    exact sortedItems_perm _ _
  exact ⟨hperm, hperm.length_eq⟩

/-- Witness for C12: the sample items, all priced within `[0, 1000]`, sorted by rating. -/
theorem pipeline_full_range_witness :
    List.Perm
        ((filteredProductsWithMemo asciiHost 0 "" "all" (0, 1000) SortKey.rating
            sampleHeap).2.read
          (filteredProductsWithMemo asciiHost 0 "" "all" (0, 1000) SortKey.rating
            sampleHeap).1)
        (sampleHeap.read 0)
      ∧ ((filteredProductsWithMemo asciiHost 0 "" "all" (0, 1000) SortKey.rating
            sampleHeap).2.read
          (filteredProductsWithMemo asciiHost 0 "" "all" (0, 1000) SortKey.rating
            sampleHeap).1).length
        = (sampleHeap.read 0).length :=
  pipeline_full_range asciiHost 0 0 1000 SortKey.rating sampleHeap (by decide)

/-- C13: with sort key `'price'` the returned sequence has non-decreasing prices: every
item's price is at most the price of every item after it. -/
theorem pipeline_price_sorted (host : Host) (products : Nat) (searchTerm category : String)
    (priceRange : Int × Int) (heap : Heap) :
    List.Pairwise (fun a b => a.price ≤ b.price)
      ((filteredProductsWithMemo host products searchTerm category priceRange SortKey.price
          heap).2.read
        (filteredProductsWithMemo host products searchTerm category priceRange SortKey.price
          heap).1) := by
  rw [read_filteredProductsWithMemo]
  exact sortedItems_price_pairwise host _

/-- C14: when every rating of the product list is a one-decimal numeral, with sort key
`'rating'` the returned sequence has non-increasing numeric ratings: every item's rating
is `>=` the rating of every item after it. -/
theorem pipeline_rating_sorted (host : Host) (products : Nat) (searchTerm category : String)
    (priceRange : Int × Int) (heap : Heap)
    (hnum : ∀ p ∈ heap.read products,
      ∃ (negative : Bool) (units : Nat), p.rating = NumStr.numeral negative units 1) :
    List.Pairwise (fun a b => JSNum.ge (parseFloat a.rating) (parseFloat b.rating) = true)
      ((filteredProductsWithMemo host products searchTerm category priceRange SortKey.rating
          heap).2.read
        (filteredProductsWithMemo host products searchTerm category priceRange SortKey.rating
          heap).1) := by
  rw [read_filteredProductsWithMemo]
  apply sortedItems_rating_pairwise
  intro p hp
  obtain ⟨neg, u, hu⟩ := hnum p (mem_keptItems _ _ _ _ _ p hp)
  exact ⟨_, by rw [hu, toNumber_numeral]⟩

/-- Witness for C14: the sample items, whose ratings are `"2.0"`, `"3.0"`, `"4.0"`. -/
theorem pipeline_rating_sorted_witness :
    List.Pairwise (fun a b => JSNum.ge (parseFloat a.rating) (parseFloat b.rating) = true)
      ((filteredProductsWithMemo asciiHost 0 "product" "all" (0, 1000) SortKey.rating
          sampleHeap).2.read
        (filteredProductsWithMemo asciiHost 0 "product" "all" (0, 1000) SortKey.rating
          sampleHeap).1) :=
  pipeline_rating_sorted asciiHost 0 "product" "all" (0, 1000) sampleHeap (by
    intro p hp
    simp only [sampleHeap, Heap.read, sampleItems, List.getD_cons_zero, List.mem_cons,
      List.mem_singleton, List.not_mem_nil, or_false] at hp
    rcases hp with rfl | rfl | rfl <;> exact ⟨_, _, rfl⟩)

/-- C15: the pipeline and `filterAndSortData` leave the source array as it was: for every
filter setting (the empty search term with category `'all'` included) the array behind
`products` holds the same items in the same order afterwards, the returned array is
another object, and so it is for the `data` argument of `filterAndSortData`. -/
theorem source_not_mutated (host : Host) (products : Nat) (searchTerm category : String)
    (priceRange : Int × Int) (sortBy : SortKey) (dataSortBy : Option SortKey) (heap : Heap)
    (hvalid : products < heap.arrays.length) :
    ((filteredProductsWithMemo host products searchTerm category priceRange sortBy heap).2.read
          products = heap.read products
        ∧ (filteredProductsWithMemo host products searchTerm category priceRange sortBy
            heap).1 ≠ products)
      ∧ ((filteredProductsWithMemo host products "" "all" priceRange sortBy heap).2.read
          products = heap.read products
        ∧ (filteredProductsWithMemo host products "" "all" priceRange sortBy heap).1
          ≠ products)
      ∧ ((filterAndSortData host products searchTerm dataSortBy heap).2.read products
          = heap.read products
        ∧ (filterAndSortData host products searchTerm dataSortBy heap).1 ≠ products) := by
  have h1 := keeps_filteredProductsWithMemo host products searchTerm category priceRange
    sortBy heap
  have h2 := keeps_filteredProductsWithMemo host products "" "all" priceRange sortBy heap
  have h3 := keeps_filterAndSortData host products searchTerm dataSortBy heap
  exact ⟨⟨h1.1.2 products hvalid, by omega⟩, ⟨h2.1.2 products hvalid, by omega⟩,
    ⟨h3.1.2 products hvalid, by omega⟩⟩

/-- Witness for C15: the sample heap, whose array 0 is the source batch. -/
theorem source_not_mutated_witness :
    (filteredProductsWithMemo asciiHost 0 "" "all" (0, 1000) SortKey.rating sampleHeap).2.read 0
        = sampleHeap.read 0
      ∧ (filteredProductsWithMemo asciiHost 0 "" "all" (0, 1000) SortKey.rating sampleHeap).1
        ≠ 0 :=
  (source_not_mutated asciiHost 0 "" "all" (0, 1000) SortKey.rating none sampleHeap
    (by decide)).1

theorem avgPrice_near (items : List Product) (hne : items ≠ [])
    (hprice : ∀ p ∈ items, 0 ≤ p.price) :
    0 ≤ meanPrice items
      ∧ 0 ≤ roundDouble
          ((items.map (fun p => (p.price : ℚ))).foldl (fun s y => roundDouble (s + y)) 0
            / (items.length : ℚ))
      ∧ abs (roundDouble
          ((items.map (fun p => (p.price : ℚ))).foldl (fun s y => roundDouble (s + y)) 0
            / (items.length : ℚ)) - meanPrice items)
        ≤ doubleError items.length * meanPrice items := by
  have hb : ∀ p ∈ items, (1 - 1 / 2 ^ 53) * (p.price : ℚ) ≤ (p.price : ℚ)
      ∧ (p.price : ℚ) ≤ (1 + 1 / 2 ^ 53) * (p.price : ℚ) := by
    intro p hp
    have h0 : (0 : ℚ) ≤ (p.price : ℚ) := by exact_mod_cast hprice p hp
    have : (0 : ℚ) ≤ 1 / 2 ^ 53 * (p.price : ℚ) := mul_nonneg (by norm_num) h0
    constructor <;> linarith
  exact double_mean_near items (fun p => (p.price : ℚ)) (fun p => (p.price : ℚ)) hne
    (fun p hp => by
      show (0 : ℚ) ≤ (p.price : ℚ)
      exact_mod_cast hprice p hp) hb

theorem avgRating_near (items : List Product) (hne : items ≠ [])
    (hnum : ∀ p ∈ items, ∃ (units digits : Nat),
      p.rating = NumStr.numeral false units digits) :
    0 ≤ meanRating items
      ∧ 0 ≤ roundDouble
          ((items.map (fun p => roundDouble (parseFloat p.rating).toRat)).foldl
              (fun s y => roundDouble (s + y)) 0
            / (items.length : ℚ))
      ∧ abs (roundDouble
          ((items.map (fun p => roundDouble (parseFloat p.rating).toRat)).foldl
              (fun s y => roundDouble (s + y)) 0
            / (items.length : ℚ)) - meanRating items)
        ≤ doubleError items.length * meanRating items := by
  have h0 : ∀ p ∈ items, 0 ≤ (parseFloat p.rating).toRat := by
    intro p hp
    obtain ⟨u, d, hr⟩ := hnum p hp
    exact rating_nonneg p u d hr
  exact double_mean_near items (fun p => (parseFloat p.rating).toRat)
    (fun p => roundDouble (parseFloat p.rating).toRat) hne h0
    (fun p hp => roundDouble_bounds _ (h0 p hp))

/-- C16, amended: on every non-empty sequence of products with non-negative prices and
ratings written as unsigned decimal numerals, the statistics computation returns a record
with `total` the number of items, `minPrice` and `maxPrice` the least and greatest price
occurring, `inStockCount` the number of items in stock, `avgPrice` a two-decimal numeral
and `avgRating` a one-decimal numeral, each written by `toFixed` for the mean as double
arithmetic computes it: it lies within half a unit of its last digit plus the double
rounding error `doubleError n * mean` of the exact mean, and it is the exact mean rounded
to that many decimals whenever no rounding boundary lies within that error of the exact
mean; on prices 10, 20, 30 with ratings 2.0, 3.0, 4.0 the record holds `"20.00"`, `"3.0"`,
10 and 30. -/
theorem statistics_nonempty :
    (∀ items : List Product, items ≠ [] →
      (∀ p ∈ items, 0 ≤ p.price) →
      (∀ p ∈ items, ∃ (units digits : Nat), p.rating = NumStr.numeral false units digits) →
      ∃ st : Statistics, statistics (some items) = Except.ok st
        ∧ st.total = items.length
        ∧ (∃ units : Nat, st.avgPrice = NumStr.numeral false units 2)
        ∧ abs (st.avgPrice.toNumber.toRat - meanPrice items)
          ≤ 1 / 200 + doubleError items.length * meanPrice items
        ∧ (⌊(meanPrice items - doubleError items.length * meanPrice items) * 10 ^ 2 + 1 / 2⌋
            = ⌊(meanPrice items + doubleError items.length * meanPrice items) * 10 ^ 2
                + 1 / 2⌋ →
          st.avgPrice = toFixed (JSNum.fin (meanPrice items)) 2)
        ∧ (∃ units : Nat, st.avgRating = NumStr.numeral false units 1)
        ∧ abs (st.avgRating.toNumber.toRat - meanRating items)
          ≤ 1 / 20 + doubleError items.length * meanRating items
        ∧ (⌊(meanRating items - doubleError items.length * meanRating items) * 10 ^ 1
                + 1 / 2⌋
            = ⌊(meanRating items + doubleError items.length * meanRating items) * 10 ^ 1
                + 1 / 2⌋ →
          st.avgRating = toFixed (JSNum.fin (meanRating items)) 1)
        ∧ (∃ p ∈ items, st.minPrice = JSNum.fin (p.price : ℚ) ∧ ∀ o ∈ items, p.price ≤ o.price)
        ∧ (∃ p ∈ items, st.maxPrice = JSNum.fin (p.price : ℚ) ∧ ∀ o ∈ items, o.price ≤ p.price)
        ∧ st.inStockCount = items.countP (fun p => p.inStock))
    ∧ (∀ a b c : Product, a.price = 10 → b.price = 20 → c.price = 30 →
        a.rating = NumStr.numeral false 20 1 → b.rating = NumStr.numeral false 30 1 →
        c.rating = NumStr.numeral false 40 1 →
        ∃ st : Statistics, statistics (some [a, b, c]) = Except.ok st
          ∧ st.avgPrice.render = "20.00" ∧ st.avgRating.render = "3.0"
          ∧ st.minPrice = JSNum.fin 10 ∧ st.maxPrice = JSNum.fin 30) := by
  constructor
  · intro items hne hprice hnum
    obtain ⟨pM, pavg, pnear⟩ := avgPrice_near items hne hprice
    obtain ⟨rM, ravg, rnear⟩ := avgRating_near items hne hnum
    obtain ⟨p1, p2, p3⟩ := toFixed_within _ _ _ 2 pavg pM pnear
    obtain ⟨r1, r2, r3⟩ := toFixed_within _ _ _ 1 ravg rM rnear
    have e2 : (1 : ℚ) / (2 * 10 ^ 2) = 1 / 200 := by norm_num
    have e1 : (1 : ℚ) / (2 * 10 ^ 1) = 1 / 20 := by norm_num
    rw [e2] at p2
    rw [e1] at r2
    refine ⟨_, rfl, rfl, ?_, ?_, ?_, ?_, ?_, ?_, mathMin_spec items hne,
      mathMax_spec items hne, ?_⟩
    · show ∃ units : Nat, toFixed _ 2 = NumStr.numeral false units 2
      rw [avgPrice_eq items hne]
      exact p1
    · show abs ((toFixed _ 2).toNumber.toRat - _) ≤ _
      rw [avgPrice_eq items hne]
      exact p2
    · intro h
      show toFixed _ 2 = _
      rw [avgPrice_eq items hne]
      exact p3 h
    · show ∃ units : Nat, toFixed _ 1 = NumStr.numeral false units 1
      rw [avgRating_eq items hne hnum]
      exact r1
    · show abs ((toFixed _ 1).toNumber.toRat - _) ≤ _
      rw [avgRating_eq items hne hnum]
      exact r2
    · intro h
      show toFixed _ 1 = _
      rw [avgRating_eq items hne hnum]
      exact r3 h
    · show (items.filter (fun p => p.inStock)).length = items.countP (fun p => p.inStock)
      rw [List.countP_eq_length_filter]
  · intro a b c ha hb hc hra hrb hrc
    have hnum : ∀ p ∈ [a, b, c], ∃ (units digits : Nat),
        p.rating = NumStr.numeral false units digits := by
      intro p hp
      simp only [List.mem_cons, List.mem_singleton, List.not_mem_nil, or_false] at hp
      rcases hp with h | h | h
      · exact ⟨_, _, by rw [h, hra]⟩
      · exact ⟨_, _, by rw [h, hrb]⟩
      · exact ⟨_, _, by rw [h, hrc]⟩
    have hne : [a, b, c] ≠ [] := by simp
    have s10 : roundDouble (0 + ((10 : Int) : ℚ)) = 10 := by
      rw [roundDouble_of_nat _ 10 (by norm_num) (by norm_num)]
      norm_num
    have s30 : roundDouble (10 + ((20 : Int) : ℚ)) = 30 := by
      rw [roundDouble_of_nat _ 30 (by norm_num) (by norm_num)]
      norm_num
    have s60 : roundDouble (30 + ((30 : Int) : ℚ)) = 60 := by
      rw [roundDouble_of_nat _ 60 (by norm_num) (by norm_num)]
      norm_num
    have s20 : roundDouble (60 / ((3 : Nat) : ℚ)) = 20 := by
      rw [roundDouble_of_nat _ 20 (by norm_num) (by norm_num)]
      norm_num
    have v2 : (parseFloat (NumStr.numeral false 20 1)).toRat = 2 := by
      simp only [parseFloat, NumStr.toNumber, JSNum.toRat]
      norm_num
    have v3 : (parseFloat (NumStr.numeral false 30 1)).toRat = 3 := by
      simp only [parseFloat, NumStr.toNumber, JSNum.toRat]
      norm_num
    have v4 : (parseFloat (NumStr.numeral false 40 1)).toRat = 4 := by
      simp only [parseFloat, NumStr.toNumber, JSNum.toRat]
      norm_num
    have d2 : roundDouble 2 = 2 := by
      rw [roundDouble_of_nat _ 2 (by norm_num) (by norm_num)]
      norm_num
    have d3 : roundDouble 3 = 3 := by
      rw [roundDouble_of_nat _ 3 (by norm_num) (by norm_num)]
      norm_num
    have d4 : roundDouble 4 = 4 := by
      rw [roundDouble_of_nat _ 4 (by norm_num) (by norm_num)]
      norm_num
    have t2 : roundDouble (0 + 2) = 2 := by
      rw [roundDouble_of_nat _ 2 (by norm_num) (by norm_num)]
      norm_num
    have t5 : roundDouble (2 + 3) = 5 := by
      rw [roundDouble_of_nat _ 5 (by norm_num) (by norm_num)]
      norm_num
    have t9 : roundDouble (5 + 4) = 9 := by
      rw [roundDouble_of_nat _ 9 (by norm_num) (by norm_num)]
      norm_num
    have t3 : roundDouble (9 / ((3 : Nat) : ℚ)) = 3 := by
      rw [roundDouble_of_nat _ 3 (by norm_num) (by norm_num)]
      norm_num
    have hp : toFixed (JSNum.fin (roundDouble
        (([a, b, c].map (fun p => (p.price : ℚ))).foldl (fun s y => roundDouble (s + y)) 0
          / (([a, b, c] : List Product).length : ℚ)))) 2 = NumStr.numeral false 2000 2 := by
      simp only [List.map_cons, List.map_nil, List.foldl_cons, List.foldl_nil,
        List.length_cons, List.length_nil, ha, hb, hc, s10, s30, s60, s20]
      apply toFixed_of_units <;> norm_num
    have hr : toFixed (JSNum.fin (roundDouble
        (([a, b, c].map (fun p => roundDouble (parseFloat p.rating).toRat)).foldl
            (fun s y => roundDouble (s + y)) 0
          / (([a, b, c] : List Product).length : ℚ)))) 1 = NumStr.numeral false 30 1 := by
      simp only [List.map_cons, List.map_nil, List.foldl_cons, List.foldl_nil,
        List.length_cons, List.length_nil, hra, hrb, hrc, v2, v3, v4, d2, d3, d4, t2, t5,
        t9, t3]
      apply toFixed_of_units <;> norm_num
    refine ⟨_, rfl, ?_, ?_, ?_, ?_⟩
    · dsimp only
      rw [avgPrice_eq _ hne, hp]
      decide
    · dsimp only
      rw [avgRating_eq _ hne hnum, hr]
      decide
    · simp [mathMin, ha, hb, hc]
    · simp [mathMax, ha, hb, hc]

/-- Witness for C16 amended: the three sample items have non-negative prices and unsigned
numerals as ratings, and their statistics are 3 items, `"20.00"`, `"3.0"`, 10, 30 and 2
in stock. -/
theorem statistics_nonempty_witness :
    ∃ st : Statistics, statistics (some sampleItems) = Except.ok st
      ∧ st.total = 3
      ∧ st.avgPrice.render = "20.00" ∧ st.avgRating.render = "3.0"
      ∧ st.minPrice = JSNum.fin 10 ∧ st.maxPrice = JSNum.fin 30
      ∧ st.inStockCount = 2 := by
  obtain ⟨st, h, htotal, _, _, _, _, _, _, _, _, hstock⟩ :=
    statistics_nonempty.1 sampleItems (by decide) (by decide)
      (by
        intro p hp
        simp only [sampleItems, List.mem_cons, List.mem_singleton, List.not_mem_nil,
          or_false] at hp
        rcases hp with h | h | h <;> exact ⟨_, _, by rw [h]⟩)
  have h2 : ∃ st : Statistics, statistics (some sampleItems) = Except.ok st
      ∧ st.avgPrice.render = "20.00" ∧ st.avgRating.render = "3.0"
      ∧ st.minPrice = JSNum.fin 10 ∧ st.maxPrice = JSNum.fin 30 :=
    statistics_nonempty.2 _ _ _ rfl rfl rfl rfl rfl rfl
  obtain ⟨st2, h3, a, b, c, d⟩ := h2
  have e : st2 = st := Except.ok.inj (h3.symm.trans h)
  subst e
  exact ⟨st2, h, htotal, a, b, c, d, hstock⟩

/-- C16, as stated, fails: for two products rated `"1.1"` and `"1.2"` the arithmetic mean
of the ratings is 1.15, which rounded to one decimal is `"1.2"`, and the statistics show
`"1.1"`: the sum of the doubles nearest to 1.1 and 1.2 is the double 2.29999999999999982,
and its half 1.14999999999999991 lies below 1.15. -/
theorem statistics_rating_counterexample :
    ∃ st : Statistics, statistics (some closeRatedItems) = Except.ok st
      ∧ st.avgRating.render = "1.1"
      ∧ meanRating closeRatedItems = 23 / 20
      ∧ (toFixed (JSNum.fin (meanRating closeRatedItems)) 1).render = "1.2" := by
  have hne : closeRatedItems ≠ [] := by decide
  have hnum : ∀ p ∈ closeRatedItems, ∃ (units digits : Nat),
      p.rating = NumStr.numeral false units digits := by
    intro p hp
    simp only [closeRatedItems, List.mem_cons, List.mem_singleton, List.not_mem_nil,
      or_false] at hp
    rcases hp with h | h <;> exact ⟨_, _, by rw [h]⟩
  have v11 : (parseFloat (NumStr.numeral false 11 1)).toRat = 11 / 10 := by
    simp only [parseFloat, NumStr.toNumber, JSNum.toRat]
    norm_num
  have v12 : (parseFloat (NumStr.numeral false 12 1)).toRat = 12 / 10 := by
    simp only [parseFloat, NumStr.toNumber, JSNum.toRat]
    norm_num
  have hmean : meanRating closeRatedItems = 23 / 20 := by
    simp only [meanRating, closeRatedItems, List.map_cons, List.map_nil, List.sum_cons,
      List.sum_nil, List.length_cons, List.length_nil, v11, v12]
    norm_num
  have hshown : toFixed (JSNum.fin (roundDouble
      ((closeRatedItems.map (fun p => roundDouble (parseFloat p.rating).toRat)).foldl
          (fun s y => roundDouble (s + y)) 0
        / (closeRatedItems.length : ℚ)))) 1 = NumStr.numeral false 11 1 := by
    simp only [closeRatedItems, List.map_cons, List.map_nil, List.foldl_cons,
      List.foldl_nil, List.length_cons, List.length_nil, v11, v12, double_11_10,
      double_12_10, double_first_sum, double_second_sum]
    rw [show ((0 + 1 + 1 : Nat) : ℚ) = ((2 : Nat) : ℚ) by norm_num, double_half]
    apply toFixed_of_units <;> norm_num
  refine ⟨_, rfl, ?_, hmean, ?_⟩
  · dsimp only
    rw [avgRating_eq _ hne hnum, hshown]
    decide
  · rw [hmean]
    have : toFixed (JSNum.fin (23 / 20)) 1 = NumStr.numeral false 12 1 := by
      apply toFixed_of_units <;> norm_num
    rw [this]
    decide

/-- C17, as stated, fails: on the empty sequence the statistics computation raises no
error. -/
theorem statistics_empty_counterexample :
    ¬ ∃ e : JSError, statistics (some []) = Except.error e := by
  rintro ⟨e, he⟩
  simp [statistics] at he

/-- C17, amended: on the empty sequence the statistics computation returns a record:
`total` 0, `avgPrice` and `avgRating` the text `"NaN"`, `maxPrice` `-Infinity`,
`minPrice` `Infinity` and `inStockCount` 0. -/
theorem statistics_empty_record :
    statistics (some [])
        = Except.ok
          { total := 0, avgPrice := NumStr.nan, avgRating := NumStr.nan,
            maxPrice := JSNum.negInf, minPrice := JSNum.posInf, inStockCount := 0 }
      ∧ NumStr.nan.render = "NaN" := by
  constructor
  · simp [statistics, JSNum.divLength, JSNum.toDouble, toFixed, mathMax, mathMin]
  · rfl

end RealWorldExample

/-! ### The generated catalog -/

namespace PerformanceUtils

/-- C18: for every size `N` and every outcome of the random source,
`generateLargeDataset(N)` returns exactly `N` items, the item at position `i` has id
`i + 1`, and so the ids are pairwise distinct and are exactly the integers `1..N`; size 0
gives the empty batch. -/
theorem generateLargeDataset_ids (random : Nat → ℚ) (n : Nat) :
    (generateLargeDataset random (some n)).length = n
      ∧ (∀ i, i < n →
          ∃ p, (generateLargeDataset random (some n))[i]? = some p ∧ p.id = i + 1)
      ∧ (generateLargeDataset random (some n)).map (fun p => p.id) = List.range' 1 n
      ∧ ((generateLargeDataset random (some n)).map (fun p => p.id)).Nodup
      ∧ (∀ k, k ∈ (generateLargeDataset random (some n)).map (fun p => p.id)
          ↔ 1 ≤ k ∧ k ≤ n)
      ∧ generateLargeDataset random (some 0) = [] := by
  have hids : (generateLargeDataset random (some n)).map (fun p => p.id) = List.range' 1 n := by
    simp only [generateLargeDataset, Option.getD_some, List.map_map]
    rw [List.range_eq_range', List.range'_eq_map_range 1 n]
    rw [List.range_eq_range']
    apply List.map_congr_left
    intro i _
    simp only [Function.comp, generateLargeDataset.item]
    omega
  refine ⟨by simp [generateLargeDataset], ?_, hids, ?_, ?_, rfl⟩
  · intro i hi
    refine ⟨generateLargeDataset.item random i, ?_, rfl⟩
    simp [generateLargeDataset, List.getElem?_map, List.getElem?_range hi]
  · rw [hids]
    exact List.nodup_range' 1 n
  · intro k
    rw [hids, List.mem_range'_1]
    omega

/-- Witness for C18: position 2 of a batch of size 3. -/
theorem generateLargeDataset_ids_witness :
    ∃ p, (generateLargeDataset (fun _ => 1 / 2) (some 3))[2]? = some p ∧ p.id = 2 + 1 :=
  (generateLargeDataset_ids (fun _ => 1 / 2) 3).2.1 2 (by decide)

/-- C19: when every draw of the random source lies in `[0, 1)`, every item produced by
`generateLargeDataset` has an integer price with `10 <= price < 1010`, a one-decimal
rating from `1.0` to `5.0`, and a category and a brand that are members of their
seven-element lists: the index computed for each is within `0..6`, so the element read
is never `undefined`. -/
theorem generateLargeDataset_fields (random : Nat → ℚ) (size : Option Nat)
    (hrand : ∀ k, 0 ≤ random k ∧ random k < 1) :
    (∀ p ∈ generateLargeDataset random size,
        (10 ≤ p.price ∧ p.price < 1010)
          ∧ (∃ u : Nat, 10 ≤ u ∧ u ≤ 50 ∧ p.rating = NumStr.numeral false u 1)
          ∧ p.category ∈ generateLargeDataset.categories
          ∧ p.brand ∈ generateLargeDataset.brands)
      ∧ generateLargeDataset.categories.length = 7
      ∧ generateLargeDataset.brands.length = 7
      ∧ (∀ index : Nat,
          (0 ≤ ⌊random (5 * index) * 7⌋ ∧ ⌊random (5 * index) * 7⌋ ≤ 6)
            ∧ elementAt generateLargeDataset.categories ⌊random (5 * index) * 7⌋
              = some (generateLargeDataset.item random index).category
            ∧ (0 ≤ ⌊random (5 * index + 1) * 7⌋ ∧ ⌊random (5 * index + 1) * 7⌋ ≤ 6)
            ∧ elementAt generateLargeDataset.brands ⌊random (5 * index + 1) * 7⌋
              = some (generateLargeDataset.item random index).brand) := by
  refine ⟨?_, rfl, rfl, ?_⟩
  · intro p hp
    simp only [generateLargeDataset, List.mem_map, List.mem_range] at hp
    obtain ⟨index, _, rfl⟩ := hp
    exact ⟨item_price_bounds random index hrand, item_rating random index hrand,
      (item_category random index hrand).2.2, (item_brand random index hrand).2.2⟩
  · intro index
    exact ⟨(item_category random index hrand).1, (item_category random index hrand).2.1,
      (item_brand random index hrand).1, (item_brand random index hrand).2.1⟩

/-- Witness for C19: the first item of a batch drawn from a random source whose every
draw is `1/2`. -/
theorem generateLargeDataset_fields_witness :
    (10 ≤ (generateLargeDataset.item (fun _ => 1 / 2) 0).price
        ∧ (generateLargeDataset.item (fun _ => 1 / 2) 0).price < 1010)
      ∧ (∃ u : Nat, 10 ≤ u ∧ u ≤ 50
          ∧ (generateLargeDataset.item (fun _ => 1 / 2) 0).rating = NumStr.numeral false u 1)
      ∧ (generateLargeDataset.item (fun _ => 1 / 2) 0).category
          ∈ generateLargeDataset.categories
      ∧ (generateLargeDataset.item (fun _ => 1 / 2) 0).brand ∈ generateLargeDataset.brands :=
  (generateLargeDataset_fields (fun _ => 1 / 2) (some 2) (fun _ => by norm_num)).1
    (generateLargeDataset.item (fun _ => 1 / 2) 0)
    (List.mem_map.mpr ⟨0, by simp, rfl⟩)

end PerformanceUtils

/-! ### The loader -/

namespace GithubLoader

open PerformanceUtils

/-- The URL requested by the loader. -/
theorem requests_githubInfoLoader {J : Type} (respond : String → Except JSError (Response J))
    (net : Network) :
    (githubInfoLoader respond net).2.requests
      = net.requests ++ ["https://api.github.com/users/hiteshchoudhary"] := by
  simp only [githubInfoLoader, fetch]
  cases respond "https://api.github.com/users/hiteshchoudhary" with
  | error e => rfl
  | ok response =>
    cases hok : response.ok <;> simp [hok, Response.readJson]

/-- C20, as stated, fails: a response with `ok` true whose body does not parse makes the
loader fail although the flag is not false. -/
theorem loader_fails_when_ok_counterexample :
    ({ ok := true, json := Except.error ⟨"SyntaxError", "Unexpected token <"⟩ } :
        Response Nat).ok = true
      ∧ (githubInfoLoader
          (fun _ => Except.ok
            ({ ok := true, json := Except.error ⟨"SyntaxError", "Unexpected token <"⟩ } :
              Response Nat))
          ⟨[], 0⟩).1
        = Except.error ⟨"SyntaxError", "Unexpected token <"⟩ :=
  ⟨rfl, rfl⟩

/-- C20, amended: when the request settles to a response, the loader has issued the
single GET to `https://api.github.com/users/hiteshchoudhary`; it raises its own error
`Failed to fetch GitHub profile` if and only if `ok` is false, and then without reading
the body; when `ok` is true it reads the body once and returns exactly what
`response.json()` settles to: the parsed body, or that call's fault when the body does
not parse. -/
theorem loader_outcome {J : Type} (respond : String → Except JSError (Response J))
    (net : Network) (response : Response J)
    (hresp : respond "https://api.github.com/users/hiteshchoudhary" = Except.ok response) :
    (githubInfoLoader respond net).2.requests
        = net.requests ++ ["https://api.github.com/users/hiteshchoudhary"]
      ∧ (response.ok = false →
          (githubInfoLoader respond net).1
              = Except.error ⟨"Error", "Failed to fetch GitHub profile"⟩
            ∧ (githubInfoLoader respond net).2.bodyReads = net.bodyReads)
      ∧ (response.ok = true →
          (githubInfoLoader respond net).1 = response.json
            ∧ (githubInfoLoader respond net).2.bodyReads = net.bodyReads + 1)
      ∧ (∀ body : J, response.json = Except.ok body →
          ((∃ e, (githubInfoLoader respond net).1 = Except.error e) ↔ response.ok = false)
            ∧ (response.ok = true → (githubInfoLoader respond net).1 = Except.ok body)) := by
  refine ⟨requests_githubInfoLoader respond net, ?_, ?_, ?_⟩
  · intro hok
    simp [githubInfoLoader, fetch, hresp, hok]
  · intro hok
    simp [githubInfoLoader, fetch, hresp, hok, Response.readJson]
  · intro body hbody
    cases hok : response.ok
    · simp [githubInfoLoader, fetch, hresp, hok]
    · simp [githubInfoLoader, fetch, hresp, hok, Response.readJson, hbody]

/-- Witness for C20 amended: a 404 response. -/
theorem loader_outcome_witness :
    (githubInfoLoader
        (fun _ => Except.ok ({ ok := false, json := Except.ok 7 } : Response Nat))
        ⟨[], 0⟩).1
      = Except.error ⟨"Error", "Failed to fetch GitHub profile"⟩
      ∧ (githubInfoLoader
        (fun _ => Except.ok ({ ok := false, json := Except.ok 7 } : Response Nat))
        ⟨[], 0⟩).2.bodyReads = 0 :=
  (loader_outcome
    (fun _ => Except.ok ({ ok := false, json := Except.ok 7 } : Response Nat))
    ⟨[], 0⟩ { ok := false, json := Except.ok 7 } rfl).2.1 rfl

end GithubLoader

/-! ### Base case and termination of `fibonacci`, independence of the render counts -/

namespace PerformanceUtils

theorem fibonacci_of_le_one (n : Int) (h : n ≤ 1) : fibonacci n = n := by
  rw [fibonacci]
  simp [h]

theorem fibonacciFuel_eq (fuel : Nat) (n : Int) (h : n.toNat < fuel) :
    fibonacciFuel fuel n = some (fibonacci n) := by
  induction fuel generalizing n with
  | zero => exact absurd h (Nat.not_lt_zero _)
  | succ fuel ih =>
    by_cases hn : n ≤ 1
    · simp [fibonacciFuel, hn, fibonacci_of_le_one n hn]
    · have h1 : (n - 1).toNat < fuel := by omega
      have h2 : (n - 2).toNat < fuel := by omega
      have hrec : fibonacci n = fibonacci (n - 1) + fibonacci (n - 2) := by
        rw [fibonacci]
        simp [hn]
      simp [fibonacciFuel, hn, ih _ h1, ih _ h2, hrec]

theorem fibCalls_wf : WellFounded FibCalls := by
  apply Subrelation.wf _ (InvImage.wf Int.toNat Nat.lt_wfRel.wf)
  intro m n hmn
  obtain ⟨hn, hm⟩ := hmn
  show m.toNat < n.toNat
  rcases hm with rfl | rfl <;> omega

/-- C26: for every integer `n <= 1`, negative ones included, `fibonacci(n)` returns `n`
itself, and does so within the outermost invocation: no recursive invocation is made. -/
theorem fibonacci_base_case (n : Int) (h : n ≤ 1) :
    fibonacci n = n ∧ fibonacciFuel 1 n = some n ∧ ¬ ∃ m, FibCalls m n := by
  refine ⟨fibonacci_of_le_one n h, by simp [fibonacciFuel, h], ?_⟩
  rintro ⟨m, hm, _⟩
  exact hm h

/-- Witness for C26: `fibonacci(-5) = -5`. -/
theorem fibonacci_base_case_witness :
    fibonacci (-5) = -5 ∧ fibonacciFuel 1 (-5) = some (-5) ∧ ¬ ∃ m, FibCalls m (-5) :=
  fibonacci_base_case (-5) (by decide)

/-- C27: `fibonacci` terminates on every integer: with nesting depth `max n 0 + 1` the
invocation returns its value; the recursion is well-founded, every recursive invocation
being made only when `n >= 2` and on an argument `m` with `0 <= m < n`; and every
argument `<= 1` is a base case. -/
theorem fibonacci_terminates :
    (∀ n : Int, fibonacciFuel (n.toNat + 1) n = some (fibonacci n))
      ∧ WellFounded FibCalls
      ∧ (∀ m n : Int, FibCalls m n → 2 ≤ n ∧ 0 ≤ m ∧ m < n)
      ∧ (∀ n : Int, n ≤ 1 → ∀ fuel : Nat, fibonacciFuel (fuel + 1) n = some n) := by
  refine ⟨fun n => fibonacciFuel_eq _ n (Nat.lt_succ_self _), fibCalls_wf, ?_, ?_⟩
  · intro m n hmn
    obtain ⟨hn, hm⟩ := hmn
    rcases hm with rfl | rfl <;> omega
  · intro n hn fuel
    simp [fibonacciFuel, hn]

/-- Witness for C27: the invocation `fibonacci(6)` calls `fibonacci(4)`. -/
theorem fibonacci_terminates_witness : (2 : Int) ≤ 6 ∧ (0 : Int) ≤ 4 ∧ (4 : Int) < 6 :=
  fibonacci_terminates.2.2.1 4 6 ⟨by decide, Or.inr (by decide)⟩

theorem get_snd_run_increments (labels : List String) (s : RenderCounter) (x : String) :
    ((s.run (labels.map Call.increment)).1.get x).2 = (s.get x).2 + (labels.count x : Int) := by
  induction labels generalizing s with
  | nil => simp [RenderCounter.run]
  | cons l ls ih =>
    rw [List.map_cons, run_cons, ih]
    simp only [RenderCounter.call]
    by_cases hl : l = x
    · subst hl
      rw [get_snd_increment_same, List.count_cons_self]
      push_cast
      ring
    · rw [get_snd_increment_other s l x hl, List.count_cons_of_ne (fun h => hl h.symm)]

/-- C30: for every `RenderCounter` state and all labels `x`, `y` with `y` different from
`x`, `increment(x)` leaves what `get(y)` returns unchanged; so on the shared counter the
counts of `'ExpensiveCalculation'` and `'ReferenceEquality'` are independent: after any
interleaving of increments each label's count has grown by the number of its own
increments. -/
theorem increment_leaves_other_labels (s : RenderCounter) (x y : String) (hne : y ≠ x) :
    ((s.increment x).1.get y).2 = (s.get y).2
      ∧ ((s.increment "ExpensiveCalculation").1.get "ReferenceEquality").2
          = (s.get "ReferenceEquality").2
      ∧ ((s.increment "ReferenceEquality").1.get "ExpensiveCalculation").2
          = (s.get "ExpensiveCalculation").2
      ∧ ∀ labels : List String,
          ((s.run (labels.map Call.increment)).1.get y).2
            = (s.get y).2 + (labels.count y : Int) := by
  refine ⟨get_snd_increment_other s x y (Ne.symm hne),
    get_snd_increment_other s _ _ (by decide), get_snd_increment_other s _ _ (by decide),
    fun labels => get_snd_run_increments labels s y⟩

/-- Witness for C30: on a fresh counter, a render of `ExpensiveCalculation` leaves the
count of `ReferenceEquality` at 0. -/
theorem increment_leaves_other_labels_witness :
    ((RenderCounter.new.increment "ExpensiveCalculation").1.get "ReferenceEquality").2
      = (RenderCounter.new.get "ReferenceEquality").2 :=
  (increment_leaves_other_labels RenderCounter.new "ExpensiveCalculation" "ReferenceEquality"
    (by decide)).1

theorem toFixed_thousandths (k : Int) :
    toFixed (JSNum.fin ((k : ℚ) / 1000)) 3 = NumStr.numeral (decide (k < 0)) k.natAbs 3 := by
  have habs : abs ((k : ℚ) / 1000) * 10 ^ 3 = ((k.natAbs : Int) : ℚ) := by
    rw [abs_div, Int.cast_natAbs, Int.cast_abs]
    norm_num
  have hfloor : ⌊abs ((k : ℚ) / 1000) * 10 ^ 3 + 1 / 2⌋ = (k.natAbs : Int) := by
    rw [habs, Int.floor_eq_iff]
    constructor <;> norm_num
  have hneg : decide ((k : ℚ) / 1000 < 0) = decide (k < 0) := by
    congr 1
    rw [div_lt_iff₀ (by norm_num : (0 : ℚ) < 1000)]
    simp
  simp only [toFixed, hfloor, hneg, Int.toNat_ofNat]

theorem read_filterAndSortData (host : Host) (data : Nat) (searchTerm : String)
    (sortBy : Option SortKey) (heap : Heap) :
    (filterAndSortData host data searchTerm sortBy heap).2.read
        (filterAndSortData host data searchTerm sortBy heap).1
      = sortedItems (filterAndSortData.compare host (sortBy.getD SortKey.name))
          ((heap.read data).filter
            (fun item =>
              includes (host.toLowerCase item.name) (host.toLowerCase searchTerm)
                || includes (host.toLowerCase item.category) (host.toLowerCase searchTerm))) := by
  simp only [filterAndSortData]
  rw [read_arraySort, read_arrayFilter]

theorem compare_eq_of_ne_rating (host : Host) (sortBy : SortKey) (h : sortBy ≠ SortKey.rating) :
    filterAndSortData.compare host sortBy = RealWorldExample.compare host sortBy := by
  cases sortBy with
  | rating => exact absurd rfl h
  | name => rfl
  | price => rfl
  | brand => rfl

theorem includes_empty (s : String) : includes s "" = true := by
  simp [includes]

end PerformanceUtils

/-! ### The memoized values of the components -/

namespace React

theorem useMemo_spec {δ α σ : Type} [DecidableEq δ] (P : δ → α → Prop)
    (calculate : σ → α × σ) (deps : δ) (cell : Option (MemoCell δ α)) (world : σ)
    (hcell : ∀ c, cell = some c → P c.deps c.value) (hcalc : P deps (calculate world).1) :
    P deps (useMemo calculate deps cell world).1
      ∧ ∃ c, (useMemo calculate deps cell world).2.1 = some c ∧ c.deps = deps
          ∧ c.value = (useMemo calculate deps cell world).1 := by
  cases cell with
  | none => exact ⟨hcalc, ⟨deps, (calculate world).1⟩, rfl, rfl, rfl⟩
  | some stored =>
    by_cases hdeps : stored.deps = deps
    · have h := hcell stored rfl
      rw [hdeps] at h
      refine ⟨by simpa [useMemo, hdeps] using h, stored, ?_, hdeps, ?_⟩ <;>
        simp [useMemo, hdeps]
    · refine ⟨by simpa [useMemo, hdeps] using hcalc, ⟨deps, (calculate world).1⟩, ?_, rfl, ?_⟩ <;>
        simp [useMemo, hdeps]

end React

namespace CommonMistakes

open React

theorem render_fixedMemo (s : State) (hooks : Hooks) (hok : FixedCellOk hooks) :
    (render s hooks).1.fixedMemo = s.count * 2 + (jsLength s.input : Int)
      ∧ FixedCellOk (render s hooks).2 := by
  cases hcell : hooks.fixedMemo with
  | none =>
    constructor
    · simp [render, useMemo, hcell]
    · intro c hc
      simp [render, useMemo, hcell] at hc
      subst hc
      rfl
  | some stored =>
    by_cases hdeps : stored.deps = (s.count, s.input)
    · constructor
      · simp only [render, useMemo, hcell, hdeps, if_true]
        rw [hok stored hcell, hdeps]
      · intro c hc
        simp only [render, useMemo, hcell, hdeps, if_true] at hc
        rw [Option.some.injEq] at hc
        subst hc
        exact hok stored hcell
    · constructor
      · simp [render, useMemo, hcell, hdeps]
      · intro c hc
        simp [render, useMemo, hcell, hdeps] at hc
        subst hc
        rfl

theorem renders_fixedMemo (states : List State) (hooks : Hooks) (hok : FixedCellOk hooks) :
    List.Forall₂ (fun s r => r.fixedMemo = s.count * 2 + (jsLength s.input : Int))
      states (renders hooks states) := by
  induction states generalizing hooks with
  | nil => exact List.Forall₂.nil
  | cons s rest ih =>
    obtain ⟨h1, h2⟩ := render_fixedMemo s hooks hok
    exact List.Forall₂.cons h1 (ih _ h2)

/-- C24: with `useMemo` a cache that recomputes exactly when a listed dependency changes
between renders, `fixedMemo` equals `count * 2 + input.length` of the current state at
every render of every sequence of states, whereas for some sequence of state changes
(`input` set to `"a"` while `count` stays 0) `brokenMemo` is still 0 and differs from
`count * 2 + input.length`. -/
theorem fixedMemo_tracks_brokenMemo_stale :
    (∀ states : List State,
        List.Forall₂ (fun s r => r.fixedMemo = s.count * 2 + (jsLength s.input : Int))
          (State.initial :: states) (renders Hooks.mount (State.initial :: states)))
      ∧ ∃ input : String,
          (renders Hooks.mount [State.initial, ⟨0, input⟩]).map (fun r => r.brokenMemo) = [0, 0]
            ∧ (renders Hooks.mount [State.initial, ⟨0, input⟩]).map (fun r => r.fixedMemo)
              = [0, 0 * 2 + (jsLength input : Int)]
            ∧ (0 : Int) ≠ 0 * 2 + (jsLength input : Int) := by
  refine ⟨fun states => renders_fixedMemo _ _ ?_, "a", by decide, by decide, by decide⟩
  intro c hc
  simp [Hooks.mount] at hc

end CommonMistakes

namespace ExpensiveCalculation

open PerformanceUtils React

theorem measuredFibonacci_result {T : Type} [Sub T] (clock : Nat → T)
    (toFixed : T → Nat → String) (fibNumber : Int) (label : String)
    (rt : Runtime RenderCounter) :
    (measuredFibonacci clock toFixed fibNumber label rt).1.result = fibonacci fibNumber := by
  simp [measuredFibonacci, measureExecutionTime]

theorem render_fib {T : Type} [Sub T] (clock : Nat → T) (toFixed : T → Nat → String)
    (s : State) (cell : Option (MemoCell Int (TimedResult Int))) (rt : Runtime RenderCounter)
    (hok : ∀ c, cell = some c → c.value.result = fibonacci c.deps) :
    ((render clock toFixed s cell rt).1.memoizedFibResult.result = fibonacci s.fibNumber
        ∧ ∀ t, (render clock toFixed s cell rt).1.nonMemoizedFibResult = some t →
            t.result = (render clock toFixed s cell rt).1.memoizedFibResult.result)
      ∧ ∃ c, (render clock toFixed s cell rt).2.1 = some c ∧ c.deps = s.fibNumber
          ∧ c.value = (render clock toFixed s cell rt).1.memoizedFibResult := by
  have hmemo := useMemo_spec (fun (d : Int) (v : TimedResult Int) => v.result = fibonacci d)
    (fun rt0 =>
      measuredFibonacci clock toFixed s.fibNumber
        ("Fibonacci(" ++ toString s.fibNumber ++ ") with useMemo")
        (consoleLog "🧮 Calculating Fibonacci with useMemo..." rt0))
    s.fibNumber cell
    ({ rt with program := (rt.program.increment "ExpensiveCalculation").1 } :
      Runtime RenderCounter)
    hok (measuredFibonacci_result _ _ _ _ _)
  refine ⟨⟨hmemo.1, ?_⟩, hmemo.2⟩
  intro t ht
  have e : (render clock toFixed s cell rt).1.memoizedFibResult.result
      = fibonacci s.fibNumber := hmemo.1
  rw [e]
  cases hpref : s.useMemoPref with
  | true => simp [render, hpref] at ht
  | false =>
    simp only [render, hpref, Bool.not_false, if_true, Option.some.injEq] at ht
    rw [← ht]
    exact measuredFibonacci_result _ _ _ _ _

theorem renders_fib {T : Type} [Sub T] (clock : Nat → T) (toFixed : T → Nat → String)
    (states : List State) (cell : Option (MemoCell Int (TimedResult Int)))
    (rt : Runtime RenderCounter)
    (hok : ∀ c, cell = some c → c.value.result = fibonacci c.deps) :
    List.Forall₂
      (fun s r => r.memoizedFibResult.result = fibonacci s.fibNumber
        ∧ ∀ t, r.nonMemoizedFibResult = some t → t.result = r.memoizedFibResult.result)
      states (renders clock toFixed cell rt states) := by
  induction states generalizing cell rt with
  | nil => exact List.Forall₂.nil
  | cons s rest ih =>
    obtain ⟨h1, c, hc, hd, hv⟩ := render_fib clock toFixed s cell rt hok
    refine List.Forall₂.cons h1 (ih _ _ ?_)
    intro c2 hc2
    rw [hc, Option.some.injEq] at hc2
    subst hc2
    rw [hv, hd]
    exact h1.1

end ExpensiveCalculation

namespace PerformanceComparison

open PerformanceUtils React

theorem render_fib_comparison (clock : Nat → JSNum) (dateNow : Nat → Int) (s : State)
    (cell : Option (MemoCell Int MemoResult)) (rt : Runtime (List Measurement))
    (hok : ∀ c, cell = some c → c.value.result = fibonacci c.deps) :
    ((render clock dateNow s cell rt).1.resultWithMemo.result = fibonacci s.fibNumber
        ∧ (render clock dateNow s cell rt).1.resultWithoutMemo
            = (render clock dateNow s cell rt).1.resultWithMemo.result)
      ∧ ∃ c, (render clock dateNow s cell rt).2.1 = some c ∧ c.deps = s.fibNumber
          ∧ c.value = (render clock dateNow s cell rt).1.resultWithMemo := by
  have hmemo := useMemo_spec (fun (d : Int) (v : MemoResult) => v.result = fibonacci d)
    (calculateWithMemo clock dateNow s.fibNumber) s.fibNumber cell
    (performanceNow clock (performanceNow clock rt).2).2 hok rfl
  refine ⟨⟨hmemo.1, ?_⟩, hmemo.2⟩
  have e : (render clock dateNow s cell rt).1.resultWithMemo.result
      = fibonacci s.fibNumber := hmemo.1
  rw [e]
  rfl

theorem renders_fib_comparison (clock : Nat → JSNum) (dateNow : Nat → Int) (states : List State)
    (cell : Option (MemoCell Int MemoResult)) (rt : Runtime (List Measurement))
    (hok : ∀ c, cell = some c → c.value.result = fibonacci c.deps) :
    List.Forall₂
      (fun s r => r.resultWithMemo.result = fibonacci s.fibNumber
        ∧ r.resultWithoutMemo = r.resultWithMemo.result)
      states (renders clock dateNow cell rt states) := by
  induction states generalizing cell rt with
  | nil => exact List.Forall₂.nil
  | cons s rest ih =>
    obtain ⟨h1, c, hc, hd, hv⟩ := render_fib_comparison clock dateNow s cell rt hok
    refine List.Forall₂.cons h1 (ih _ _ ?_)
    intro c2 hc2
    rw [hc, Option.some.injEq] at hc2
    subst hc2
    rw [hv, hd]
    exact h1.1

/-- C28: with `useMemo` a cache keyed by its dependency list, for every sequence of
states of `ExpensiveCalculation` and of `PerformanceComparison` the memoized Fibonacci
result of each render equals `fibonacci` of the current `fibNumber`, hence equals the
non-memoized result computed in that render; and after each render the cell is keyed by
the current `fibNumber` and holds the value just returned. -/
theorem memoized_fibonacci_current {T : Type} [Sub T] (clock : Nat → T)
    (toFixed : T → Nat → String) (statesE : List ExpensiveCalculation.State)
    (rtE : Runtime RenderCounter) (clockP : Nat → JSNum) (dateNow : Nat → Int)
    (statesP : List State) (rtP : Runtime (List Measurement)) :
    List.Forall₂
        (fun s r => r.memoizedFibResult.result = fibonacci s.fibNumber
          ∧ ∀ t, r.nonMemoizedFibResult = some t → t.result = r.memoizedFibResult.result)
        statesE (ExpensiveCalculation.renders clock toFixed none rtE statesE)
      ∧ List.Forall₂
        (fun s r => r.resultWithMemo.result = fibonacci s.fibNumber
          ∧ r.resultWithoutMemo = r.resultWithMemo.result)
        statesP (renders clockP dateNow none rtP statesP)
      ∧ (∀ (s : ExpensiveCalculation.State) (cell : Option (MemoCell Int (TimedResult Int)))
          (rt : Runtime RenderCounter),
          (∀ c, cell = some c → c.value.result = fibonacci c.deps) →
          ∃ c, (ExpensiveCalculation.render clock toFixed s cell rt).2.1 = some c
            ∧ c.deps = s.fibNumber
            ∧ c.value = (ExpensiveCalculation.render clock toFixed s cell rt).1.memoizedFibResult
            ∧ c.value.result = fibonacci s.fibNumber)
      ∧ (∀ (s : State) (cell : Option (MemoCell Int MemoResult))
          (rt : Runtime (List Measurement)),
          (∀ c, cell = some c → c.value.result = fibonacci c.deps) →
          ∃ c, (render clockP dateNow s cell rt).2.1 = some c ∧ c.deps = s.fibNumber
            ∧ c.value = (render clockP dateNow s cell rt).1.resultWithMemo
            ∧ c.value.result = fibonacci s.fibNumber) := by
  refine ⟨ExpensiveCalculation.renders_fib clock toFixed statesE none rtE (by simp),
    renders_fib_comparison clockP dateNow statesP none rtP (by simp), ?_, ?_⟩
  · intro s cell rt hok
    obtain ⟨h1, c, hc, hd, hv⟩ := ExpensiveCalculation.render_fib clock toFixed s cell rt hok
    exact ⟨c, hc, hd, hv, by rw [hv]; exact h1.1⟩
  · intro s cell rt hok
    obtain ⟨h1, c, hc, hd, hv⟩ := render_fib_comparison clockP dateNow s cell rt hok
    exact ⟨c, hc, hd, hv, by rw [hv]; exact h1.1⟩

/-- Witness for C28: the first render of `PerformanceComparison` in its initial state. -/
theorem memoized_fibonacci_current_witness :
    ∃ c, (render sampleClock (fun _ => 0) State.initial none ⟨[], 0, []⟩).2.1 = some c
      ∧ c.deps = State.initial.fibNumber
      ∧ c.value = (render sampleClock (fun _ => 0) State.initial none
          ⟨[], 0, []⟩).1.resultWithMemo
      ∧ c.value.result = fibonacci State.initial.fibNumber :=
  (memoized_fibonacci_current (fun i => (5 * i : Int)) (fun t _ => toString t) []
    ⟨RenderCounter.new, 0, []⟩ sampleClock (fun _ => 0) [] ⟨[], 0, []⟩).2.2.2
    State.initial none ⟨[], 0, []⟩ (fun _ hc => Option.noConfusion hc)

theorem performanceSavings_numerals (measurements : List Measurement) (n1 n2 : Nat)
    (hne : measurements ≠ []) :
    performanceSavings measurements (NumStr.numeral false n1 3) (NumStr.numeral false n2 3)
        = NumStr.numeral (decide (n1 < n2)) ((n1 : Int) - (n2 : Int)).natAbs 3
      ∧ (performanceSavings measurements (NumStr.numeral false n1 3)
            (NumStr.numeral false n2 3)).toNumber
          = JSNum.fin ((n1 : ℚ) / 1000 - (n2 : ℚ) / 1000) := by
  have hlen : measurements.length > 0 := List.length_pos.mpr hne
  have hsub : JSNum.sub (parseFloat (NumStr.numeral false n1 3))
      (parseFloat (NumStr.numeral false n2 3))
      = JSNum.fin ((((n1 : Int) - (n2 : Int) : Int) : ℚ) / 1000) := by
    simp only [parseFloat, NumStr.toNumber, JSNum.sub, JSNum.neg, JSNum.add]
    congr 1
    push_cast
    norm_num
    ring
  have hfix : performanceSavings measurements (NumStr.numeral false n1 3)
      (NumStr.numeral false n2 3)
      = NumStr.numeral (decide (n1 < n2)) ((n1 : Int) - (n2 : Int)).natAbs 3 := by
    simp only [performanceSavings, hlen, if_true, hsub, toFixed_thousandths]
    congr 1
    simp
  refine ⟨hfix, ?_⟩
  rw [hfix]
  simp only [NumStr.toNumber]
  congr 1
  by_cases h : n1 < n2
  · have h2 : ((n1 : Int) - (n2 : Int)).natAbs = n2 - n1 := by omega
    have h3 : ((n2 - n1 : Nat) : ℚ) = (n2 : ℚ) - (n1 : ℚ) := by
      rw [Nat.cast_sub (le_of_lt h)]
    simp only [h, decide_True, if_true, h2, h3]
    norm_num
    ring
  · have h2 : ((n1 : Int) - (n2 : Int)).natAbs = n1 - n2 := by omega
    have h3 : ((n1 - n2 : Nat) : ℚ) = (n1 : ℚ) - (n2 : ℚ) := by
      rw [Nat.cast_sub (not_lt.mp h)]
    simp only [h, decide_False, Bool.false_eq_true, if_false, h2, h3]
    norm_num
    ring

theorem measurements_stay_empty (events : List Event) :
    (events.foldl State.after State.initial).measurements = [] := by
  have key : ∀ (s : State), s.measurements = [] →
      (events.foldl State.after s).measurements = [] := by
    induction events with
    | nil => intro s hs; exact hs
    | cons e rest ih =>
      intro s hs
      apply ih
      cases e <;> exact hs
  exact key _ rfl

theorem sample_timeWithoutMemo (s : State) (cell : Option (MemoCell Int MemoResult)) :
    (render sampleClock (fun _ => 0) s cell ⟨[], 0, []⟩).1.timeWithoutMemo
      = NumStr.numeral false 500 3 := by
  have e : JSNum.sub (sampleClock 1) (sampleClock 0) = JSNum.fin (((500 : Int) : ℚ) / 1000) := by
    simp only [sampleClock, JSNum.sub, JSNum.neg, JSNum.add]
    congr 1
    norm_num
  show toFixed (JSNum.sub (sampleClock 1) (sampleClock 0)) 3 = NumStr.numeral false 500 3
  rw [e, toFixed_thousandths]
  rfl

theorem sample_memoTime (s : State) :
    (render sampleClock (fun _ => 0) s none ⟨[], 0, []⟩).1.resultWithMemo.time
      = NumStr.numeral false 100 3 := by
  have e : JSNum.sub (sampleClock 3) (sampleClock 2) = JSNum.fin (((100 : Int) : ℚ) / 1000) := by
    simp only [sampleClock, JSNum.sub, JSNum.neg, JSNum.add]
    congr 1
    norm_num
  show toFixed (JSNum.sub (sampleClock 3) (sampleClock 2)) 3 = NumStr.numeral false 100 3
  rw [e, toFixed_thousandths]
  rfl

/-- C25 fails on the code: after any sequence of events, whatever the clock and the memo
cell, `measurements` is still empty (nothing calls `setMeasurements`), so the value shown
as savings is `"0.000"`; at the initial render with the two timings `"0.500"` and `"0.100"`
it is `"0.000"` where the without-memo time minus the with-memo time is `"0.400"`. -/
theorem savings_shown_zero :
    (∀ (events : List Event) (clock : Nat → JSNum) (dateNow : Nat → Int)
        (cell : Option (MemoCell Int MemoResult)) (rt : Runtime (List Measurement)),
        (render clock dateNow (events.foldl State.after State.initial) cell
          rt).1.performanceSavings.render = "0.000")
      ∧ (render sampleClock (fun _ => 0) State.initial none
          ⟨[], 0, []⟩).1.timeWithoutMemo.render = "0.500"
      ∧ (render sampleClock (fun _ => 0) State.initial none
          ⟨[], 0, []⟩).1.resultWithMemo.time.render = "0.100"
      ∧ (render sampleClock (fun _ => 0) State.initial none
          ⟨[], 0, []⟩).1.performanceSavings.render = "0.000"
      ∧ (toFixed (JSNum.sub (parseFloat (NumStr.numeral false 500 3))
          (parseFloat (NumStr.numeral false 100 3))) 3).render = "0.400" := by
  refine ⟨?_, ?_, ?_, ?_, ?_⟩
  · intro events clock dateNow cell rt
    have hsav : (render clock dateNow (events.foldl State.after State.initial) cell
        rt).1.performanceSavings
        = performanceSavings (events.foldl State.after State.initial).measurements
            (render clock dateNow (events.foldl State.after State.initial) cell
              rt).1.timeWithoutMemo
            (render clock dateNow (events.foldl State.after State.initial) cell
              rt).1.resultWithMemo.time := rfl
    have e : ∀ t1 t2 : NumStr, performanceSavings [] t1 t2 = NumStr.numeral false 0 3 := by
      intro t1 t2
      simp [performanceSavings]
    rw [hsav, measurements_stay_empty, e]
    decide
  · rw [sample_timeWithoutMemo]
    decide
  · rw [sample_memoTime]
    decide
  · show (NumStr.numeral false 0 3).render = "0.000"
    decide
  · have hsub : JSNum.sub (parseFloat (NumStr.numeral false 500 3))
        (parseFloat (NumStr.numeral false 100 3))
        = JSNum.fin (((400 : Int) : ℚ) / 1000) := by
      simp only [parseFloat, NumStr.toNumber, JSNum.sub, JSNum.neg, JSNum.add]
      congr 1
      norm_num
    rw [hsub, toFixed_thousandths]
    decide

end PerformanceComparison

/-! ### Stability, the two filter functions, and the render of `RealWorldExample` -/

namespace RealWorldExample

open PerformanceUtils React

theorem statistics_some_ok (items : List Product) :
    ∃ st, statistics (some items) = Except.ok st := ⟨_, rfl⟩

theorem useMemoThrowing_ok {δ α ε : Type} [DecidableEq δ] (calculate : Unit → Except ε α)
    (deps : δ) (cell : Option (MemoCell δ α)) (hcalc : ∃ v, calculate () = Except.ok v) :
    ∃ v, (useMemoThrowing calculate deps cell).1 = Except.ok v := by
  obtain ⟨v, hv⟩ := hcalc
  cases cell with
  | none => exact ⟨v, by simp [useMemoThrowing, hv]⟩
  | some stored =>
    by_cases hdeps : stored.deps = deps
    · exact ⟨stored.value, by simp [useMemoThrowing, hdeps]⟩
    · exact ⟨v, by simp [useMemoThrowing, hdeps, hv]⟩

/-- C29: at every render of `RealWorldExample`, `filteredProductsWithoutMemo` is `null`
exactly when `useMemoEnabled` is true, `activeProducts` is then `filteredProductsWithMemo`,
and `activeProducts` is never `null`; so the statistics, the count and the product list
computed from it raise no `TypeError`. -/
theorem activeProducts_never_null (host : Host) (products : Nat) (s : State) (hooks : Hooks)
    (heap : Heap) :
    (render host products s hooks heap).1.activeProducts ≠ none
      ∧ ((render host products s hooks heap).1.filteredProductsWithoutMemo = none
          ↔ s.useMemoEnabled = true)
      ∧ (s.useMemoEnabled = true →
          (render host products s hooks heap).1.activeProducts
            = some (render host products s hooks heap).1.filteredProductsWithMemo)
      ∧ (s.useMemoEnabled = false →
          (render host products s hooks heap).1.activeProducts
            = (render host products s hooks heap).1.filteredProductsWithoutMemo)
      ∧ (∃ st, (render host products s hooks heap).1.statistics = Except.ok st)
      ∧ (∃ n, (render host products s hooks heap).1.found = Except.ok n)
      ∧ (∃ l, (render host products s hooks heap).1.listed = Except.ok l) := by
  cases hmemo : s.useMemoEnabled with
  | true =>
    refine ⟨by simp [render, hmemo], by simp [render, hmemo], by simp [render, hmemo],
      by simp, ?_, by simp [render, hmemo], by simp [render, hmemo]⟩
    simp only [render, hmemo, if_true]
    exact useMemoThrowing_ok _ _ _ (statistics_some_ok _)
  | false =>
    refine ⟨by simp [render, hmemo], by simp [render, hmemo], by simp,
      by simp [render, hmemo], ?_, by simp [render, hmemo], by simp [render, hmemo]⟩
    simp only [render, hmemo, Bool.false_eq_true, if_false]
    exact useMemoThrowing_ok _ _ _ (statistics_some_ok _)

/-- Witness for C29: the initial state of the component on the sample heap. -/
theorem activeProducts_never_null_witness :
    (render asciiHost 0 State.initial ⟨none, none⟩ sampleHeap).1.activeProducts
      = some (render asciiHost 0 State.initial ⟨none, none⟩
          sampleHeap).1.filteredProductsWithMemo :=
  (activeProducts_never_null asciiHost 0 State.initial ⟨none, none⟩ sampleHeap).2.2.1 rfl

theorem sortOrder_of_sameKey (host : Host) (hrefl : ∀ t : String, host.localeCompare t t = 0)
    (sortBy : SortKey) (a b : Product) (hkey : SameKey sortBy a b) :
    sortOrder (RealWorldExample.compare host sortBy) a b := by
  cases sortBy with
  | price =>
    have h : a.price = b.price := hkey
    simp [sortOrder, RealWorldExample.compare, JSNum.isPositive, h]
  | rating =>
    obtain ⟨q, ha, hb⟩ := hkey
    simp [sortOrder, RealWorldExample.compare, JSNum.isPositive, ha, hb, JSNum.sub, JSNum.neg,
      JSNum.add]
  | name =>
    have h : a.name = b.name := hkey
    simp [sortOrder, RealWorldExample.compare, JSNum.isPositive, h, hrefl]
  | brand =>
    have h : a.brand = b.brand := hkey
    simp [sortOrder, RealWorldExample.compare, JSNum.isPositive, h, hrefl]

/-- C21: the sort of the pipeline is stable: two items that pass the filters and have
equal sort keys (equal price, equal numeric rating, or equal string field) appear in the
result in the relative order they have in the input list. -/
theorem pipeline_sort_stable (host : Host) (hrefl : ∀ t : String, host.localeCompare t t = 0)
    (products : Nat) (searchTerm category : String) (lo hi : Int) (sortBy : SortKey)
    (heap : Heap) (a b : Product) (hin : List.Sublist [a, b] (heap.read products))
    (ha : Qualifies host searchTerm category lo hi a)
    (hb : Qualifies host searchTerm category lo hi b) (hkey : SameKey sortBy a b) :
    List.Sublist [a, b]
      ((filteredProductsWithMemo host products searchTerm category (lo, hi) sortBy heap).2.read
        (filteredProductsWithMemo host products searchTerm category (lo, hi) sortBy heap).1) := by
  rw [read_filteredProductsWithMemo, keptItems_eq_filter]
  have hfilter : List.Sublist [a, b] ((heap.read products).filter
      (fun p => decide (Qualifies host searchTerm category lo hi p))) := by
    have h := hin.filter (fun p => decide (Qualifies host searchTerm category lo hi p))
    simpa [List.filter, ha, hb] using h
  exact List.pair_sublist_insertionSort (sortOrder_of_sameKey host hrefl sortBy a b hkey) hfilter

/-- Witness for C21: the first and third of the tied items, both priced 20, sorted by
price. -/
theorem pipeline_sort_stable_witness :
    List.Sublist
      [(⟨1, "Lamp", "Home", "Sony", 20, NumStr.numeral false 35 1, true, "first"⟩ : Product),
       ⟨3, "Sofa", "Home", "Sony", 20, NumStr.numeral false 35 1, false, "third"⟩]
      ((filteredProductsWithMemo plainHost 0 "" "all" (0, 1000) SortKey.price
          ⟨[tiedItems]⟩).2.read
        (filteredProductsWithMemo plainHost 0 "" "all" (0, 1000) SortKey.price
          ⟨[tiedItems]⟩).1) :=
  pipeline_sort_stable plainHost (fun t => by simp [plainHost]) 0 "" "all" 0 1000
    SortKey.price ⟨[tiedItems]⟩ _ _ (by decide) (by decide) (by decide) rfl

theorem sortOrder_rating_numerals (host : Host) (a b : Product) (u1 u2 d : Nat)
    (ha : a.rating = NumStr.numeral false u1 d) (hb : b.rating = NumStr.numeral false u2 d) :
    sortOrder (RealWorldExample.compare host SortKey.rating) a b ↔ u2 ≤ u1 := by
  rw [sortOrder_rating_iff host a b (1 * ((u1 : ℚ) / 10 ^ d)) (1 * ((u2 : ℚ) / 10 ^ d))
    (by rw [ha]; rfl) (by rw [hb]; rfl)]
  have hpow : (0 : ℚ) < 10 ^ d := by positivity
  rw [one_mul, one_mul, div_le_div_iff_of_pos_right hpow, Nat.cast_le]

theorem pipeline_rating_sample :
    (filteredProductsWithMemo plainHost 0 "" "all" (0, 1000) SortKey.rating sampleHeap).2.read
      (filteredProductsWithMemo plainHost 0 "" "all" (0, 1000) SortKey.rating sampleHeap).1
      = sampleItems.reverse := by
  rw [read_filteredProductsWithMemo]
  have h12 : ¬ sortOrder (RealWorldExample.compare plainHost SortKey.rating)
      ⟨1, "Product 1", "Books", "Sony", 10, NumStr.numeral false 20 1, true, "first"⟩
      ⟨2, "Product 2", "Home", "Apple", 20, NumStr.numeral false 30 1, false, "second"⟩ := by
    rw [sortOrder_rating_numerals plainHost _ _ 20 30 1 rfl rfl]
    decide
  have h13 : ¬ sortOrder (RealWorldExample.compare plainHost SortKey.rating)
      ⟨1, "Product 1", "Books", "Sony", 10, NumStr.numeral false 20 1, true, "first"⟩
      ⟨3, "Product 3", "Books", "Nike", 30, NumStr.numeral false 40 1, true, "third"⟩ := by
    rw [sortOrder_rating_numerals plainHost _ _ 20 40 1 rfl rfl]
    decide
  have h23 : ¬ sortOrder (RealWorldExample.compare plainHost SortKey.rating)
      ⟨2, "Product 2", "Home", "Apple", 20, NumStr.numeral false 30 1, false, "second"⟩
      ⟨3, "Product 3", "Books", "Nike", 30, NumStr.numeral false 40 1, true, "third"⟩ := by
    rw [sortOrder_rating_numerals plainHost _ _ 30 40 1 rfl rfl]
    decide
  simp [keptItems, sampleHeap, Heap.read, sampleItems, sortedItems, List.insertionSort,
    List.orderedInsert, h12, h13, h23]

/-- C22, as stated, fails: on the sample items, searching `"sony"` (which occurs in a
brand only) `filterAndSortData` returns nothing where the pipeline returns item 1, and
sorting by `'rating'` `filterAndSortData` returns the ids 1, 2, 3 where the pipeline
returns the items in the reverse order. -/
theorem filterAndSortData_differs_counterexample :
    ((filterAndSortData plainHost 0 "sony" (some SortKey.name) sampleHeap).2.read
        (filterAndSortData plainHost 0 "sony" (some SortKey.name) sampleHeap).1).map
          (fun p => p.id) = []
      ∧ ((filteredProductsWithMemo plainHost 0 "sony" "all" (0, 1000) SortKey.name
            sampleHeap).2.read
          (filteredProductsWithMemo plainHost 0 "sony" "all" (0, 1000) SortKey.name
            sampleHeap).1).map (fun p => p.id) = [1]
      ∧ ((filterAndSortData plainHost 0 "" (some SortKey.rating) sampleHeap).2.read
          (filterAndSortData plainHost 0 "" (some SortKey.rating) sampleHeap).1).map
            (fun p => p.id) = [1, 2, 3]
      ∧ ((filteredProductsWithMemo plainHost 0 "" "all" (0, 1000) SortKey.rating
            sampleHeap).2.read
          (filteredProductsWithMemo plainHost 0 "" "all" (0, 1000) SortKey.rating
            sampleHeap).1).map (fun p => p.id) = [3, 2, 1] := by
  refine ⟨by decide, by decide, by decide, ?_⟩
  rw [pipeline_rating_sample]
  decide

/-- C22, amended: for every sort key other than `'rating'`, when the price range contains
every price and every item whose brand contains the search term also has it in its name
or its category, `filterAndSortData` returns the same sequence as the pipeline run with
category `'all'`. -/
theorem filterAndSortData_agrees (host : Host) (hlower : host.toLowerCase "" = "")
    (data : Nat) (searchTerm : String) (sortBy : SortKey) (lo hi : Int) (heap : Heap)
    (hkey : sortBy ≠ SortKey.rating)
    (hrange : ∀ p ∈ heap.read data, lo ≤ p.price ∧ p.price ≤ hi)
    (hbrand : ∀ p ∈ heap.read data,
      includes (host.toLowerCase p.brand) (host.toLowerCase searchTerm) = true →
        includes (host.toLowerCase p.name) (host.toLowerCase searchTerm) = true
          ∨ includes (host.toLowerCase p.category) (host.toLowerCase searchTerm) = true) :
    (filterAndSortData host data searchTerm (some sortBy) heap).2.read
        (filterAndSortData host data searchTerm (some sortBy) heap).1
      = (filteredProductsWithMemo host data searchTerm "all" (lo, hi) sortBy heap).2.read
          (filteredProductsWithMemo host data searchTerm "all" (lo, hi) sortBy heap).1 := by
  rw [read_filterAndSortData, read_filteredProductsWithMemo, Option.getD_some,
    compare_eq_of_ne_rating host sortBy hkey]
  congr 1
  simp only [keptItems]
  by_cases hs : searchTerm = ""
  · subst hs
    simp only [ne_eq, not_true_eq_false, if_false, hlower, includes_empty, Bool.or_self]
    rw [List.filter_eq_self.mpr (fun _ _ => rfl)]
    symm
    apply List.filter_eq_self.mpr
    intro p hp
    simp [hrange p hp]
  · simp only [ne_eq, hs, not_false_eq_true, if_true, not_true_eq_false, if_false,
      List.filter_filter]
    apply List.filter_congr
    intro p hp
    have hr := hrange p hp
    have hb := hbrand p hp
    rw [Bool.eq_iff_iff]
    simp only [matchesSearch, Bool.and_eq_true, Bool.or_eq_true, decide_eq_true_eq, ge_iff_le]
    constructor
    · intro h
      exact ⟨hr, by tauto⟩
    · intro h
      rcases h.2 with h2 | h2
      · rcases h2 with h3 | h3
        · exact Or.inl h3
        · exact Or.inr h3
      · exact hb h2

theorem item_price_high :
    (generateLargeDataset.item (fun _ => 999 / 1000) 0).price = 1009 := by
  have e : (generateLargeDataset.item (fun _ => 999 / 1000) 0).price
      = ⌊((999 : ℚ) / 1000) * 1000⌋ + 10 := rfl
  rw [e]
  have : ((999 : ℚ) / 1000) * 1000 = ((999 : Int) : ℚ) := by norm_num
  rw [this, Int.floor_intCast]
  rfl

/-- C23 fails on the code: a catalog of one item whose price draw is `999/1000` holds an
item priced 1009, and the render of the initial filter state (price range `[0, 1000]`)
finds 0 products in it. -/
theorem initial_range_drops_generated_item :
    (generateLargeDataset (fun _ => 999 / 1000) (some 1)).length = 1
      ∧ (generateLargeDataset (fun _ => 999 / 1000) (some 1)).map (fun p => p.price) = [1009]
      ∧ (render asciiHost 0 State.initial ⟨none, none⟩
          ⟨[generateLargeDataset (fun _ => 999 / 1000) (some 1)]⟩).1.found = Except.ok 0 := by
  have hcat : generateLargeDataset (fun _ => 999 / 1000) (some 1)
      = [generateLargeDataset.item (fun _ => 999 / 1000) 0] := rfl
  refine ⟨rfl, ?_, ?_⟩
  · rw [hcat, List.map_singleton, item_price_high]
  · have hread : (render asciiHost 0 State.initial ⟨none, none⟩
        ⟨[generateLargeDataset (fun _ => 999 / 1000) (some 1)]⟩).1.found
        = Except.ok
          ((filteredProductsWithMemo asciiHost 0 "" "all" (0, 1000) SortKey.name
              ⟨[generateLargeDataset (fun _ => 999 / 1000) (some 1)]⟩).2.read
            (filteredProductsWithMemo asciiHost 0 "" "all" (0, 1000) SortKey.name
              ⟨[generateLargeDataset (fun _ => 999 / 1000) (some 1)]⟩).1).length := rfl
    rw [hread, read_filteredProductsWithMemo, keptItems_eq_filter]
    have hfilter : (Heap.read ⟨[generateLargeDataset (fun _ => 999 / 1000) (some 1)]⟩ 0).filter
        (fun p => decide (Qualifies asciiHost "" "all" 0 1000 p)) = [] := by
      rw [hcat]
      simp [Heap.read, Qualifies, item_price_high]
    rw [hfilter]
    rfl

/-- Witness for C22 amended: the sample items searched for `"book"` and sorted by name. -/
theorem filterAndSortData_agrees_witness :
    (filterAndSortData plainHost 0 "book" (some SortKey.name) sampleHeap).2.read
        (filterAndSortData plainHost 0 "book" (some SortKey.name) sampleHeap).1
      = (filteredProductsWithMemo plainHost 0 "book" "all" (0, 1000) SortKey.name
          sampleHeap).2.read
          (filteredProductsWithMemo plainHost 0 "book" "all" (0, 1000) SortKey.name
            sampleHeap).1 :=
  filterAndSortData_agrees plainHost (by decide) 0 "book" SortKey.name 0 1000 sampleHeap
    (by decide) (by decide) (by decide)

end RealWorldExample
